import Mathlib

/-!
Verification of the asset-reference reconciliation and enrichment engine
(`app/assets/` of the repository) against its specification.

The relational store is shallowly embedded: the `assets` and
`asset_references` tables become Lean lists of structures, the SQL query
helpers of `app/assets/database/queries/asset_reference.py` become pure
functions on that store, and the orchestration code of
`app/assets/scanner.py` and `app/assets/services/bulk_ingest.py` is
translated statement by statement.  The filesystem is embedded as a finite
map from paths to stat outcomes.  Timestamp columns (`created_at`,
`updated_at`, `last_access_time`) are omitted from the embedding: none of
the modelled control flow branches on them.  Tag and typed-metadata
side-tables are likewise omitted; the operations that write them
(`bulk_insert_tags_and_meta`, `add_missing_tag_for_asset_id`,
`remove_missing_tag_for_asset_id`, `set_reference_tags`) touch neither the
`assets` nor the `asset_references` table, which are the tables the claims
speak about.  Identifiers (UUID strings in the source) are embedded as
naturals supplied by the caller; freshness of generated ids is a hypothesis
of the theorems that need it.
-/

namespace ComfyAssets

/-- Asset row (`app/assets/database/models.py`, class `Asset`):
`id`, nullable unique `hash`, `size_bytes`, nullable `mime_type`. -/
structure Asset where
  id : Nat
  hash : Option String
  size_bytes : Nat
  mime_type : Option String
deriving Repr, DecidableEq

/-- AssetReference row (`app/assets/database/models.py`, class
`AssetReference`).  `user_metadata` is an opaque JSON document in the
source; it is embedded as an opaque `Option String`.  DB defaults:
`needs_verify = false`, `is_missing = false`, `enrichment_level = 0`. -/
structure Reference where
  id : Nat
  asset_id : Nat
  file_path : Option String
  mtime_ns : Option Nat
  needs_verify : Bool
  is_missing : Bool
  enrichment_level : Nat
  owner_id : String
  name : String
  preview_id : Option Nat
  user_metadata : Option String
deriving Repr, DecidableEq

/-- The relational store: the two tables the claims are about. -/
structure Store where
  assets : List Asset
  refs : List Reference
deriving Repr, DecidableEq

/-- Outcome of `os.stat` on one path, as distinguished by the scanner's
`try/except` ladder (`scanner.py` lines 141-156): success with
`(st_mtime_ns, st_size)`, `FileNotFoundError`, `PermissionError`, or any
other `OSError`. -/
inductive StatResult where
  | ok (mtime_ns : Nat) (size : Nat)
  | notFound
  | permissionDenied
  | osError
deriving Repr, DecidableEq

/-- The filesystem: a finite map from absolute path to stat outcome;
a path not in the map stats as `FileNotFoundError`. -/
def FS : Type := List (String × StatResult)

/-- Shallow `os.stat`. -/
def statOf (fs : FS) (p : String) : StatResult :=
  match fs.find? (fun e => e.1 == p) with
  | some e => e.2
  | none => StatResult.notFound

/-- Path `p` lies strictly under directory `base` (`file_path LIKE base || sep || '%'`
as built by `get_references_for_prefixes` / `mark_references_missing_outside_prefixes`).
`os.sep` is embedded as `"/"`; paths are taken as already canonical absolute
strings (`os.path.abspath` is the identity on them). -/
def underDir (base p : String) : Bool :=
  let b := if base.data.getLast? == some ('/') then base else base ++ "/"
  b.data.isPrefixOf p.data

/-- Modelled from the spec: `verify_file_unchanged`
(`app/assets/services/file_utils.py`, not part of the excerpt).  Spec §4.2:
compare `(stat.mtime, stat.size)` against `(stored mtime_ns, stored
Asset.size_bytes)` using a tolerance-free exact match. -/
def verify_file_unchanged (mtime_db : Option Nat) (size_db : Nat)
    (st_mtime_ns st_size : Nat) : Bool :=
  mtime_db == some st_mtime_ns && size_db == st_size

/-! ## Query helpers from `app/assets/database/queries/asset_reference.py` -/

/-- `bulk_update_needs_verify` (asset_reference.py lines 808-822):
`UPDATE asset_references SET needs_verify = value WHERE id IN reference_ids`. -/
def bulk_update_needs_verify (σ : Store) (reference_ids : List Nat) (value : Bool) : Store :=
  { σ with refs := σ.refs.map fun r =>
      if r.id ∈ reference_ids then { r with needs_verify := value } else r }

/-- `bulk_update_is_missing` (asset_reference.py lines 825-839):
`UPDATE asset_references SET is_missing = value WHERE id IN reference_ids`. -/
def bulk_update_is_missing (σ : Store) (reference_ids : List Nat) (value : Bool) : Store :=
  { σ with refs := σ.refs.map fun r =>
      if r.id ∈ reference_ids then { r with is_missing := value } else r }

/-- `bulk_update_enrichment_level` (asset_reference.py lines 952-968):
`UPDATE asset_references SET enrichment_level = level WHERE id IN reference_ids`. -/
def bulk_update_enrichment_level (σ : Store) (reference_ids : List Nat) (level : Nat) : Store :=
  { σ with refs := σ.refs.map fun r =>
      if r.id ∈ reference_ids then { r with enrichment_level := level } else r }

/-- `delete_references_by_ids` (asset_reference.py lines 842-852). -/
def delete_references_by_ids (σ : Store) (reference_ids : List Nat) : Store :=
  { σ with refs := σ.refs.filter fun r => r.id ∉ reference_ids }

/-- `delete_orphaned_seed_asset` (asset_reference.py lines 855-867):
delete all references with this `asset_id`, then the asset row itself. -/
def delete_orphaned_seed_asset (σ : Store) (asset_id : Nat) : Store :=
  { assets := σ.assets.filter fun a => a.id ≠ asset_id
    refs := σ.refs.filter fun r => r.asset_id ≠ asset_id }

/-- `delete_assets_by_ids` (asset_reference.py lines 731-742):
delete references with `asset_id IN asset_ids`, then assets with `id IN asset_ids`. -/
def delete_assets_by_ids (σ : Store) (asset_ids : List Nat) : Store :=
  { assets := σ.assets.filter fun a => a.id ∉ asset_ids
    refs := σ.refs.filter fun r => r.asset_id ∉ asset_ids }

/-- `restore_references_by_paths` (asset_reference.py lines 693-707):
`UPDATE ... SET is_missing = false WHERE file_path IN file_paths AND is_missing`. -/
def restore_references_by_paths (σ : Store) (file_paths : List String) : Store :=
  if file_paths = [] then σ
  else
    { σ with refs := σ.refs.map fun r =>
        if (match r.file_path with
            | some p => p ∈ file_paths
            | none => false) && r.is_missing
        then { r with is_missing := false } else r }

/-- The per-row function of `restore_references_by_paths` for a singleton
path list (a statement abbreviation for the ingest equations). -/
def restoreOne (path : String) (x : Reference) : Reference :=
  if (match x.file_path with
      | some p => p ∈ [path]
      | none => false) && x.is_missing
  then { x with is_missing := false } else x

/-- `mark_references_missing_outside_prefixes` (asset_reference.py lines
666-690): when `valid_prefixes` is empty return 0 without touching anything;
otherwise soft-delete every non-missing reference whose non-null path is
under none of the prefixes.  Returns the updated store and the rowcount. -/
def mark_references_missing_outside_prefixes (σ : Store)
    (valid_prefixes : List String) : Store × Nat :=
  if valid_prefixes = [] then (σ, 0)
  else
    let hit : Reference → Bool := fun r =>
      match r.file_path with
      | none => false
      | some p => !(valid_prefixes.any fun b => underDir b p) && !r.is_missing
    ({ σ with refs := σ.refs.map fun r =>
        if hit r then { r with is_missing := true } else r },
     σ.refs.countP hit)

/-- `mark_assets_missing_outside_prefixes` (bulk_ingest.py lines 269-285):
thin wrapper over `mark_references_missing_outside_prefixes`. -/
def mark_assets_missing_outside_prefixes (σ : Store)
    (valid_prefixes : List String) : Store × Nat :=
  mark_references_missing_outside_prefixes σ valid_prefixes

/-- `bulk_insert_references_ignore_conflicts` (asset_reference.py lines
976-992): insert each row with `is_missing := false`, skipping a row whose
`file_path` is already claimed (ON CONFLICT DO NOTHING on the unique
`file_path` index); a row inserted earlier in the same batch also blocks. -/
def bulk_insert_references_ignore_conflicts (σ : Store) (rows : List Reference) : Store :=
  rows.foldl
    (fun acc row =>
      if acc.refs.any fun r => r.file_path == row.file_path then acc
      else { acc with refs := acc.refs ++ [{ row with is_missing := false }] })
    σ

/-- `get_references_by_paths_and_asset_ids` (asset_reference.py lines
995-1022): for the candidate paths, return those for which some stored
reference has that `file_path` and an `asset_id` among the attempted ids
(the SQL uses two independent IN-lists over the chunk; the embedding takes
the batch as one chunk).  The dict of the source keeps one entry per path;
the embedding dedups the key list. -/
def get_references_by_paths_and_asset_ids (σ : Store)
    (path_to_asset : List (String × Nat)) : List String :=
  let vals := path_to_asset.map (fun e => e.2)
  (path_to_asset.map (fun e => e.1)).dedup.filter fun p =>
    σ.refs.any fun r => r.file_path == some p && r.asset_id ∈ vals

/-- `get_reference_ids_by_ids` (asset_reference.py lines 1025-1039):
which of the given reference ids exist in the store. -/
def get_reference_ids_by_ids (σ : Store) (reference_ids : List Nat) : List Nat :=
  reference_ids.filter fun i => σ.refs.any fun r => r.id == i

/-! ## Spec-modelled query helpers

The bulk-insert and hash-lookup helpers for the `assets` table live in a
query module that is not part of the excerpt (only their import sites in
`scanner.py` / `bulk_ingest.py` are).  They are modelled from the spec. -/

/-- Modelled from the spec: `bulk_insert_assets` (missing from the excerpt).
Spec §4.3 step 1: insert all Assets in one batch; a content-addressed
conflict on `hash` (unique when present, null excluded) is silently
dropped — "last write doesn't win, first wins".  An earlier row of the same
batch also blocks a later one with the same non-null hash. -/
def bulk_insert_assets (σ : Store) (rows : List Asset) : Store :=
  rows.foldl
    (fun acc a =>
      match a.hash with
      | some _ =>
          if acc.assets.any fun b => b.hash == a.hash then acc
          else { acc with assets := acc.assets ++ [a] }
      | none => { acc with assets := acc.assets ++ [a] })
    σ

/-- Modelled from the spec: `get_existing_asset_ids` (missing from the
excerpt).  Spec §4.3 step 2: query which of the just-attempted Asset ids
actually landed. -/
def get_existing_asset_ids (σ : Store) (asset_ids : List Nat) : List Nat :=
  asset_ids.filter fun i => σ.assets.any fun a => a.id == i

/-- Modelled from the spec: `get_asset_by_hash` (missing from the excerpt).
Invariant (a) of §3: at most one Asset per non-null hash; the lookup
returns the Asset bearing the given hash, if any. -/
def get_asset_by_hash (σ : Store) (h : String) : Option Asset :=
  σ.assets.find? fun a => a.hash == some h

/-- Modelled from the spec: `update_asset_hash_and_mime` (missing from the
excerpt).  Applies the given non-null hash and/or mime type to the Asset
row with the given id (spec §4.4: the newly observed mime type "is applied
to the surviving Asset", success of hashing records the hash). -/
def update_asset_hash_and_mime (σ : Store) (asset_id : Nat)
    (h : Option String) (mime : Option String) : Store :=
  { σ with assets := σ.assets.map fun a =>
      if a.id = asset_id then
        { a with hash := if h.isSome then h else a.hash
                 mime_type := if mime.isSome then mime else a.mime_type }
      else a }

/-- Modelled from the spec: `reassign_asset_references` (missing from the
excerpt).  Spec §4.4: the Reference is re-pointed (`asset_id` reassigned)
to the pre-existing Asset and the freshly-stubbed Asset is left with zero
References ("cascading its now-zero References"): every reference of the
old asset is re-pointed to the surviving one.  The third argument is the
reference that triggered the merge. -/
def reassign_asset_references (σ : Store) (old_asset_id new_asset_id : Nat)
    (_reference_id : Nat) : Store :=
  { σ with refs := σ.refs.map fun r =>
      if r.asset_id = old_asset_id then { r with asset_id := new_asset_id } else r }

/-- Modelled from the spec: `build_visible_owner_clause`
(`queries/common.py`, missing from the excerpt).  Spec §3: `owner_id`
empty string = globally visible; non-empty = private to that owner,
visible only to the matching caller. -/
def visible_to (caller : String) (owner : String) : Bool :=
  owner == "" || owner == caller

/-- `set_reference_metadata` (asset_reference.py lines 499-539): raises
`ValueError` when the reference id is unknown (embedded as `none`);
otherwise replaces `user_metadata` (`user_metadata or ` the empty document;
the typed projection side-table is outside the embedded store). -/
def set_reference_metadata (σ : Store) (reference_id : Nat)
    (user_metadata : Option String) : Option Store :=
  if σ.refs.any fun r => r.id == reference_id then
    some { σ with refs := σ.refs.map fun r =>
      if r.id = reference_id then
        { r with user_metadata := some (user_metadata.getD "") }
      else r }
  else none

/-! ## The Reconciler (`scanner.py`, `sync_references_with_filesystem`) -/

/-- `CacheStateRow` (asset_reference.py lines 584-593): one row of the
reference/asset join returned by `get_references_for_prefixes`. -/
structure CacheStateRow where
  reference_id : Nat
  file_path : String
  mtime_ns : Option Nat
  needs_verify : Bool
  asset_id : Nat
  asset_hash : Option String
  size_bytes : Nat
deriving Repr, DecidableEq

/-- Inner join against the `assets` table: the asset row for an id
(`Asset.id == AssetReference.asset_id`). -/
def assetFor (σ : Store) (asset_id : Nat) : Option Asset :=
  σ.assets.find? fun a => a.id == asset_id

/-- The row `get_references_for_prefixes` produces for one reference, if
any: the path must be non-null and under one of the prefixes, missing rows
are excluded unless `include_missing`, and the join requires the asset row. -/
def rowFor (σ : Store) (prefixes : List String) (include_missing : Bool)
    (r : Reference) : Option CacheStateRow :=
  match r.file_path with
  | none => none
  | some p =>
      if (prefixes.any fun b => underDir b p) && (include_missing || !r.is_missing) then
        (assetFor σ r.asset_id).map fun a =>
          { reference_id := r.id, file_path := p, mtime_ns := r.mtime_ns,
            needs_verify := r.needs_verify, asset_id := r.asset_id,
            asset_hash := a.hash, size_bytes := a.size_bytes }
      else none

/-- `get_references_for_prefixes` (asset_reference.py lines 745-805).  The
SQL orders rows by `(asset_id, id)`; the embedding keeps table order — the
ordering only affects the iteration order of the scanner's per-asset dict,
and every consumer of the computed id/path lists is order-insensitive. -/
def get_references_for_prefixes (σ : Store) (prefixes : List String)
    (include_missing : Bool) : List CacheStateRow :=
  σ.refs.filterMap (rowFor σ prefixes include_missing)

/-- `_RefInfo` (scanner.py lines 44-49); the source key `exists` is the
field `file_exists` here (`exists` is reserved in Lean). -/
structure RefInfo where
  ref_id : Nat
  fp : String
  file_exists : Bool
  fast_ok : Bool
  needs_verify : Bool
deriving Repr, DecidableEq

/-- The `exists` flag of the stat ladder (scanner.py lines 141-156):
`FileNotFoundError` and generic `OSError` mean absent, a successful stat
and `PermissionError` mean present. -/
def fileExistsAt (fs : FS) (p : String) : Bool :=
  match statOf fs p with
  | StatResult.ok _ _ => true
  | StatResult.notFound => false
  | StatResult.permissionDenied => true
  | StatResult.osError => false

/-- The `fast_ok` flag: a successful stat compared by
`verify_file_unchanged`; any stat exception leaves it false. -/
def fastOkAt (fs : FS) (p : String) (mtime_db : Option Nat) (size_db : Nat) : Bool :=
  match statOf fs p with
  | StatResult.ok m s => verify_file_unchanged mtime_db size_db m s
  | _ => false

/-- Classification of one reference (scanner.py lines 141-166): stat the
path; the fast check compares against the stored mtime and the size of
the group's asset (`acc["size_db"]`). -/
def rowInfo (fs : FS) (size_db : Nat) (row : CacheStateRow) : RefInfo :=
  { ref_id := row.reference_id
    fp := row.file_path
    file_exists := fileExistsAt fs row.file_path
    fast_ok := fastOkAt fs row.file_path row.mtime_ns size_db
    needs_verify := row.needs_verify }

/-- The group of rows accumulated for one asset id (`by_asset` dict,
scanner.py lines 134-139). -/
def groupRows (rows : List CacheStateRow) (aid : Nat) : List CacheStateRow :=
  rows.filter fun row => row.asset_id == aid

/-- `acc["size_db"]`: the asset size captured from the first row of the
group (all rows of a group join the same asset row). -/
def groupSize (rows : List CacheStateRow) (aid : Nat) : Nat :=
  match (groupRows rows aid).head? with
  | some row => row.size_bytes
  | none => 0

/-- `acc["hash"]`: the asset hash captured from the first row of the group. -/
def groupHash (rows : List CacheStateRow) (aid : Nat) : Option String :=
  match (groupRows rows aid).head? with
  | some row => row.asset_hash
  | none => none

/-- The classified infos of one asset group. -/
def groupInfos (fs : FS) (rows : List CacheStateRow) (aid : Nat) : List RefInfo :=
  (groupRows rows aid).map (rowInfo fs (groupSize rows aid))

/-- The asset ids of the scanned rows, one per group.  The source iterates
the `by_asset` dict in first-insertion order; since every consumer of the
resulting lists is order-insensitive, the embedding uses `dedup`. -/
def groupIds (rows : List CacheStateRow) : List Nat :=
  (rows.map fun row => row.asset_id).dedup

/-- The grouped bulk-operation lists computed by one reconciliation pass
(scanner.py lines 168-173), plus the stub asset ids deleted inside the
loop and the surviving paths. -/
structure SyncOut where
  to_set_verify : List Nat
  to_clear_verify : List Nat
  stale_ref_ids : List Nat
  to_mark_missing : List Nat
  to_clear_missing : List Nat
  stub_deleted : List Nat
  survivors : List String
deriving Repr, DecidableEq

/-- Whether the group decision deletes the whole stub asset (scanner.py
lines 192-194: hash is null, group non-empty, every ref's file absent). -/
def groupStubDeleted (fs : FS) (rows : List CacheStateRow) (aid : Nat) : Bool :=
  groupHash rows aid == none &&
    !(groupInfos fs rows aid).isEmpty &&
    (groupInfos fs rows aid).all fun i => !i.file_exists

/-- Whether some ref of the group passed the fast check (`any_fast_ok`). -/
def groupAnyFastOk (fs : FS) (rows : List CacheStateRow) (aid : Nat) : Bool :=
  (groupInfos fs rows aid).any fun i => i.fast_ok

/-- The per-reference flag lists of the loop body (scanner.py lines
181-190), flattened over the groups. -/
def computeSync (fs : FS) (rows : List CacheStateRow) : SyncOut :=
  let gids := groupIds rows
  { to_set_verify :=
      gids.flatMap fun aid =>
        ((groupInfos fs rows aid).filter fun i =>
          i.file_exists && !i.fast_ok && !i.needs_verify).map fun i => i.ref_id
    to_clear_verify :=
      gids.flatMap fun aid =>
        ((groupInfos fs rows aid).filter fun i =>
          i.file_exists && i.fast_ok && i.needs_verify).map fun i => i.ref_id
    stale_ref_ids :=
      gids.flatMap fun aid =>
        if groupHash rows aid != none && groupAnyFastOk fs rows aid then
          ((groupInfos fs rows aid).filter fun i => !i.file_exists).map fun i => i.ref_id
        else []
    to_mark_missing :=
      gids.flatMap fun aid =>
        ((groupInfos fs rows aid).filter fun i => !i.file_exists).map fun i => i.ref_id
    to_clear_missing :=
      gids.flatMap fun aid =>
        ((groupInfos fs rows aid).filter fun i =>
          i.file_exists && i.fast_ok).map fun i => i.ref_id
    stub_deleted := gids.filter fun aid => groupStubDeleted fs rows aid
    survivors :=
      gids.flatMap fun aid =>
        if groupStubDeleted fs rows aid then []
        else ((groupInfos fs rows aid).filter fun i => i.file_exists).map fun i => i.fp }

/-- The database mutations of one pass in source order (scanner.py lines
192-228): stub deletions inside the loop, then stale deletions, then the
four bulk flag updates (the mark-missing list is first filtered by the
stale set). -/
def applySync (σ : Store) (o : SyncOut) : Store :=
  let σ1 := o.stub_deleted.foldl delete_orphaned_seed_asset σ
  let σ2 := delete_references_by_ids σ1 o.stale_ref_ids
  let mark := o.to_mark_missing.filter fun i => i ∉ o.stale_ref_ids
  let σ3 := bulk_update_is_missing σ2 mark true
  let σ4 := bulk_update_is_missing σ3 o.to_clear_missing false
  let σ5 := bulk_update_needs_verify σ4 o.to_set_verify true
  bulk_update_needs_verify σ5 o.to_clear_verify false

/-- `sync_references_with_filesystem` (scanner.py lines 103-230).  The
`prefixes` argument stands for `get_prefixes_for_root(root)` (environment
configuration); `update_missing_tags` doubles as `include_missing` of the
row query (line 130-132); the missing-tag side effects touch only the tag
join table, which is outside the embedded store.  Returns the new store
and the surviving absolute paths (returned when `collect_existing_paths`). -/
def sync_references_with_filesystem (fs : FS) (σ : Store)
    (prefixes : List String) (update_missing_tags : Bool) : Store × List String :=
  if prefixes = [] then (σ, [])
  else
    let rows := get_references_for_prefixes σ prefixes update_missing_tags
    let o := computeSync fs rows
    (applySync σ o, o.survivors)

/-! ## Bulk ingest (`app/assets/services/bulk_ingest.py`) -/

/-- `SeedAssetSpec` (bulk_ingest.py lines 29-40).  The extracted metadata
is embedded by the two projections the ingest code uses: the mime type
(`metadata.content_type`, already copied into `mime_type` by the caller)
and the opaque user document `metadata.to_user_metadata()`. -/
structure SeedAssetSpec where
  abs_path : String
  size_bytes : Nat
  mtime_ns : Nat
  info_name : String
  tags : List String
  fname : Option String
  metadata_user_doc : Option String
  hash : Option String
  mime_type : Option String
deriving Repr, DecidableEq

/-- `BulkInsertResult` (bulk_ingest.py lines 90-97). -/
structure BulkInsertResult where
  inserted_refs : Nat
  won_paths : Nat
  lost_paths : Nat
deriving Repr, DecidableEq

/-- The Asset row built for one spec (bulk_ingest.py lines 142-150). -/
def specAssetRow (spec : SeedAssetSpec) (asset_id : Nat) : Asset :=
  { id := asset_id, hash := spec.hash, size_bytes := spec.size_bytes,
    mime_type := spec.mime_type }

/-- The `user_metadata` document built for one spec (bulk_ingest.py lines
152-159): the extracted document, else a filename fallback document, else
null.  The fallback document `{"filename": fname}` is embedded opaquely. -/
def specUserMetadata (spec : SeedAssetSpec) : Option String :=
  match spec.metadata_user_doc with
  | some d => some d
  | none =>
      match spec.fname with
      | some f => if f = "" then none else some ("filename:" ++ f)
      | none => none

/-- The Reference row built for one spec (bulk_ingest.py lines 161-175). -/
def specReferenceRow (spec : SeedAssetSpec) (asset_id reference_id : Nat)
    (owner_id : String) : Reference :=
  { id := reference_id, asset_id := asset_id, file_path := some spec.abs_path,
    mtime_ns := some spec.mtime_ns, needs_verify := false, is_missing := false,
    enrichment_level := 0, owner_id := owner_id, name := spec.info_name,
    preview_id := none, user_metadata := specUserMetadata spec }

/-- Last-binding lookup in an association list (Python dict semantics:
a later assignment to the same key overwrites an earlier one). -/
def dictLookup (l : List (String × Nat)) (k : String) : Option Nat :=
  (l.reverse.find? fun e => e.1 == k).map fun e => e.2

/-- `batch_insert_seed_assets` (bulk_ingest.py lines 99-266).  The fresh
`uuid4` ids of the source are supplied by the caller as one
`(asset_id, reference_id)` pair per spec (`ids`), freshness being a
hypothesis of the theorems.  Steps, in source order: build rows; bulk
insert assets (hash-conflict drop); keep reference rows whose asset
landed; insert references with path-conflict drop; restore soft-deleted
rows for the candidate paths; query winners; delete loser assets; count
inserted reference rows.  The tag/metadata batch (lines 220-260) writes
only the tag and typed-projection tables, which are outside the embedded
store. -/
def batch_insert_seed_assets (σ : Store) (specs : List SeedAssetSpec)
    (ids : List (Nat × Nat)) (owner_id : String) : Store × BulkInsertResult :=
  if specs = [] then (σ, { inserted_refs := 0, won_paths := 0, lost_paths := 0 })
  else
    let zipped := specs.zip ids
    let asset_rows := zipped.map fun z => specAssetRow z.1 z.2.1
    let reference_rows := zipped.map fun z => specReferenceRow z.1 z.2.1 z.2.2 owner_id
    let path_to_asset_id := zipped.map fun z => (z.1.abs_path, z.2.1)
    let absolute_path_list := zipped.map fun z => z.1.abs_path
    let σ1 := bulk_insert_assets σ asset_rows
    let inserted_asset_ids :=
      get_existing_asset_ids σ1 (reference_rows.map fun r => r.asset_id)
    let reference_rows := reference_rows.filter fun r => r.asset_id ∈ inserted_asset_ids
    let σ2 := bulk_insert_references_ignore_conflicts σ1 reference_rows
    let σ3 := restore_references_by_paths σ2 absolute_path_list
    let winning_paths := get_references_by_paths_and_asset_ids σ3 path_to_asset_id
    let losing_paths := absolute_path_list.dedup.filter fun p => p ∉ winning_paths
    let lost_asset_ids := losing_paths.filterMap (dictLookup path_to_asset_id)
    let σ4 := if lost_asset_ids ≠ [] then delete_assets_by_ids σ3 lost_asset_ids else σ3
    if winning_paths = [] then
      (σ4, { inserted_refs := 0, won_paths := 0, lost_paths := losing_paths.length })
    else
      let winning_ref_ids := winning_paths.filterMap fun p =>
        (dictLookup path_to_asset_id p).bind fun aid =>
          (zipped.find? fun z => z.2.1 == aid).map fun z => z.2.2
      let inserted_ref_ids := get_reference_ids_by_ids σ4 winning_ref_ids
      (σ4, { inserted_refs := inserted_ref_ids.length,
             won_paths := winning_paths.length,
             lost_paths := losing_paths.length })

/-! ## Enrichment (`scanner.py`, `enrich_asset`) -/

/-- The extracted metadata object (`extract_file_metadata` result) as the
enrichment code consumes it: `content_type` and the opaque
`to_user_metadata()` document. -/
structure ExtractedMeta where
  content_type : Option String
  user_doc : String
deriving Repr, DecidableEq

/-- The external collaborators of `enrich_asset`: the filesystem, the
metadata extractor `extract_metadata(path, ...) -> Metadata | None`, and
the hash function `compute_content_hash(path) -> digest` which may raise
(embedded as `none`). -/
structure EnrichEnv where
  fs : FS
  extract_file_metadata : String → Option ExtractedMeta
  compute_blake3_hash : String → Option String

/-- `ENRICHMENT_STUB` (scanner.py line 462). -/
def ENRICHMENT_STUB : Nat := 0

/-- `ENRICHMENT_METADATA` (scanner.py line 463). -/
def ENRICHMENT_METADATA : Nat := 1

/-- `ENRICHMENT_HASHED` (scanner.py line 464). -/
def ENRICHMENT_HASHED : Nat := 2

/-- `enrich_asset` (scanner.py lines 495-564).  A failed stat (any
`OSError`, `PermissionError` included) returns the stub level without
touching the store; `set_reference_metadata` raising `ValueError` on an
unknown reference id surfaces as `none`. -/
def enrich_asset (env : EnrichEnv) (σ : Store) (file_path : String)
    (reference_id asset_id : Nat) (extract_metadata compute_hash : Bool) :
    Option (Store × Nat) :=
  match statOf env.fs file_path with
  | StatResult.ok _ _ =>
      let md := if extract_metadata then env.extract_file_metadata file_path else none
      let mime_type := match md with
        | some m => m.content_type
        | none => none
      let level1 := match md with
        | some _ => ENRICHMENT_METADATA
        | none => ENRICHMENT_STUB
      let digest := if compute_hash then env.compute_blake3_hash file_path else none
      let full_hash := digest.map fun d => "blake3:" ++ d
      let new_level := match full_hash with
        | some _ => ENRICHMENT_HASHED
        | none => level1
      let step1 : Option Store :=
        match md with
        | some m => set_reference_metadata σ reference_id (some m.user_doc)
        | none => some σ
      match step1 with
      | none => none
      | some σa =>
          let σb :=
            match full_hash with
            | some h =>
                match get_asset_by_hash σa h with
                | some existing =>
                    if existing.id ≠ asset_id then
                      let σm := reassign_asset_references σa asset_id existing.id reference_id
                      let σm := delete_orphaned_seed_asset σm asset_id
                      if mime_type.isSome then
                        update_asset_hash_and_mime σm existing.id none mime_type
                      else σm
                    else update_asset_hash_and_mime σa asset_id (some h) mime_type
                | none => update_asset_hash_and_mime σa asset_id (some h) mime_type
            | none =>
                if mime_type.isSome then
                  update_asset_hash_and_mime σa asset_id none mime_type
                else σa
          some (bulk_update_enrichment_level σb [reference_id] new_level, new_level)
  | _ => some (σ, ENRICHMENT_STUB)

/-! ## Direct mutation APIs (`app/assets/services/asset_management.py`) -/

/-- User-visible outcome of a direct mutation API call: the error taxonomy
of spec §7 as far as these services distinguish it. -/
inductive MutationOutcome where
  | notFound
  | permissionDenied
  | ok
deriving Repr, DecidableEq

/-- The lookup-and-authorize prelude of `update_asset_metadata`
(asset_management.py lines 69-74) and `set_asset_preview` (lines 185-190):
`get_reference_by_id` without owner filtering, `ValueError` when absent,
`PermissionError` when the reference is private to a different owner. -/
def update_asset_metadata_outcome (σ : Store) (reference_id : Nat)
    (owner_id : String) : MutationOutcome :=
  match σ.refs.find? fun r => r.id == reference_id with
  | none => MutationOutcome.notFound
  | some ref =>
      if ref.owner_id ≠ "" ∧ ref.owner_id ≠ owner_id then
        MutationOutcome.permissionDenied
      else MutationOutcome.ok

/-- `delete_reference_by_id` (asset_reference.py lines 546-555):
`DELETE ... WHERE id = reference_id AND` the visible-owner clause; returns
whether a row was deleted. -/
def delete_reference_by_id (σ : Store) (reference_id : Nat) (owner_id : String) :
    Store × Bool :=
  let hit : Reference → Bool := fun r =>
    r.id == reference_id && visible_to owner_id r.owner_id
  ({ σ with refs := σ.refs.filter fun r => !hit r }, σ.refs.any hit)

/-- `delete_asset_reference` (asset_management.py lines 130-177), up to the
boolean the caller observes: the reference row is read (unused for the
outcome), then `delete_reference_by_id` decides; `False` is returned both
when the id is unknown and when the visible-owner clause rejects the
caller.  The orphan-asset cleanup that follows a successful delete is
irrelevant to the returned boolean. -/
def delete_asset_reference_result (σ : Store) (reference_id : Nat)
    (owner_id : String) : Bool :=
  (delete_reference_by_id σ reference_id owner_id).2

/-! ## Statement-level abbreviations

Derived views of the embedded operations, used to state and prove the
properties below. -/

/-- The reference row with a given id, as the store's primary key lookup. -/
def findRef (σ : Store) (i : Nat) : Option Reference :=
  σ.refs.find? fun r => r.id == i

/-- The asset row with a given id. -/
def findAsset (σ : Store) (i : Nat) : Option Asset :=
  σ.assets.find? fun a => a.id == i

/-- Whether one reconciliation pass scans this reference: non-null path
under a prefix, not filtered out as missing, and its asset row joins. -/
def scannedRef (σ : Store) (prefixes : List String) (include_missing : Bool)
    (r : Reference) : Bool :=
  (rowFor σ prefixes include_missing r).isSome

/-- The `exists` classification of a reference during a pass (a reference
with a null path is never scanned; the value is then irrelevant). -/
def refFileExists (fs : FS) (r : Reference) : Bool :=
  match r.file_path with
  | some p => fileExistsAt fs p
  | none => false

/-- The asset size the fast check of this reference compares against
(`acc["size_db"]`, the size of the joined asset row). -/
def refSizeDB (σ : Store) (r : Reference) : Nat :=
  match assetFor σ r.asset_id with
  | some a => a.size_bytes
  | none => 0

/-- The `fast_ok` classification of a reference during a pass. -/
def refFastOk (fs : FS) (σ : Store) (r : Reference) : Bool :=
  match r.file_path with
  | some p => fastOkAt fs p r.mtime_ns (refSizeDB σ r)
  | none => false

/-- The classification record a scanned reference contributes to its group. -/
def infoOf (fs : FS) (rows : List CacheStateRow) (row : CacheStateRow) : RefInfo :=
  rowInfo fs (groupSize rows row.asset_id) row

/-- Whether a reference row survives the deletions of a pass. -/
def keepRef (o : SyncOut) (r : Reference) : Bool :=
  r.asset_id ∉ o.stub_deleted && r.id ∉ o.stale_ref_ids

/-- The combined effect of the four bulk flag updates of a pass on one
surviving reference row. -/
def flagUpd (o : SyncOut) (r : Reference) : Reference :=
  { r with
    is_missing :=
      if r.id ∈ o.to_clear_missing then false
      else if r.id ∈ o.to_mark_missing.filter (fun i => i ∉ o.stale_ref_ids) then true
      else r.is_missing
    needs_verify :=
      if r.id ∈ o.to_clear_verify then false
      else if r.id ∈ o.to_set_verify then true
      else r.needs_verify }

/-- The enrichment level freshly computed by one `enrich_asset` call with a
successful stat (scanner.py lines 514-542): hashing success gives HASHED,
else a non-null extraction gives METADATA, else STUB. -/
def computed_enrichment_level (env : EnrichEnv) (file_path : String) (em ch : Bool) : Nat :=
  match (if ch then env.compute_blake3_hash file_path else none) with
  | some _ => ENRICHMENT_HASHED
  | none =>
      match (if em then env.extract_file_metadata file_path else none) with
      | some _ => ENRICHMENT_METADATA
      | none => ENRICHMENT_STUB

/-- The mime type one `enrich_asset` call observes: the content type of a
successful metadata extraction (scanner.py lines 517-520). -/
def observed_mime (env : EnrichEnv) (file_path : String) (em : Bool) : Option String :=
  match (if em then env.extract_file_metadata file_path else none) with
  | some m => m.content_type
  | none => none

/-- The store after the metadata step of `enrich_asset` (scanner.py lines
522-529): a successful extraction writes the extracted document into the
reference row, otherwise the store is untouched. -/
def post_metadata_store (env : EnrichEnv) (σ : Store) (file_path : String)
    (rid : Nat) (em : Bool) : Store :=
  match (if em then env.extract_file_metadata file_path else none) with
  | some m => { σ with refs := σ.refs.map fun x =>
      if x.id = rid then { x with user_metadata := some m.user_doc } else x }
  | none => σ

/-- The hash-merge branch of `enrich_asset` (scanner.py lines 544-562) as
one store transformer: re-point the references of the losing asset to the
surviving one, delete the orphaned loser, apply an observed mime type to
the survivor, and write the HASHED level on the triggering reference. -/
def merge_chain (σa : Store) (aid new_id rid : Nat) (obs : Option String) : Store :=
  bulk_update_enrichment_level
    (if obs.isSome then
      update_asset_hash_and_mime
        (delete_orphaned_seed_asset
          (reassign_asset_references σa aid new_id rid) aid) new_id none obs
     else
      delete_orphaned_seed_asset
        (reassign_asset_references σa aid new_id rid) aid)
    [rid] ENRICHMENT_HASHED

/-! ## Concrete stores and filesystems used as test vectors -/

/-- A reference of a hashed asset whose file is present with a changed
mtime (fast check fails). -/
def exRefChanged : Reference :=
  { id := 2, asset_id := 1, file_path := some "/m/a.bin", mtime_ns := some 100,
    needs_verify := false, is_missing := false, enrichment_level := 2,
    owner_id := "", name := "a", preview_id := none, user_metadata := some "doc-a" }

/-- Store with one hashed asset and `exRefChanged`. -/
def exStoreHashed : Store :=
  { assets := [{ id := 1, hash := some "blake3:h", size_bytes := 1024, mime_type := none }],
    refs := [exRefChanged] }

/-- Filesystem where the file is present but its mtime moved to 200
(size unchanged). -/
def exFsChanged : FS := [("/m/a.bin", StatResult.ok 200 1024)]

/-- Filesystem where stat of the file raises a generic `OSError`. -/
def exFsOsError : FS := [("/m/a.bin", StatResult.osError)]

/-- Filesystem where stat raises `PermissionError`. -/
def exFsPermDenied : FS := [("/m/a.bin", StatResult.permissionDenied)]

/-- Filesystem where the file is absent. -/
def exFsGone : FS := []

/-- Filesystem matching the stored `(mtime, size)` exactly. -/
def exFsIntact : FS := [("/m/a.bin", StatResult.ok 100 1024)]

/-- A second reference of the same hashed asset, at another path. -/
def exRefSibling : Reference :=
  { id := 3, asset_id := 1, file_path := some "/m/b.bin", mtime_ns := some 50,
    needs_verify := false, is_missing := false, enrichment_level := 2,
    owner_id := "", name := "b", preview_id := none, user_metadata := some "doc-s" }

/-- The hashed asset with two references (`exRefChanged` and its sibling). -/
def exStoreTwoRefs : Store :=
  { assets := [{ id := 1, hash := some "blake3:h", size_bytes := 1024, mime_type := none }],
    refs := [exRefChanged, exRefSibling] }

/-- Filesystem where `exRefChanged`'s file is gone but the sibling's file
matches its stored `(mtime, size)` exactly (fast-ok). -/
def exFsSiblingOk : FS := [("/m/b.bin", StatResult.ok 50 1024)]

/-- A stub (unhashed) asset with one reference. -/
def exStoreStub : Store :=
  { assets := [{ id := 1, hash := none, size_bytes := 5, mime_type := none }],
    refs := [{ id := 2, asset_id := 1, file_path := some "/m/x.bin",
               mtime_ns := some 7, needs_verify := false, is_missing := false,
               enrichment_level := 0, owner_id := "", name := "x",
               preview_id := none, user_metadata := none }] }

/-- A reference private to owner `alice`. -/
def exRefPrivate : Reference :=
  { id := 2, asset_id := 1, file_path := none, mtime_ns := none,
    needs_verify := false, is_missing := false, enrichment_level := 0,
    owner_id := "alice", name := "private", preview_id := none,
    user_metadata := none }

/-- A store with one private reference owned by `alice`. -/
def exStorePrivate : Store :=
  { assets := [{ id := 1, hash := none, size_bytes := 5, mime_type := none }],
    refs := [exRefPrivate] }

/-- Enrichment scenario: a pre-existing hashed asset (id 1) and a stub
asset (id 2) with one reference (id 3) whose file has the same content. -/
def exStoreMerge : Store :=
  { assets := [{ id := 1, hash := some "blake3:d", size_bytes := 5, mime_type := none },
               { id := 2, hash := none, size_bytes := 5, mime_type := none }],
    refs := [{ id := 3, asset_id := 2, file_path := some "/m/b.bin",
               mtime_ns := some 100, needs_verify := false, is_missing := false,
               enrichment_level := 0, owner_id := "", name := "b",
               preview_id := none, user_metadata := none }] }

/-- Enrichment environment for the merge scenario: extraction yields a
mime type, hashing yields the digest `d` shared with asset 1. -/
def exEnvMerge : EnrichEnv :=
  { fs := [("/m/b.bin", StatResult.ok 100 5)]
    extract_file_metadata := fun _ =>
      some { content_type := some "application/x-bin", user_doc := "doc-b" }
    compute_blake3_hash := fun _ => some "d" }

/-- A reference that has already reached level METADATA(1). -/
def exRefLevel1 : Reference :=
  { id := 3, asset_id := 1, file_path := some "/m/b.bin", mtime_ns := some 100,
    needs_verify := false, is_missing := false, enrichment_level := 1,
    owner_id := "", name := "b", preview_id := none, user_metadata := none }

/-- A store whose single reference has already reached level 1. -/
def exStoreLevel1 : Store :=
  { assets := [{ id := 1, hash := none, size_bytes := 5, mime_type := none }],
    refs := [exRefLevel1] }

/-- Enrichment environment where metadata extraction yields nothing and
hashing is never invoked. -/
def exEnvNothing : EnrichEnv :=
  { fs := [("/m/b.bin", StatResult.ok 100 5)],
    extract_file_metadata := fun _ => none,
    compute_blake3_hash := fun _ => none }

/-- A stub ingest spec for one path (no hash, no extracted metadata). -/
def exSpecStub : SeedAssetSpec :=
  { abs_path := "/m/c.bin", size_bytes := 1024, mtime_ns := 11,
    info_name := "c.bin", tags := ["models"], fname := some "c.bin",
    metadata_user_doc := none, hash := none, mime_type := none }

/-! ## Generic keyed-table lemmas -/

/-- A keyed find over a filtered and per-row-updated table returns the
updated image of the unique row with that key. -/
theorem find?_map_filter_of_key {α : Type} (key : α → Nat) (g : α → α) (keep : α → Bool)
    (hg : ∀ x, key (g x) = key x) :
    ∀ (l : List α), (l.map key).Nodup → ∀ x, x ∈ l → keep x = true →
      ((l.filter keep).map g).find? (fun y => key y == key x) = some (g x) := by
  intro l
  induction l with
  | nil => intro _ x hx; cases hx
  | cons h t ih =>
      intro hN x hx hkeep
      rw [List.map_cons] at hN
      obtain ⟨hhd, hN'⟩ := List.nodup_cons.mp hN
      rcases List.mem_cons.mp hx with rfl | hx'
      · rw [List.filter_cons_of_pos hkeep, List.map_cons,
          List.find?_cons_of_pos _ (by simp [hg])]
      · have hne : (key h == key x) = false := by
          simp only [beq_eq_false_iff_ne, ne_eq]
          intro he
          exact hhd (he ▸ List.mem_map_of_mem key hx')
        by_cases hkh : keep h = true
        · rw [List.filter_cons_of_pos hkh, List.map_cons,
            List.find?_cons_of_neg _ (by simp [hg, hne]), ih hN' x hx' hkeep]
        · rw [List.filter_cons_of_neg (by simpa using hkh), ih hN' x hx' hkeep]

/-- A keyed find over a filtered and per-row-updated table misses a row
that the filter dropped. -/
theorem find?_map_filter_of_key_none {α : Type} (key : α → Nat) (g : α → α) (keep : α → Bool)
    (hg : ∀ x, key (g x) = key x)
    (l : List α) (hN : (l.map key).Nodup) (x : α) (hx : x ∈ l) (hkeep : keep x = false) :
    ((l.filter keep).map g).find? (fun y => key y == key x) = none := by
  rw [List.find?_eq_none]
  intro y hy
  rcases List.mem_map.mp hy with ⟨z, hz, rfl⟩
  rcases List.mem_filter.mp hz with ⟨hzl, hzk⟩
  simp only [hg, beq_iff_eq]
  intro he
  have : z = x := List.inj_on_of_nodup_map hN hzl hx he
  subst this
  rw [hzk] at hkeep
  cases hkeep

/-- A find by a predicate that a unique member satisfies returns it. -/
theorem find?_eq_of_unique {α : Type} (p : α → Bool) :
    ∀ (l : List α) (x : α), x ∈ l → p x = true → (∀ y ∈ l, p y = true → y = x) →
      l.find? p = some x := by
  intro l
  induction l with
  | nil => intro x hx; cases hx
  | cons h t ih =>
      intro x hx hp huniq
      by_cases hph : p h = true
      · have : h = x := huniq h (List.mem_cons_self h t) hph
        subst this
        exact List.find?_cons_of_pos _ hph
      · rw [List.find?_cons_of_neg _ (by simpa using hph)]
        have hx' : x ∈ t := by
          rcases List.mem_cons.mp hx with rfl | hx'
          · exact absurd hp hph
          · exact hx'
        exact ih x hx' hp (fun y hy hpy => huniq y (List.mem_cons_of_mem _ hy) hpy)

/-- A predicate that exactly one member of a duplicate-free list satisfies
is counted once. -/
theorem countP_eq_one_of_unique {α : Type} (p : α → Bool) :
    ∀ (l : List α) (x : α), x ∈ l → p x = true → (∀ y ∈ l, p y = true → y = x) →
      l.Nodup → l.countP p = 1 := by
  intro l
  induction l with
  | nil => intro x hx; cases hx
  | cons h t ih =>
      intro x hx hp huniq hN
      rcases List.mem_cons.mp hx with rfl | hx'
      · rw [List.countP_cons_of_pos _ _ hp]
        have ht : t.countP p = 0 := by
          rw [List.countP_eq_zero]
          intro a ha hpa
          have : a = x := huniq a (List.mem_cons_of_mem _ ha) hpa
          subst this
          exact (List.nodup_cons.mp hN).1 ha
        omega
      · by_cases hph : p h = true
        · have : h = x := huniq h (List.mem_cons_self h t) hph
          subst this
          exact absurd hx' (List.nodup_cons.mp hN).1
        · rw [List.countP_cons_of_neg _ _ (by simpa using hph)]
          exact ih x hx' hp (fun y hy hpy => huniq y (List.mem_cons_of_mem _ hy) hpy)
            (List.nodup_cons.mp hN).2

/-! ## Shape of one reconciliation pass -/

/-- The stub deletions of a pass, on the asset table: a plain filter. -/
theorem foldl_delete_assets (ids : List Nat) :
    ∀ σ : Store, (ids.foldl delete_orphaned_seed_asset σ).assets
      = σ.assets.filter (fun a => decide (a.id ∉ ids)) := by
  induction ids with
  | nil => intro σ; simp
  | cons i is ih =>
      intro σ
      rw [List.foldl_cons, ih]
      simp only [delete_orphaned_seed_asset, List.filter_filter]
      apply List.filter_congr
      intro a _
      simp [List.mem_cons, not_or, Bool.and_comm]

/-- The stub deletions of a pass, on the reference table: a plain filter. -/
theorem foldl_delete_refs (ids : List Nat) :
    ∀ σ : Store, (ids.foldl delete_orphaned_seed_asset σ).refs
      = σ.refs.filter (fun r => decide (r.asset_id ∉ ids)) := by
  induction ids with
  | nil => intro σ; simp
  | cons i is ih =>
      intro σ
      rw [List.foldl_cons, ih]
      simp only [delete_orphaned_seed_asset, List.filter_filter]
      apply List.filter_congr
      intro r _
      simp [List.mem_cons, not_or, Bool.and_comm]

/-- One pass leaves exactly the assets whose id was not stub-deleted,
each unchanged. -/
theorem applySync_assets (σ : Store) (o : SyncOut) :
    (applySync σ o).assets = σ.assets.filter (fun a => decide (a.id ∉ o.stub_deleted)) := by
  simp [applySync, bulk_update_needs_verify, bulk_update_is_missing,
    delete_references_by_ids, foldl_delete_assets]

/-- One pass maps the reference table to the surviving rows with the four
flag updates applied. -/
theorem applySync_refs (σ : Store) (o : SyncOut) :
    (applySync σ o).refs = (σ.refs.filter (keepRef o)).map (flagUpd o) := by
  simp only [applySync, bulk_update_needs_verify, bulk_update_is_missing,
    delete_references_by_ids, foldl_delete_refs, List.map_map, List.filter_filter]
  have hf : List.filter
      (fun a : Reference => decide (a.id ∉ o.stale_ref_ids) && decide (a.asset_id ∉ o.stub_deleted))
      σ.refs = List.filter (keepRef o) σ.refs := by
    apply List.filter_congr
    intro r _
    simp [keepRef, Bool.and_comm]
  rw [hf]
  apply List.map_congr_left
  intro r hr
  simp only [Function.comp_apply]
  by_cases h1 : r.id ∈ o.to_mark_missing ∧ r.id ∉ o.stale_ref_ids <;>
    by_cases h2 : r.id ∈ o.to_clear_missing <;>
      by_cases h3 : r.id ∈ o.to_set_verify <;>
        by_cases h4 : r.id ∈ o.to_clear_verify <;>
          simp [flagUpd, List.mem_filter, h1, h2, h3, h4]

/-! ## Row-level facts about the scan query -/

/-- What a produced row contains: the reference's own columns and the
joined asset's hash and size. -/
theorem rowFor_spec (σ : Store) (pfx : List String) (im : Bool) (r : Reference)
    (row : CacheStateRow) (h : rowFor σ pfx im r = some row) :
    row.reference_id = r.id ∧ row.asset_id = r.asset_id ∧
    r.file_path = some row.file_path ∧ row.mtime_ns = r.mtime_ns ∧
    row.needs_verify = r.needs_verify ∧
    ∃ a, assetFor σ r.asset_id = some a ∧ row.asset_hash = a.hash ∧
      row.size_bytes = a.size_bytes := by
  unfold rowFor at h
  split at h
  · cases h
  · rename_i p hfp
    split at h
    · cases ha : assetFor σ r.asset_id with
      | none => rw [ha] at h; cases h
      | some a =>
          rw [ha] at h
          simp only [Option.map_some'] at h
          injection h with h2
          subst h2
          exact ⟨rfl, rfl, hfp, rfl, rfl, a, rfl, rfl, rfl⟩
    · cases h

/-- Every produced row joins its asset: hash and size come from
`assetFor` of its `asset_id`. -/
theorem row_asset (σ : Store) (pfx : List String) (im : Bool) (row : CacheStateRow)
    (hrow : row ∈ get_references_for_prefixes σ pfx im) :
    ∃ a, assetFor σ row.asset_id = some a ∧ row.asset_hash = a.hash ∧
      row.size_bytes = a.size_bytes := by
  rcases List.mem_filterMap.mp hrow with ⟨q, hq, hqr⟩
  obtain ⟨_, haid, _, _, _, a, ha, hh, hs⟩ := rowFor_spec σ pfx im q row hqr
  exact ⟨a, haid ▸ ha, hh, hs⟩

/-- The group accumulator's size and hash (captured from the first row of
the group) agree with every member's joined asset columns. -/
theorem group_head_asset (σ : Store) (pfx : List String) (im : Bool)
    (row : CacheStateRow) (hrow : row ∈ get_references_for_prefixes σ pfx im) :
    groupSize (get_references_for_prefixes σ pfx im) row.asset_id = row.size_bytes ∧
    groupHash (get_references_for_prefixes σ pfx im) row.asset_id = row.asset_hash := by
  obtain ⟨a, ha, hh, hs⟩ := row_asset σ pfx im row hrow
  have hmem : row ∈ groupRows (get_references_for_prefixes σ pfx im) row.asset_id := by
    simp [groupRows, hrow]
  cases hg : groupRows (get_references_for_prefixes σ pfx im) row.asset_id with
  | nil => rw [hg] at hmem; cases hmem
  | cons h0 t =>
      have hh0 : h0 ∈ groupRows (get_references_for_prefixes σ pfx im) row.asset_id := by
        rw [hg]; exact List.mem_cons_self h0 t
      rcases List.mem_filter.mp hh0 with ⟨hh0rows, hh0aid⟩
      obtain ⟨a2, ha2, hh2, hs2⟩ := row_asset σ pfx im h0 hh0rows
      have haideq : h0.asset_id = row.asset_id := by simpa using hh0aid
      rw [haideq, ha] at ha2
      have haa : a2 = a := by cases ha2; rfl
      subst haa
      constructor
      · unfold groupSize
        rw [hg]
        simp [hs2, hs]
      · unfold groupHash
        rw [hg]
        simp [hh2, hh]

/-- The classification record of a scanned reference, in terms of the
reference itself: file presence and fast-check outcome as seen by the
scanner. -/
theorem infoOf_spec (fs : FS) (σ : Store) (pfx : List String) (im : Bool)
    (r : Reference) (row : CacheStateRow) (hr : r ∈ σ.refs)
    (h : rowFor σ pfx im r = some row) :
    infoOf fs (get_references_for_prefixes σ pfx im) row =
      { ref_id := r.id, fp := row.file_path,
        file_exists := refFileExists fs r,
        fast_ok := refFastOk fs σ r,
        needs_verify := r.needs_verify } := by
  obtain ⟨hid, haid, hfp, hmt, hnv, a, ha, hh, hs⟩ := rowFor_spec σ pfx im r row h
  have hrow : row ∈ get_references_for_prefixes σ pfx im :=
    List.mem_filterMap.mpr ⟨r, hr, h⟩
  obtain ⟨hgs, hgh⟩ := group_head_asset σ pfx im row hrow
  unfold infoOf rowInfo
  rw [hgs]
  simp [RefInfo.mk.injEq, refFileExists, refFastOk, refSizeDB, hfp, ha, hid, hmt, hnv, hs]

/-! ## Membership in the computed bulk-operation lists -/

/-- Membership in a per-reference list flattened over the asset groups. -/
theorem mem_groupFlat (fs : FS) (rows : List CacheStateRow) (p : RefInfo → Bool) (i : Nat) :
    (i ∈ (groupIds rows).flatMap fun aid =>
        ((groupInfos fs rows aid).filter p).map fun x => x.ref_id) ↔
    ∃ row ∈ rows, (infoOf fs rows row).ref_id = i ∧ p (infoOf fs rows row) = true := by
  rw [List.mem_flatMap]
  constructor
  · rintro ⟨aid, _, hi⟩
    rcases List.mem_map.mp hi with ⟨info, hinfo, rfl⟩
    rcases List.mem_filter.mp hinfo with ⟨hinfo2, hp⟩
    rcases List.mem_map.mp hinfo2 with ⟨row, hrowg, rfl⟩
    rcases List.mem_filter.mp hrowg with ⟨hrows, haid⟩
    have haid2 : row.asset_id = aid := by simpa using haid
    subst haid2
    exact ⟨row, hrows, rfl, hp⟩
  · rintro ⟨row, hrows, hid, hp⟩
    refine ⟨row.asset_id, ?_, ?_⟩
    · unfold groupIds
      rw [List.mem_dedup]
      exact List.mem_map_of_mem _ hrows
    · apply List.mem_map.mpr
      refine ⟨infoOf fs rows row, ?_, hid⟩
      apply List.mem_filter.mpr
      refine ⟨?_, hp⟩
      unfold groupInfos
      exact List.mem_map.mpr ⟨row, List.mem_filter.mpr ⟨hrows, by simp⟩, rfl⟩

/-- Membership in the stale list: an absent member of a hashed group with
a fast-ok sibling. -/
theorem mem_staleFlat (fs : FS) (rows : List CacheStateRow) (i : Nat) :
    (i ∈ (groupIds rows).flatMap fun aid =>
        if groupHash rows aid != none && groupAnyFastOk fs rows aid then
          ((groupInfos fs rows aid).filter fun x => !x.file_exists).map fun x => x.ref_id
        else []) ↔
    ∃ row ∈ rows, (infoOf fs rows row).ref_id = i ∧
      (infoOf fs rows row).file_exists = false ∧
      (groupHash rows row.asset_id != none
        && groupAnyFastOk fs rows row.asset_id) = true := by
  rw [List.mem_flatMap]
  constructor
  · rintro ⟨aid, _, hi⟩
    by_cases hc : (groupHash rows aid != none && groupAnyFastOk fs rows aid) = true
    · rw [if_pos hc] at hi
      rcases List.mem_map.mp hi with ⟨info, hinfo, rfl⟩
      rcases List.mem_filter.mp hinfo with ⟨hinfo2, hp⟩
      rcases List.mem_map.mp hinfo2 with ⟨row, hrowg, rfl⟩
      rcases List.mem_filter.mp hrowg with ⟨hrows, haid⟩
      have haid2 : row.asset_id = aid := by simpa using haid
      subst haid2
      exact ⟨row, hrows, rfl, by simpa using hp, hc⟩
    · rw [if_neg hc] at hi; cases hi
  · rintro ⟨row, hrows, hid, hex, hc⟩
    refine ⟨row.asset_id, ?_, ?_⟩
    · unfold groupIds
      rw [List.mem_dedup]
      exact List.mem_map_of_mem _ hrows
    · rw [if_pos hc]
      apply List.mem_map.mpr
      refine ⟨infoOf fs rows row, ?_, hid⟩
      apply List.mem_filter.mpr
      refine ⟨?_, by simp [hex]⟩
      unfold groupInfos
      exact List.mem_map.mpr ⟨row, List.mem_filter.mpr ⟨hrows, by simp⟩, rfl⟩

/-- Membership in the stub-deleted asset list. -/
theorem mem_stubDeleted (fs : FS) (rows : List CacheStateRow) (aid : Nat) :
    aid ∈ (computeSync fs rows).stub_deleted ↔
      (∃ row ∈ rows, row.asset_id = aid) ∧ groupStubDeleted fs rows aid = true := by
  show aid ∈ (groupIds rows).filter (fun a => groupStubDeleted fs rows a) ↔ _
  rw [List.mem_filter]
  unfold groupIds
  rw [List.mem_dedup, List.mem_map]

/-! ## Group summaries in terms of the store -/

/-- A group has a fast-ok member exactly when some scanned reference of
that asset passes the fast check. -/
theorem groupAnyFastOk_iff (fs : FS) (σ : Store) (pfx : List String) (im : Bool) (aid : Nat) :
    groupAnyFastOk fs (get_references_for_prefixes σ pfx im) aid = true ↔
    ∃ q ∈ σ.refs, scannedRef σ pfx im q = true ∧ q.asset_id = aid ∧
      refFastOk fs σ q = true := by
  unfold groupAnyFastOk groupInfos
  rw [List.any_eq_true]
  constructor
  · rintro ⟨info, hinfo, hfo⟩
    rcases List.mem_map.mp hinfo with ⟨row, hrowg, rfl⟩
    rcases List.mem_filter.mp hrowg with ⟨hrows, haid⟩
    have haid2 : row.asset_id = aid := by simpa using haid
    rcases List.mem_filterMap.mp hrows with ⟨q, hq, hqrow⟩
    have hspec := infoOf_spec fs σ pfx im q row hq hqrow
    have haq : q.asset_id = aid := by
      obtain ⟨_, h2, _⟩ := rowFor_spec σ pfx im q row hqrow
      rw [← h2, haid2]
    refine ⟨q, hq, ?_, haq, ?_⟩
    · unfold scannedRef; rw [hqrow]; rfl
    · have : infoOf fs (get_references_for_prefixes σ pfx im) row
          = rowInfo fs (groupSize (get_references_for_prefixes σ pfx im) aid) row := by
        unfold infoOf; rw [haid2]
      rw [← this, hspec] at hfo
      exact hfo
  · rintro ⟨q, hq, hscan, haq, hfo⟩
    unfold scannedRef at hscan
    rcases Option.isSome_iff_exists.mp hscan with ⟨row, hqrow⟩
    have hspec := infoOf_spec fs σ pfx im q row hq hqrow
    have hrows : row ∈ get_references_for_prefixes σ pfx im :=
      List.mem_filterMap.mpr ⟨q, hq, hqrow⟩
    have haid2 : row.asset_id = aid := by
      obtain ⟨_, h2, _⟩ := rowFor_spec σ pfx im q row hqrow
      rw [h2, haq]
    refine ⟨rowInfo fs (groupSize (get_references_for_prefixes σ pfx im) aid) row,
      List.mem_map.mpr ⟨row, List.mem_filter.mpr ⟨hrows, by simp [haid2]⟩, rfl⟩, ?_⟩
    have : infoOf fs (get_references_for_prefixes σ pfx im) row
        = rowInfo fs (groupSize (get_references_for_prefixes σ pfx im) aid) row := by
      unfold infoOf; rw [haid2]
    rw [← this, hspec]
    exact hfo

/-- A group is stub-deleted exactly when it has a scanned member, every
scanned member's file is absent, and the asset is unhashed. -/
theorem groupStubDeleted_iff (fs : FS) (σ : Store) (pfx : List String) (im : Bool) (aid : Nat) :
    groupStubDeleted fs (get_references_for_prefixes σ pfx im) aid = true ↔
      (∃ q ∈ σ.refs, scannedRef σ pfx im q = true ∧ q.asset_id = aid) ∧
      (∀ q ∈ σ.refs, scannedRef σ pfx im q = true → q.asset_id = aid →
        refFileExists fs q = false) ∧
      (∃ a, assetFor σ aid = some a ∧ a.hash = none) := by
  unfold groupStubDeleted
  rw [Bool.and_eq_true, Bool.and_eq_true]
  constructor
  · rintro ⟨⟨hhash, hne⟩, hall⟩
    have hne2 : groupRows (get_references_for_prefixes σ pfx im) aid ≠ [] := by
      intro h0
      rw [Bool.not_eq_true'] at hne
      unfold groupInfos at hne
      rw [h0] at hne
      simp at hne
    obtain ⟨row0, hrow0⟩ :
        ∃ row, row ∈ groupRows (get_references_for_prefixes σ pfx im) aid := by
      cases hg : groupRows (get_references_for_prefixes σ pfx im) aid with
      | nil => exact absurd hg hne2
      | cons h0 t => exact ⟨h0, hg ▸ List.mem_cons_self h0 t⟩
    rcases List.mem_filter.mp hrow0 with ⟨hrows0, haid0⟩
    have haid02 : row0.asset_id = aid := by simpa using haid0
    rcases List.mem_filterMap.mp hrows0 with ⟨q0, hq0, hq0row⟩
    have haq0 : q0.asset_id = aid := by
      obtain ⟨_, h2, _⟩ := rowFor_spec σ pfx im q0 row0 hq0row
      rw [← h2, haid02]
    refine ⟨⟨q0, hq0, by unfold scannedRef; rw [hq0row]; rfl, haq0⟩, ?_, ?_⟩
    · intro q hq hscan haq
      unfold scannedRef at hscan
      rcases Option.isSome_iff_exists.mp hscan with ⟨row, hqrow⟩
      have hrows : row ∈ get_references_for_prefixes σ pfx im :=
        List.mem_filterMap.mpr ⟨q, hq, hqrow⟩
      have haid2 : row.asset_id = aid := by
        obtain ⟨_, h2, _⟩ := rowFor_spec σ pfx im q row hqrow
        rw [h2, haq]
      have hmem : rowInfo fs (groupSize (get_references_for_prefixes σ pfx im) aid) row
          ∈ groupInfos fs (get_references_for_prefixes σ pfx im) aid := by
        unfold groupInfos
        exact List.mem_map.mpr ⟨row, List.mem_filter.mpr ⟨hrows, by simp [haid2]⟩, rfl⟩
      have := List.all_eq_true.mp hall _ hmem
      have heq : infoOf fs (get_references_for_prefixes σ pfx im) row
          = rowInfo fs (groupSize (get_references_for_prefixes σ pfx im) aid) row := by
        unfold infoOf; rw [haid2]
      rw [← heq, infoOf_spec fs σ pfx im q row hq hqrow] at this
      simpa using this
    · obtain ⟨a, ha, hh, _⟩ := row_asset σ pfx im row0 hrows0
      refine ⟨a, haid02 ▸ ha, ?_⟩
      obtain ⟨_, hgh⟩ := group_head_asset σ pfx im row0 hrows0
      rw [haid02] at hgh
      rw [hgh, hh] at hhash
      simpa using hhash
  · rintro ⟨⟨q0, hq0, hscan0, haq0⟩, hall, a, ha, hahash⟩
    unfold scannedRef at hscan0
    rcases Option.isSome_iff_exists.mp hscan0 with ⟨row0, hq0row⟩
    have hrows0 : row0 ∈ get_references_for_prefixes σ pfx im :=
      List.mem_filterMap.mpr ⟨q0, hq0, hq0row⟩
    have haid02 : row0.asset_id = aid := by
      obtain ⟨_, h2, _⟩ := rowFor_spec σ pfx im q0 row0 hq0row
      rw [h2, haq0]
    refine ⟨⟨?_, ?_⟩, ?_⟩
    · obtain ⟨_, hgh⟩ := group_head_asset σ pfx im row0 hrows0
      rw [haid02] at hgh
      obtain ⟨a2, ha2, hh2, _⟩ := row_asset σ pfx im row0 hrows0
      rw [haid02, ha] at ha2
      have : a2 = a := by cases ha2; rfl
      subst this
      rw [hgh, hh2, hahash]
      rfl
    · have hmem : rowInfo fs (groupSize (get_references_for_prefixes σ pfx im) aid) row0
          ∈ groupInfos fs (get_references_for_prefixes σ pfx im) aid := by
        unfold groupInfos
        exact List.mem_map.mpr ⟨row0, List.mem_filter.mpr ⟨hrows0, by simp [haid02]⟩, rfl⟩
      cases hg : groupInfos fs (get_references_for_prefixes σ pfx im) aid with
      | nil => rw [hg] at hmem; cases hmem
      | cons x t => rfl
    · rw [List.all_eq_true]
      intro info hinfo
      rcases List.mem_map.mp hinfo with ⟨row, hrowg, rfl⟩
      rcases List.mem_filter.mp hrowg with ⟨hrows, haid⟩
      have haid2 : row.asset_id = aid := by simpa using haid
      rcases List.mem_filterMap.mp hrows with ⟨q, hq, hqrow⟩
      have haq : q.asset_id = aid := by
        obtain ⟨_, h2, _⟩ := rowFor_spec σ pfx im q row hqrow
        rw [← h2, haid2]
      have hqex := hall q hq (by unfold scannedRef; rw [hqrow]; rfl) haq
      have heq : infoOf fs (get_references_for_prefixes σ pfx im) row
          = rowInfo fs (groupSize (get_references_for_prefixes σ pfx im) aid) row := by
        unfold infoOf; rw [haid2]
      rw [← heq, infoOf_spec fs σ pfx im q row hq hqrow]
      simp [hqex]

/-! ## Per-reference membership in the bulk lists (under unique ids) -/

/-- Generic form: a reference's id is in a flattened flag list exactly when
the reference is scanned and its own classification satisfies the filter. -/
theorem mem_flagList_iff (fs : FS) (σ : Store) (pfx : List String) (im : Bool)
    (hNR : (σ.refs.map fun x => x.id).Nodup) (r : Reference) (hr : r ∈ σ.refs)
    (p : RefInfo → Bool) :
    (r.id ∈ (groupIds (get_references_for_prefixes σ pfx im)).flatMap fun aid =>
        ((groupInfos fs (get_references_for_prefixes σ pfx im) aid).filter p).map
          fun x => x.ref_id) ↔
    ∃ row, rowFor σ pfx im r = some row ∧
      p { ref_id := r.id, fp := row.file_path,
          file_exists := refFileExists fs r, fast_ok := refFastOk fs σ r,
          needs_verify := r.needs_verify } = true := by
  rw [mem_groupFlat]
  constructor
  · rintro ⟨row, hrows, hid, hp⟩
    rcases List.mem_filterMap.mp hrows with ⟨q, hq, hqrow⟩
    have hspec := infoOf_spec fs σ pfx im q row hq hqrow
    rw [hspec] at hid hp
    have hqr : q = r := List.inj_on_of_nodup_map hNR hq hr (by simpa using hid)
    subst hqr
    exact ⟨row, hqrow, hp⟩
  · rintro ⟨row, hqrow, hp⟩
    refine ⟨row, List.mem_filterMap.mpr ⟨r, hr, hqrow⟩, ?_, ?_⟩
    · rw [infoOf_spec fs σ pfx im r row hr hqrow]
    · rw [infoOf_spec fs σ pfx im r row hr hqrow]
      exact hp

/-- Membership in `to_mark_missing`: scanned and absent. -/
theorem mem_to_mark_iff (fs : FS) (σ : Store) (pfx : List String) (im : Bool)
    (hNR : (σ.refs.map fun x => x.id).Nodup) (r : Reference) (hr : r ∈ σ.refs) :
    (r.id ∈ (computeSync fs (get_references_for_prefixes σ pfx im)).to_mark_missing) ↔
      scannedRef σ pfx im r = true ∧ refFileExists fs r = false := by
  show (r.id ∈ (groupIds (get_references_for_prefixes σ pfx im)).flatMap fun aid =>
      ((groupInfos fs (get_references_for_prefixes σ pfx im) aid).filter
        fun i => !i.file_exists).map fun x => x.ref_id) ↔ _
  rw [mem_flagList_iff fs σ pfx im hNR r hr]
  unfold scannedRef
  constructor
  · rintro ⟨row, hqrow, hp⟩
    exact ⟨by rw [hqrow]; rfl, by simpa using hp⟩
  · rintro ⟨hscan, hex⟩
    rcases Option.isSome_iff_exists.mp hscan with ⟨row, hqrow⟩
    exact ⟨row, hqrow, by simp [hex]⟩

/-- Membership in `to_clear_missing`: scanned, present, fast-ok. -/
theorem mem_to_clear_missing_iff (fs : FS) (σ : Store) (pfx : List String) (im : Bool)
    (hNR : (σ.refs.map fun x => x.id).Nodup) (r : Reference) (hr : r ∈ σ.refs) :
    (r.id ∈ (computeSync fs (get_references_for_prefixes σ pfx im)).to_clear_missing) ↔
      scannedRef σ pfx im r = true ∧ refFileExists fs r = true ∧
        refFastOk fs σ r = true := by
  show (r.id ∈ (groupIds (get_references_for_prefixes σ pfx im)).flatMap fun aid =>
      ((groupInfos fs (get_references_for_prefixes σ pfx im) aid).filter
        fun i => i.file_exists && i.fast_ok).map fun x => x.ref_id) ↔ _
  rw [mem_flagList_iff fs σ pfx im hNR r hr]
  unfold scannedRef
  constructor
  · rintro ⟨row, hqrow, hp⟩
    simp only [Bool.and_eq_true] at hp
    exact ⟨by rw [hqrow]; rfl, hp.1, hp.2⟩
  · rintro ⟨hscan, hex, hfo⟩
    rcases Option.isSome_iff_exists.mp hscan with ⟨row, hqrow⟩
    exact ⟨row, hqrow, by simp [hex, hfo]⟩

/-- Membership in `to_set_verify`: scanned, present, fast check failed,
flag not yet set. -/
theorem mem_to_set_verify_iff (fs : FS) (σ : Store) (pfx : List String) (im : Bool)
    (hNR : (σ.refs.map fun x => x.id).Nodup) (r : Reference) (hr : r ∈ σ.refs) :
    (r.id ∈ (computeSync fs (get_references_for_prefixes σ pfx im)).to_set_verify) ↔
      scannedRef σ pfx im r = true ∧ refFileExists fs r = true ∧
        refFastOk fs σ r = false ∧ r.needs_verify = false := by
  show (r.id ∈ (groupIds (get_references_for_prefixes σ pfx im)).flatMap fun aid =>
      ((groupInfos fs (get_references_for_prefixes σ pfx im) aid).filter
        fun i => i.file_exists && !i.fast_ok && !i.needs_verify).map fun x => x.ref_id) ↔ _
  rw [mem_flagList_iff fs σ pfx im hNR r hr]
  unfold scannedRef
  constructor
  · rintro ⟨row, hqrow, hp⟩
    simp only [Bool.and_eq_true, Bool.not_eq_true'] at hp
    exact ⟨by rw [hqrow]; rfl, hp.1.1, hp.1.2, hp.2⟩
  · rintro ⟨hscan, hex, hfo, hnv⟩
    rcases Option.isSome_iff_exists.mp hscan with ⟨row, hqrow⟩
    exact ⟨row, hqrow, by simp [hex, hfo, hnv]⟩

/-- Membership in `to_clear_verify`: scanned, present, fast-ok, flag set. -/
theorem mem_to_clear_verify_iff (fs : FS) (σ : Store) (pfx : List String) (im : Bool)
    (hNR : (σ.refs.map fun x => x.id).Nodup) (r : Reference) (hr : r ∈ σ.refs) :
    (r.id ∈ (computeSync fs (get_references_for_prefixes σ pfx im)).to_clear_verify) ↔
      scannedRef σ pfx im r = true ∧ refFileExists fs r = true ∧
        refFastOk fs σ r = true ∧ r.needs_verify = true := by
  show (r.id ∈ (groupIds (get_references_for_prefixes σ pfx im)).flatMap fun aid =>
      ((groupInfos fs (get_references_for_prefixes σ pfx im) aid).filter
        fun i => i.file_exists && i.fast_ok && i.needs_verify).map fun x => x.ref_id) ↔ _
  rw [mem_flagList_iff fs σ pfx im hNR r hr]
  unfold scannedRef
  constructor
  · rintro ⟨row, hqrow, hp⟩
    simp only [Bool.and_eq_true] at hp
    exact ⟨by rw [hqrow]; rfl, hp.1.1, hp.1.2, hp.2⟩
  · rintro ⟨hscan, hex, hfo, hnv⟩
    rcases Option.isSome_iff_exists.mp hscan with ⟨row, hqrow⟩
    exact ⟨row, hqrow, by simp [hex, hfo, hnv]⟩

/-- Membership in the stale list: scanned, absent, asset hashed, and a
scanned sibling of the same asset passed the fast check. -/
theorem mem_stale_iff (fs : FS) (σ : Store) (pfx : List String) (im : Bool)
    (hNR : (σ.refs.map fun x => x.id).Nodup) (r : Reference) (hr : r ∈ σ.refs) :
    (r.id ∈ (computeSync fs (get_references_for_prefixes σ pfx im)).stale_ref_ids) ↔
      scannedRef σ pfx im r = true ∧ refFileExists fs r = false ∧
      (∃ a, assetFor σ r.asset_id = some a ∧ a.hash ≠ none) ∧
      (∃ q ∈ σ.refs, scannedRef σ pfx im q = true ∧ q.asset_id = r.asset_id ∧
        refFastOk fs σ q = true) := by
  show (r.id ∈ (groupIds (get_references_for_prefixes σ pfx im)).flatMap fun aid =>
      if groupHash (get_references_for_prefixes σ pfx im) aid != none
          && groupAnyFastOk fs (get_references_for_prefixes σ pfx im) aid then
        ((groupInfos fs (get_references_for_prefixes σ pfx im) aid).filter
          fun x => !x.file_exists).map fun x => x.ref_id
      else []) ↔ _
  rw [mem_staleFlat]
  constructor
  · rintro ⟨row, hrows, hid, hex, hc⟩
    rcases List.mem_filterMap.mp hrows with ⟨q, hq, hqrow⟩
    have hspec := infoOf_spec fs σ pfx im q row hq hqrow
    rw [hspec] at hid hex
    have hqr : q = r := List.inj_on_of_nodup_map hNR hq hr (by simpa using hid)
    subst hqr
    simp only [Bool.and_eq_true] at hc
    obtain ⟨hhash, hany⟩ := hc
    obtain ⟨hqid, hqaid, _, _, _, a, ha, hrh, _⟩ := rowFor_spec σ pfx im q row hqrow
    obtain ⟨_, hgh⟩ := group_head_asset σ pfx im row hrows
    refine ⟨by unfold scannedRef; rw [hqrow]; rfl, hex, ⟨a, ha, ?_⟩, ?_⟩
    · rw [hgh, hrh] at hhash
      simpa using hhash
    · exact (groupAnyFastOk_iff fs σ pfx im q.asset_id).mp (hqaid ▸ hany)
  · rintro ⟨hscan, hex, ⟨a, ha, hahash⟩, hany⟩
    unfold scannedRef at hscan
    rcases Option.isSome_iff_exists.mp hscan with ⟨row, hqrow⟩
    have hrows : row ∈ get_references_for_prefixes σ pfx im :=
      List.mem_filterMap.mpr ⟨r, hr, hqrow⟩
    obtain ⟨hqid, hqaid, _, _, _, a2, ha2, hrh, _⟩ := rowFor_spec σ pfx im r row hqrow
    have haa : a2 = a := by rw [ha] at ha2; cases ha2; rfl
    subst haa
    obtain ⟨_, hgh⟩ := group_head_asset σ pfx im row hrows
    refine ⟨row, hrows, ?_, ?_, ?_⟩
    · rw [infoOf_spec fs σ pfx im r row hr hqrow]
    · rw [infoOf_spec fs σ pfx im r row hr hqrow]
      exact hex
    · rw [Bool.and_eq_true]
      constructor
      · rw [hgh, hrh]
        simpa using hahash
      · rw [hqaid]
        exact (groupAnyFastOk_iff fs σ pfx im r.asset_id).mpr hany

/-! ## Outcome of one reconciliation pass for a single reference -/

/-- A scanned reference implies the prefix list is non-empty. -/
theorem scanned_pfx_ne_nil (σ : Store) (pfx : List String) (im : Bool) (r : Reference)
    (hscan : scannedRef σ pfx im r = true) : pfx ≠ [] := by
  intro hp
  subst hp
  unfold scannedRef rowFor at hscan
  cases hfp : r.file_path with
  | none => rw [hfp] at hscan; simp at hscan
  | some p => rw [hfp] at hscan; simp at hscan

/-- Primary-key lookup of a member, under unique ids. -/
theorem findRef_self (σ : Store) (hNR : (σ.refs.map fun x => x.id).Nodup)
    (r : Reference) (hr : r ∈ σ.refs) : findRef σ r.id = some r := by
  unfold findRef
  apply find?_eq_of_unique _ σ.refs r hr (by simp)
  intro y hy hyid
  exact List.inj_on_of_nodup_map hNR hy hr (by simpa using hyid)

/-- A present scanned reference is not deleted by the pass. -/
theorem keep_of_present (fs : FS) (σ : Store) (pfx : List String) (im : Bool)
    (hNR : (σ.refs.map fun x => x.id).Nodup) (r : Reference) (hr : r ∈ σ.refs)
    (hscan : scannedRef σ pfx im r = true) (hex : refFileExists fs r = true) :
    keepRef (computeSync fs (get_references_for_prefixes σ pfx im)) r = true := by
  unfold keepRef
  rw [Bool.and_eq_true]
  constructor
  · simp only [decide_eq_true_eq]
    intro hmem
    obtain ⟨_, hstub⟩ :=
      (mem_stubDeleted fs (get_references_for_prefixes σ pfx im) r.asset_id).mp hmem
    obtain ⟨_, hall, _⟩ := (groupStubDeleted_iff fs σ pfx im r.asset_id).mp hstub
    have := hall r hr hscan rfl
    rw [hex] at this
    cases this
  · simp only [decide_eq_true_eq]
    intro hmem
    obtain ⟨_, hex2, _, _⟩ := (mem_stale_iff fs σ pfx im hNR r hr).mp hmem
    rw [hex] at hex2
    cases hex2

/-- An absent scanned reference of a hashed asset whose group has no
fast-ok sibling is not deleted by the pass. -/
theorem keep_of_absent_hashed (fs : FS) (σ : Store) (pfx : List String) (im : Bool)
    (hNR : (σ.refs.map fun x => x.id).Nodup) (r : Reference) (hr : r ∈ σ.refs)
    (a : Asset) (ha : assetFor σ r.asset_id = some a) (h : String)
    (hh : a.hash = some h)
    (hnofast : ∀ q ∈ σ.refs, scannedRef σ pfx im q = true →
      q.asset_id = r.asset_id → refFastOk fs σ q = false) :
    keepRef (computeSync fs (get_references_for_prefixes σ pfx im)) r = true := by
  unfold keepRef
  rw [Bool.and_eq_true]
  constructor
  · simp only [decide_eq_true_eq]
    intro hmem
    obtain ⟨_, hstub⟩ :=
      (mem_stubDeleted fs (get_references_for_prefixes σ pfx im) r.asset_id).mp hmem
    obtain ⟨_, _, a2, ha2, hhash2⟩ := (groupStubDeleted_iff fs σ pfx im r.asset_id).mp hstub
    rw [ha] at ha2
    have : a2 = a := by cases ha2; rfl
    subst this
    rw [hh] at hhash2
    cases hhash2
  · simp only [decide_eq_true_eq]
    intro hmem
    obtain ⟨_, _, _, q, hq, hscanq, haidq, hfoq⟩ := (mem_stale_iff fs σ pfx im hNR r hr).mp hmem
    have := hnofast q hq hscanq haidq
    rw [hfoq] at this
    cases this

/-- Unfolding of a pass over a non-empty prefix list. -/
theorem sync_eq (fs : FS) (σ : Store) (pfx : List String) (im : Bool) (hpfx : pfx ≠ []) :
    sync_references_with_filesystem fs σ pfx im =
      (applySync σ (computeSync fs (get_references_for_prefixes σ pfx im)),
       (computeSync fs (get_references_for_prefixes σ pfx im)).survivors) := by
  unfold sync_references_with_filesystem
  rw [if_neg hpfx]

/-- Outcome for a present scanned reference: fast-ok clears both flags,
a failed fast check sets `needs_verify` and leaves `is_missing` as it was.
The other columns are untouched. -/
theorem sync_present_ref (fs : FS) (σ : Store) (pfx : List String) (im : Bool)
    (hNR : (σ.refs.map fun x => x.id).Nodup) (r : Reference) (hr : r ∈ σ.refs)
    (hscan : scannedRef σ pfx im r = true) (hex : refFileExists fs r = true) :
    findRef (sync_references_with_filesystem fs σ pfx im).1 r.id =
      some { r with
        is_missing := if refFastOk fs σ r = true then false else r.is_missing
        needs_verify := if refFastOk fs σ r = true then false else true } := by
  have hpfx := scanned_pfx_ne_nil σ pfx im r hscan
  have hkeep := keep_of_present fs σ pfx im hNR r hr hscan hex
  have hfind : findRef
      (applySync σ (computeSync fs (get_references_for_prefixes σ pfx im))) r.id
      = some (flagUpd (computeSync fs (get_references_for_prefixes σ pfx im)) r) := by
    unfold findRef
    rw [applySync_refs]
    exact find?_map_filter_of_key (fun x => x.id)
      (flagUpd (computeSync fs (get_references_for_prefixes σ pfx im)))
      (keepRef (computeSync fs (get_references_for_prefixes σ pfx im)))
      (fun x => (rfl :
        (flagUpd (computeSync fs (get_references_for_prefixes σ pfx im)) x).id = x.id))
      σ.refs hNR r hr hkeep
  have hval : flagUpd (computeSync fs (get_references_for_prefixes σ pfx im)) r =
      { r with
        is_missing := if refFastOk fs σ r = true then false else r.is_missing
        needs_verify := if refFastOk fs σ r = true then false else true } := by
    have hmark := mem_to_mark_iff fs σ pfx im hNR r hr
    have hclearm := mem_to_clear_missing_iff fs σ pfx im hNR r hr
    have hsetv := mem_to_set_verify_iff fs σ pfx im hNR r hr
    have hclearv := mem_to_clear_verify_iff fs σ pfx im hNR r hr
    cases hfo : refFastOk fs σ r <;> cases hnv : r.needs_verify <;>
      simp [flagUpd, List.mem_filter, hmark, hclearm, hsetv, hclearv, hscan, hex, hfo, hnv]
  rw [sync_eq fs σ pfx im hpfx, ← hval]
  exact hfind

/-- Outcome for an absent scanned reference of a hashed asset with no
fast-ok sibling: the row is soft-deleted — `is_missing := true`, every
other column (including `needs_verify` and `user_metadata`) untouched. -/
theorem sync_absent_marked (fs : FS) (σ : Store) (pfx : List String) (im : Bool)
    (hNR : (σ.refs.map fun x => x.id).Nodup) (r : Reference) (hr : r ∈ σ.refs)
    (hscan : scannedRef σ pfx im r = true) (hex : refFileExists fs r = false)
    (a : Asset) (ha : assetFor σ r.asset_id = some a) (h : String)
    (hh : a.hash = some h)
    (hnofast : ∀ q ∈ σ.refs, scannedRef σ pfx im q = true →
      q.asset_id = r.asset_id → refFastOk fs σ q = false) :
    findRef (sync_references_with_filesystem fs σ pfx im).1 r.id =
      some { r with is_missing := true } := by
  have hpfx := scanned_pfx_ne_nil σ pfx im r hscan
  have hkeep := keep_of_absent_hashed fs σ pfx im hNR r hr a ha h hh hnofast
  have hfind : findRef
      (applySync σ (computeSync fs (get_references_for_prefixes σ pfx im))) r.id
      = some (flagUpd (computeSync fs (get_references_for_prefixes σ pfx im)) r) := by
    unfold findRef
    rw [applySync_refs]
    exact find?_map_filter_of_key (fun x => x.id)
      (flagUpd (computeSync fs (get_references_for_prefixes σ pfx im)))
      (keepRef (computeSync fs (get_references_for_prefixes σ pfx im)))
      (fun x => (rfl :
        (flagUpd (computeSync fs (get_references_for_prefixes σ pfx im)) x).id = x.id))
      σ.refs hNR r hr hkeep
  have hnstale : r.id ∉ (computeSync fs (get_references_for_prefixes σ pfx im)).stale_ref_ids := by
    intro hmem
    obtain ⟨_, _, _, q, hq, hscanq, haidq, hfoq⟩ :=
      (mem_stale_iff fs σ pfx im hNR r hr).mp hmem
    have := hnofast q hq hscanq haidq
    rw [hfoq] at this
    cases this
  have hval : flagUpd (computeSync fs (get_references_for_prefixes σ pfx im)) r =
      { r with is_missing := true } := by
    have hmark := mem_to_mark_iff fs σ pfx im hNR r hr
    have hclearm := mem_to_clear_missing_iff fs σ pfx im hNR r hr
    have hsetv := mem_to_set_verify_iff fs σ pfx im hNR r hr
    have hclearv := mem_to_clear_verify_iff fs σ pfx im hNR r hr
    simp [flagUpd, List.mem_filter, hmark, hclearm, hsetv, hclearv, hscan, hex, hnstale]
  rw [sync_eq fs σ pfx im hpfx, ← hval]
  exact hfind

/-- Outcome for a stub asset group whose scanned members are all absent:
the asset row and every reference of that asset are removed outright. -/
theorem sync_stub_deleted (fs : FS) (σ : Store) (pfx : List String) (im : Bool)
    (aid : Nat) (r0 : Reference) (hr0 : r0 ∈ σ.refs) (haid0 : r0.asset_id = aid)
    (hscan0 : scannedRef σ pfx im r0 = true)
    (hall : ∀ q ∈ σ.refs, scannedRef σ pfx im q = true → q.asset_id = aid →
      refFileExists fs q = false)
    (a : Asset) (ha : assetFor σ aid = some a) (hh : a.hash = none) :
    (∀ b ∈ (sync_references_with_filesystem fs σ pfx im).1.assets, b.id ≠ aid) ∧
    (∀ q ∈ (sync_references_with_filesystem fs σ pfx im).1.refs, q.asset_id ≠ aid) := by
  have hpfx := scanned_pfx_ne_nil σ pfx im r0 hscan0
  have hmem : aid ∈ (computeSync fs (get_references_for_prefixes σ pfx im)).stub_deleted := by
    rw [mem_stubDeleted]
    constructor
    · rcases Option.isSome_iff_exists.mp hscan0 with ⟨row, hrow⟩
      obtain ⟨_, h2, _⟩ := rowFor_spec σ pfx im r0 row hrow
      exact ⟨row, List.mem_filterMap.mpr ⟨r0, hr0, hrow⟩, by rw [h2, haid0]⟩
    · exact (groupStubDeleted_iff fs σ pfx im aid).mpr
        ⟨⟨r0, hr0, hscan0, haid0⟩, hall, a, ha, hh⟩
  rw [sync_eq fs σ pfx im hpfx]
  constructor
  · intro b hb
    rw [applySync_assets] at hb
    rcases List.mem_filter.mp hb with ⟨_, hbk⟩
    simp only [decide_eq_true_eq] at hbk
    intro hbid
    exact hbk (hbid ▸ hmem)
  · intro q hq
    rw [applySync_refs] at hq
    rcases List.mem_map.mp hq with ⟨q0, hq0, rfl⟩
    rcases List.mem_filter.mp hq0 with ⟨_, hq0k⟩
    unfold keepRef at hq0k
    rw [Bool.and_eq_true] at hq0k
    have := hq0k.1
    simp only [decide_eq_true_eq] at this
    intro hqid
    exact this (hqid ▸ hmem)

/-- A reference the pass does not scan, whose asset group is not
stub-deleted, is returned unchanged. -/
theorem sync_unscanned_ref (fs : FS) (σ : Store) (pfx : List String) (im : Bool)
    (hNR : (σ.refs.map fun x => x.id).Nodup) (r : Reference) (hr : r ∈ σ.refs)
    (hscan : scannedRef σ pfx im r = false)
    (hnostub : r.asset_id ∉ (computeSync fs (get_references_for_prefixes σ pfx im)).stub_deleted) :
    findRef (sync_references_with_filesystem fs σ pfx im).1 r.id = some r := by
  by_cases hpfx : pfx = []
  · subst hpfx
    unfold sync_references_with_filesystem
    rw [if_pos rfl]
    exact findRef_self σ hNR r hr
  · have hkeep : keepRef (computeSync fs (get_references_for_prefixes σ pfx im)) r = true := by
      unfold keepRef
      rw [Bool.and_eq_true]
      refine ⟨by simpa using hnostub, ?_⟩
      simp only [decide_eq_true_eq]
      intro hmem
      obtain ⟨hscan2, _⟩ := (mem_stale_iff fs σ pfx im hNR r hr).mp hmem
      rw [hscan] at hscan2
      cases hscan2
    have hfind : findRef
        (applySync σ (computeSync fs (get_references_for_prefixes σ pfx im))) r.id
        = some (flagUpd (computeSync fs (get_references_for_prefixes σ pfx im)) r) := by
      unfold findRef
      rw [applySync_refs]
      exact find?_map_filter_of_key (fun x => x.id)
        (flagUpd (computeSync fs (get_references_for_prefixes σ pfx im)))
        (keepRef (computeSync fs (get_references_for_prefixes σ pfx im)))
        (fun x => (rfl :
          (flagUpd (computeSync fs (get_references_for_prefixes σ pfx im)) x).id = x.id))
        σ.refs hNR r hr hkeep
    have hval : flagUpd (computeSync fs (get_references_for_prefixes σ pfx im)) r = r := by
      have hmark := mem_to_mark_iff fs σ pfx im hNR r hr
      have hclearm := mem_to_clear_missing_iff fs σ pfx im hNR r hr
      have hsetv := mem_to_set_verify_iff fs σ pfx im hNR r hr
      have hclearv := mem_to_clear_verify_iff fs σ pfx im hNR r hr
      simp [flagUpd, List.mem_filter, hmark, hclearm, hsetv, hclearv, hscan]
    rw [sync_eq fs σ pfx im hpfx, ← hval]
    exact hfind

/-- A hashed asset row survives any pass unchanged. -/
theorem sync_asset_hashed_preserved (fs : FS) (σ : Store) (pfx : List String) (im : Bool)
    (hNA : (σ.assets.map fun x => x.id).Nodup) (aid : Nat) (a : Asset)
    (ha : assetFor σ aid = some a) (h : String) (hh : a.hash = some h) :
    assetFor (sync_references_with_filesystem fs σ pfx im).1 aid = some a := by
  by_cases hpfx : pfx = []
  · subst hpfx
    unfold sync_references_with_filesystem
    rw [if_pos rfl]
    exact ha
  · have hmema : a ∈ σ.assets := List.mem_of_find?_eq_some ha
    have haid : (a.id == aid) = true := by
      have := List.find?_some ha
      simpa using this
    have haid2 : a.id = aid := by simpa using haid
    have hkeep : (fun b : Asset => decide (b.id ∉
        (computeSync fs (get_references_for_prefixes σ pfx im)).stub_deleted)) a = true := by
      simp only [decide_eq_true_eq]
      intro hmem
      obtain ⟨_, hstub⟩ :=
        (mem_stubDeleted fs (get_references_for_prefixes σ pfx im) a.id).mp hmem
      obtain ⟨_, _, a2, ha2, hhash2⟩ := (groupStubDeleted_iff fs σ pfx im a.id).mp hstub
      rw [haid2, ha] at ha2
      have : a2 = a := by cases ha2; rfl
      subst this
      rw [hh] at hhash2
      cases hhash2
    rw [sync_eq fs σ pfx im hpfx]
    unfold assetFor
    show ((applySync σ (computeSync fs (get_references_for_prefixes σ pfx im))).assets.find?
      fun b => b.id == aid) = some a
    rw [applySync_assets]
    have := find?_map_filter_of_key (fun x => x.id) (fun x => x)
      (fun b : Asset => decide (b.id ∉
        (computeSync fs (get_references_for_prefixes σ pfx im)).stub_deleted))
      (fun _ => rfl) σ.assets hNA a hmema hkeep
    simp only [List.map_id'] at this
    rw [← haid2]
    exact this

/-! ## Helpers for the enrichment session -/

/-- Keyed find over a per-row-updated table (no deletion). -/
theorem find?_map_of_key {α : Type} (key : α → Nat) (g : α → α)
    (hg : ∀ x, key (g x) = key x) (l : List α) (hN : (l.map key).Nodup)
    (x : α) (hx : x ∈ l) :
    (l.map g).find? (fun y => key y == key x) = some (g x) := by
  have h := find?_map_filter_of_key key g (fun _ => true) hg l hN x hx rfl
  rwa [List.filter_true] at h

/-- An id-preserving per-row update keeps the id column duplicate-free. -/
theorem nodup_ids_map (l : List Reference) (f : Reference → Reference)
    (hf : ∀ x, (f x).id = x.id) (hN : (l.map fun x => x.id).Nodup) :
    ((l.map f).map fun x => x.id).Nodup := by
  rw [List.map_map]
  have : l.map ((fun x : Reference => x.id) ∘ f) = l.map fun x => x.id :=
    List.map_congr_left fun a _ => hf a
  rwa [this]

/-- Deleting rows keeps the id column duplicate-free. -/
theorem nodup_ids_filter (l : List Reference) (p : Reference → Bool)
    (hN : (l.map fun x => x.id).Nodup) :
    ((l.filter p).map fun x => x.id).Nodup :=
  ((List.filter_sublist l).map fun x => x.id).nodup hN

/-- `set_reference_metadata` on an existing reference id: the update it
performs. -/
theorem set_reference_metadata_eq_some (σ : Store) (rid : Nat)
    (d : Option String) (q : Reference) (hq : q ∈ σ.refs) (hqid : q.id = rid) :
    set_reference_metadata σ rid d =
      some { σ with refs := σ.refs.map fun x =>
        if x.id = rid then { x with user_metadata := some (d.getD "") } else x } := by
  unfold set_reference_metadata
  rw [if_pos]
  rw [List.any_eq_true]
  exact ⟨q, hq, by simp [hqid]⟩

/-- After `bulk_update_enrichment_level` on one id, the stored level of
that id is the written level. -/
theorem bulk_level_find (σb : Store) (rid lvl : Nat)
    (hN : (σb.refs.map fun x => x.id).Nodup) (q : Reference)
    (hq : q ∈ σb.refs) (hqid : q.id = rid) :
    (findRef (bulk_update_enrichment_level σb [rid] lvl) rid).map
      (fun x => x.enrichment_level) = some lvl := by
  subst hqid
  unfold findRef bulk_update_enrichment_level
  have h := find?_map_of_key (fun x => x.id)
    (fun x => if x.id ∈ [q.id] then { x with enrichment_level := lvl } else x)
    (fun x => by simp only []; split <;> rfl) σb.refs hN q hq
  rw [h]
  simp

/-! ## Further facts about one pass -/

/-- Ids remain duplicate-free across a pass. -/
theorem sync_nodup_ids (fs : FS) (σ : Store) (pfx : List String) (im : Bool)
    (hNR : (σ.refs.map fun x => x.id).Nodup) :
    ((sync_references_with_filesystem fs σ pfx im).1.refs.map fun x => x.id).Nodup := by
  by_cases hpfx : pfx = []
  · subst hpfx
    unfold sync_references_with_filesystem
    rw [if_pos rfl]
    exact hNR
  · rw [sync_eq fs σ pfx im hpfx]
    rw [applySync_refs]
    apply nodup_ids_map _
      (flagUpd (computeSync fs (get_references_for_prefixes σ pfx im))) (fun x => rfl)
    exact nodup_ids_filter _ _ hNR

/-- Every reference of the output store is the flag update of a surviving
input reference. -/
theorem sync_refs_preimage (fs : FS) (σ : Store) (pfx : List String) (im : Bool)
    (hpfx : pfx ≠ []) (q' : Reference)
    (hq' : q' ∈ (sync_references_with_filesystem fs σ pfx im).1.refs) :
    ∃ q ∈ σ.refs,
      keepRef (computeSync fs (get_references_for_prefixes σ pfx im)) q = true ∧
      q' = flagUpd (computeSync fs (get_references_for_prefixes σ pfx im)) q := by
  rw [sync_eq fs σ pfx im hpfx, applySync_refs] at hq'
  rcases List.mem_map.mp hq' with ⟨q, hq, rfl⟩
  rcases List.mem_filter.mp hq with ⟨hql, hqk⟩
  exact ⟨q, hql, hqk, rfl⟩

/-- A pass never changes how many references carry a given path, provided
none of the path's rows is deleted. -/
theorem sync_countP_path (fs : FS) (σ : Store) (pfx : List String) (im : Bool)
    (hpfx : pfx ≠ []) (P : String)
    (hkeepAll : ∀ q ∈ σ.refs, q.file_path = some P →
      keepRef (computeSync fs (get_references_for_prefixes σ pfx im)) q = true) :
    ((sync_references_with_filesystem fs σ pfx im).1.refs.countP
      fun q => q.file_path == some P) =
    σ.refs.countP fun q => q.file_path == some P := by
  rw [sync_eq fs σ pfx im hpfx, applySync_refs, List.countP_map, List.countP_filter]
  apply List.countP_congr
  intro q hq
  simp only [Function.comp_apply, flagUpd]
  cases hP : (q.file_path == some P) with
  | false => simp [hP]
  | true => simp [hP, hkeepAll q hq (by simpa using hP)]

/-- A scanned reference's path satisfies the prefix condition. -/
theorem scanned_prefix_cond (σ : Store) (pfx : List String) (im : Bool)
    (r : Reference) (P : String) (hp : r.file_path = some P)
    (hscan : scannedRef σ pfx im r = true) :
    (pfx.any fun b => underDir b P) = true := by
  by_cases hc : (pfx.any fun b => underDir b P) = true
  · exact hc
  · exfalso
    have h2 : ((pfx.any fun b => underDir b P) && (im || !r.is_missing)) = false := by
      cases hx : (pfx.any fun b => underDir b P)
      · rfl
      · exact absurd hx hc
    simp [scannedRef, rowFor, hp, h2] at hscan

/-- Building the scanned predicate from its components. -/
theorem scanned_of (σ : Store) (pfx : List String) (im : Bool) (r : Reference)
    (P : String) (hp : r.file_path = some P)
    (hcond : (pfx.any fun b => underDir b P) = true)
    (him : (im || !r.is_missing) = true)
    (hasset : (assetFor σ r.asset_id).isSome = true) :
    scannedRef σ pfx im r = true := by
  have h2 : ((pfx.any fun b => underDir b P) && (im || !r.is_missing)) = true := by
    rw [hcond, him]
    rfl
  rcases Option.isSome_iff_exists.mp hasset with ⟨a, ha⟩
  simp [scannedRef, rowFor, hp, h2, ha]

/-! ## Claim theorems -/

/-- C4 (amended): during a reconciliation pass, in an Asset group with a
non-null hash in which no Reference passes the fast check, a scanned
Reference whose file is absent is marked `is_missing := true`; a scanned
Reference whose file is still present but failed the fast check is instead
marked `needs_verify := true` with `is_missing` unchanged (it is not
soft-deleted). -/
theorem C4_hashed_group_without_fastok (fs : FS) (σ : Store) (pfx : List String)
    (im : Bool) (hNR : (σ.refs.map fun x => x.id).Nodup) (r : Reference)
    (hr : r ∈ σ.refs) (hscan : scannedRef σ pfx im r = true)
    (a : Asset) (ha : assetFor σ r.asset_id = some a) (h : String)
    (hh : a.hash = some h)
    (hnofast : ∀ q ∈ σ.refs, scannedRef σ pfx im q = true →
      q.asset_id = r.asset_id → refFastOk fs σ q = false) :
    findRef (sync_references_with_filesystem fs σ pfx im).1 r.id =
      some (if refFileExists fs r = true
        then { r with needs_verify := true }
        else { r with is_missing := true }) := by
  by_cases hex : refFileExists fs r = true
  · rw [if_pos hex]
    have h1 := sync_present_ref fs σ pfx im hNR r hr hscan hex
    have hfo : refFastOk fs σ r = false := hnofast r hr hscan rfl
    rw [hfo] at h1
    simpa using h1
  · rw [if_neg hex]
    have hex' : refFileExists fs r = false := by
      cases hx : refFileExists fs r
      · rfl
      · exact absurd hx hex
    exact sync_absent_marked fs σ pfx im hNR r hr hscan hex' a ha h hh hnofast

/-- C4 counterexample: a hashed Asset, a single Reference whose row exists
and is not flagged missing, a group with no fast-ok member, and a file
still present on disk whose mtime changed: the pass leaves
`is_missing = false` (and sets `needs_verify`), refuting the claim that
every such Reference is marked `is_missing = true`. -/
theorem C4_counterexample :
    (exStoreHashed.assets.all fun b => b.hash == some "blake3:h") = true ∧
    scannedRef exStoreHashed ["/m"] true exRefChanged = true ∧
    exRefChanged.is_missing = false ∧
    refFileExists exFsChanged exRefChanged = true ∧
    (exStoreHashed.refs.all fun q => !refFastOk exFsChanged exStoreHashed q) = true ∧
    findRef (sync_references_with_filesystem exFsChanged exStoreHashed ["/m"] true).1 2 =
      some { exRefChanged with needs_verify := true } ∧
    ((findRef (sync_references_with_filesystem exFsChanged exStoreHashed ["/m"] true).1 2).map
      fun q => q.is_missing) = some false := by
  decide

/-- C4 witness: the amended theorem applied to the concrete changed-mtime
store. -/
theorem C4_witness :
    findRef (sync_references_with_filesystem exFsChanged exStoreHashed ["/m"] true).1 2 =
      some (if refFileExists exFsChanged exRefChanged = true
        then { exRefChanged with needs_verify := true }
        else { exRefChanged with is_missing := true }) :=
  C4_hashed_group_without_fastok exFsChanged exStoreHashed ["/m"] true (by decide)
    exRefChanged (by decide) (by decide)
    { id := 1, hash := some "blake3:h", size_bytes := 1024, mime_type := none }
    (by decide) "blake3:h" (by decide) (by decide)

/-- C5 (confirmed): a stub Asset (hash null) all of whose References are
scanned by the pass and classified missing has its Asset row and all its
Reference rows removed entirely from the store. -/
theorem C5_stub_asset_garbage_collected (fs : FS) (σ : Store) (pfx : List String)
    (im : Bool) (aid : Nat) (r0 : Reference) (hr0 : r0 ∈ σ.refs)
    (haid0 : r0.asset_id = aid)
    (hall : ∀ q ∈ σ.refs, q.asset_id = aid →
      scannedRef σ pfx im q = true ∧ refFileExists fs q = false)
    (a : Asset) (ha : assetFor σ aid = some a) (hh : a.hash = none) :
    ((sync_references_with_filesystem fs σ pfx im).1.assets.countP
      fun b => b.id == aid) = 0 ∧
    ((sync_references_with_filesystem fs σ pfx im).1.refs.countP
      fun q => q.asset_id == aid) = 0 := by
  have hscan0 := (hall r0 hr0 haid0).1
  obtain ⟨hA, hR⟩ := sync_stub_deleted fs σ pfx im aid r0 hr0 haid0 hscan0
    (fun q hq _ haid => (hall q hq haid).2) a ha hh
  constructor
  · rw [List.countP_eq_zero]
    intro b hb
    simpa using hA b hb
  · rw [List.countP_eq_zero]
    intro q hq
    simpa using hR q hq

/-- C5 witness: a stub asset with exactly one reference whose file was
deleted is removed entirely by the pass. -/
theorem C5_witness :
    ((sync_references_with_filesystem exFsGone exStoreStub ["/m"] true).1.assets.countP
      fun b => b.id == 1) = 0 ∧
    ((sync_references_with_filesystem exFsGone exStoreStub ["/m"] true).1.refs.countP
      fun q => q.asset_id == 1) = 0 :=
  C5_stub_asset_garbage_collected exFsGone exStoreStub ["/m"] true 1
    { id := 2, asset_id := 1, file_path := some "/m/x.bin", mtime_ns := some 7,
      needs_verify := false, is_missing := false, enrichment_level := 0,
      owner_id := "", name := "x", preview_id := none, user_metadata := none }
    (by decide) (by decide) (by decide)
    { id := 1, hash := none, size_bytes := 5, mime_type := none }
    (by decide) (by decide)

/-- C8 (amended): a Reference whose stat fails with `PermissionError` is
classified as existing: the pass keeps the row, leaves `is_missing` at its
previous value, and only sets `needs_verify` (the fast check cannot pass).
A stat failure with any other unexpected `OSError` is instead classified
as absent — see the counterexample. -/
theorem C8_permission_error_kept (fs : FS) (σ : Store) (pfx : List String)
    (im : Bool) (hNR : (σ.refs.map fun x => x.id).Nodup) (r : Reference)
    (hr : r ∈ σ.refs) (hscan : scannedRef σ pfx im r = true)
    (p : String) (hp : r.file_path = some p)
    (hstat : statOf fs p = StatResult.permissionDenied) :
    refFileExists fs r = true ∧
    findRef (sync_references_with_filesystem fs σ pfx im).1 r.id =
      some { r with needs_verify := true } := by
  have hex : refFileExists fs r = true := by
    simp [refFileExists, hp, fileExistsAt, hstat]
  have hfo : refFastOk fs σ r = false := by
    simp [refFastOk, hp, fastOkAt, hstat]
  refine ⟨hex, ?_⟩
  have h1 := sync_present_ref fs σ pfx im hNR r hr hscan hex
  rw [hfo] at h1
  simpa using h1

/-- C8 counterexample: a stat failure with a generic `OSError` (not
file-not-found, not permission-denied) is classified as absent and the
Reference is soft-deleted in that pass, refuting the claim that every
unexpected stat error other than file-not-found is treated as existing. -/
theorem C8_counterexample :
    statOf exFsOsError "/m/a.bin" = StatResult.osError ∧
    refFileExists exFsOsError exRefChanged = false ∧
    findRef (sync_references_with_filesystem exFsOsError exStoreHashed ["/m"] true).1 2 =
      some { exRefChanged with is_missing := true } := by
  decide

/-- C8 witness: the amended theorem applied to a permission-denied stat. -/
theorem C8_witness :
    refFileExists exFsPermDenied exRefChanged = true ∧
    findRef (sync_references_with_filesystem exFsPermDenied exStoreHashed ["/m"] true).1 2 =
      some { exRefChanged with needs_verify := true } :=
  C8_permission_error_kept exFsPermDenied exStoreHashed ["/m"] true (by decide)
    exRefChanged (by decide) (by decide) "/m/a.bin" (by decide) (by decide)

/-- C3 (amended): `enrich_asset` overwrites the Reference's stored
`enrichment_level` with the level achieved by that call: when stat fails
the store is untouched and STUB is returned, and when stat succeeds the
stored level afterwards equals the freshly computed level of the call —
which is ≥ the previous level when the Reference was a stub, but lowers an
already-achieved level when extraction yields None and hashing is disabled
or fails. -/
theorem C3_enrichment_level_overwritten (env : EnrichEnv) (σ : Store)
    (file_path : String) (rid : Nat) (r : Reference) (hr : r ∈ σ.refs)
    (hid : r.id = rid) (hNR : (σ.refs.map fun x => x.id).Nodup) (em ch : Bool) :
    ((∀ m s, statOf env.fs file_path ≠ StatResult.ok m s) →
      enrich_asset env σ file_path rid r.asset_id em ch = some (σ, ENRICHMENT_STUB)) ∧
    (∀ m s, statOf env.fs file_path = StatResult.ok m s →
      ∃ σ2, enrich_asset env σ file_path rid r.asset_id em ch =
          some (σ2, computed_enrichment_level env file_path em ch) ∧
        (findRef σ2 rid).map (fun x => x.enrichment_level) =
          some (computed_enrichment_level env file_path em ch) ∧
        (r.enrichment_level = ENRICHMENT_STUB →
          r.enrichment_level ≤ computed_enrichment_level env file_path em ch)) := by
  constructor
  · intro hne
    unfold enrich_asset
    cases hst : statOf env.fs file_path with
    | ok m s => exact absurd hst (hne m s)
    | notFound => rfl
    | permissionDenied => rfl
    | osError => rfl
  · intro m s hstat
    cases hmd : (if em then env.extract_file_metadata file_path else none) with
    | none =>
        cases hH : (if ch then env.compute_blake3_hash file_path else none) with
        | none =>
            have hcl : computed_enrichment_level env file_path em ch = ENRICHMENT_STUB := by
              simp only [computed_enrichment_level, hmd, hH]
            rw [hcl]
            refine ⟨bulk_update_enrichment_level σ [rid] ENRICHMENT_STUB, ?_, ?_,
              fun hz => by rw [hz]⟩
            · simp [enrich_asset, hstat, hmd, hH]
            · exact bulk_level_find σ rid ENRICHMENT_STUB hNR r hr hid
        | some d =>
            have hcl : computed_enrichment_level env file_path em ch = ENRICHMENT_HASHED := by
              simp only [computed_enrichment_level, hmd, hH]
            rw [hcl]
            cases hga : get_asset_by_hash σ ("blake3:" ++ d) with
            | none =>
                refine ⟨bulk_update_enrichment_level
                  (update_asset_hash_and_mime σ r.asset_id (some ("blake3:" ++ d)) none)
                  [rid] ENRICHMENT_HASHED, ?_, ?_,
                  fun hz => by rw [hz]; exact Nat.zero_le _⟩
                · simp [enrich_asset, hstat, hmd, hH, hga]
                · exact bulk_level_find _ rid ENRICHMENT_HASHED hNR r hr hid
            | some ex =>
                by_cases hnea : ex.id ≠ r.asset_id
                · refine ⟨bulk_update_enrichment_level
                    (delete_orphaned_seed_asset
                      (reassign_asset_references σ r.asset_id ex.id rid) r.asset_id)
                    [rid] ENRICHMENT_HASHED, ?_, ?_,
                    fun hz => by rw [hz]; exact Nat.zero_le _⟩
                  · simp [enrich_asset, hstat, hmd, hH, hga, hnea]
                  · have hre : (fun x : Reference =>
                        if x.asset_id = r.asset_id then { x with asset_id := ex.id } else x) r
                        ∈ (reassign_asset_references σ r.asset_id ex.id rid).refs :=
                      List.mem_map_of_mem _ hr
                    have hmem2 : { r with asset_id := ex.id }
                        ∈ (delete_orphaned_seed_asset
                          (reassign_asset_references σ r.asset_id ex.id rid) r.asset_id).refs := by
                      apply List.mem_filter.mpr
                      refine ⟨?_, by simpa using hnea⟩
                      simpa using hre
                    have hN2 : (((delete_orphaned_seed_asset
                        (reassign_asset_references σ r.asset_id ex.id rid) r.asset_id).refs.map
                          fun x => x.id)).Nodup := by
                      apply nodup_ids_filter
                      apply nodup_ids_map
                      · intro x
                        by_cases hx : x.asset_id = r.asset_id <;> simp [hx]
                      · exact hNR
                    exact bulk_level_find _ rid ENRICHMENT_HASHED hN2 _ hmem2 hid
                · refine ⟨bulk_update_enrichment_level
                    (update_asset_hash_and_mime σ r.asset_id (some ("blake3:" ++ d)) none)
                    [rid] ENRICHMENT_HASHED, ?_, ?_,
                    fun hz => by rw [hz]; exact Nat.zero_le _⟩
                  · have hnea2 : ex.id = r.asset_id := by rwa [ne_eq, not_not] at hnea
                    simp [enrich_asset, hstat, hmd, hH, hga, hnea2]
                  · exact bulk_level_find _ rid ENRICHMENT_HASHED hNR r hr hid
    | some mdv =>
        have hset := set_reference_metadata_eq_some σ rid (some mdv.user_doc) r hr hid
        simp only [Option.getD_some] at hset
        have hmemset : { r with user_metadata := some mdv.user_doc }
            ∈ (σ.refs.map fun x =>
              if x.id = rid
              then { x with user_metadata := some mdv.user_doc }
              else x) := by
          have := List.mem_map_of_mem (fun x : Reference =>
            if x.id = rid
            then { x with user_metadata := some mdv.user_doc }
            else x) hr
          simpa [hid] using this
        have hNset : ((σ.refs.map fun x =>
            if x.id = rid
            then { x with user_metadata := some mdv.user_doc }
            else x).map fun x => x.id).Nodup := by
          apply nodup_ids_map
          · intro x
            by_cases hx : x.id = rid <;> simp [hx]
          · exact hNR
        cases hH : (if ch then env.compute_blake3_hash file_path else none) with
        | none =>
            have hcl : computed_enrichment_level env file_path em ch = ENRICHMENT_METADATA := by
              simp only [computed_enrichment_level, hmd, hH]
            rw [hcl]
            cases hmime : mdv.content_type with
            | none =>
                refine ⟨bulk_update_enrichment_level
                  { σ with refs := σ.refs.map fun x =>
                      if x.id = rid
                      then { x with user_metadata := some mdv.user_doc }
                      else x }
                  [rid] ENRICHMENT_METADATA, ?_, ?_,
                  fun hz => by rw [hz]; exact Nat.zero_le _⟩
                · simp [enrich_asset, hstat, hmd, hH, hset, hmime]
                · exact bulk_level_find _ rid ENRICHMENT_METADATA hNset _ hmemset hid
            | some mt =>
                refine ⟨bulk_update_enrichment_level
                  (update_asset_hash_and_mime
                    { σ with refs := σ.refs.map fun x =>
                        if x.id = rid
                        then { x with user_metadata := some mdv.user_doc }
                        else x }
                    r.asset_id none (some mt))
                  [rid] ENRICHMENT_METADATA, ?_, ?_,
                  fun hz => by rw [hz]; exact Nat.zero_le _⟩
                · simp [enrich_asset, hstat, hmd, hH, hset, hmime]
                · exact bulk_level_find _ rid ENRICHMENT_METADATA hNset _ hmemset hid
        | some d =>
            have hcl : computed_enrichment_level env file_path em ch = ENRICHMENT_HASHED := by
              simp only [computed_enrichment_level, hmd, hH]
            rw [hcl]
            cases hga : get_asset_by_hash
                { σ with refs := σ.refs.map fun x =>
                    if x.id = rid
                    then { x with user_metadata := some mdv.user_doc }
                    else x } ("blake3:" ++ d) with
            | none =>
                refine ⟨bulk_update_enrichment_level
                  (update_asset_hash_and_mime
                    { σ with refs := σ.refs.map fun x =>
                        if x.id = rid
                        then { x with user_metadata := some mdv.user_doc }
                        else x }
                    r.asset_id (some ("blake3:" ++ d)) mdv.content_type)
                  [rid] ENRICHMENT_HASHED, ?_, ?_,
                  fun hz => by rw [hz]; exact Nat.zero_le _⟩
                · simp [enrich_asset, hstat, hmd, hH, hset, hga]
                · exact bulk_level_find _ rid ENRICHMENT_HASHED hNset _ hmemset hid
            | some ex =>
                by_cases hnea : ex.id ≠ r.asset_id
                · cases hmime : mdv.content_type with
                  | none =>
                      refine ⟨bulk_update_enrichment_level
                        (delete_orphaned_seed_asset
                          (reassign_asset_references
                            { σ with refs := σ.refs.map fun x =>
                                if x.id = rid
                                then { x with user_metadata := some mdv.user_doc }
                                else x }
                            r.asset_id ex.id rid) r.asset_id)
                        [rid] ENRICHMENT_HASHED, ?_, ?_,
                        fun hz => by rw [hz]; exact Nat.zero_le _⟩
                      · simp [enrich_asset, hstat, hmd, hH, hset, hga, hnea, hmime]
                      · have hre := List.mem_map_of_mem (fun x : Reference =>
                          if x.asset_id = r.asset_id then { x with asset_id := ex.id } else x)
                          hmemset
                        have hmem2 : { r with asset_id := ex.id, user_metadata := some mdv.user_doc }
                            ∈ (delete_orphaned_seed_asset
                              (reassign_asset_references
                                { σ with refs := σ.refs.map fun x =>
                                    if x.id = rid
                                    then { x with
                                      user_metadata := some mdv.user_doc }
                                    else x }
                                r.asset_id ex.id rid) r.asset_id).refs := by
                          apply List.mem_filter.mpr
                          refine ⟨?_, by simpa using hnea⟩
                          exact List.mem_map.mpr ⟨_, hmemset, by simp⟩
                        have hN2 : (((delete_orphaned_seed_asset
                            (reassign_asset_references
                              { σ with refs := σ.refs.map fun x =>
                                  if x.id = rid
                                  then { x with
                                    user_metadata := some mdv.user_doc }
                                  else x }
                              r.asset_id ex.id rid) r.asset_id).refs.map
                              fun x => x.id)).Nodup := by
                          apply nodup_ids_filter
                          apply nodup_ids_map
                          · intro x
                            by_cases hx : x.asset_id = r.asset_id <;> simp [hx]
                          · exact hNset
                        exact bulk_level_find _ rid ENRICHMENT_HASHED hN2 _ hmem2 hid
                  | some mt =>
                      refine ⟨bulk_update_enrichment_level
                        (update_asset_hash_and_mime
                          (delete_orphaned_seed_asset
                            (reassign_asset_references
                              { σ with refs := σ.refs.map fun x =>
                                  if x.id = rid
                                  then { x with
                                    user_metadata := some mdv.user_doc }
                                  else x }
                              r.asset_id ex.id rid) r.asset_id)
                          ex.id none (some mt))
                        [rid] ENRICHMENT_HASHED, ?_, ?_,
                        fun hz => by rw [hz]; exact Nat.zero_le _⟩
                      · simp [enrich_asset, hstat, hmd, hH, hset, hga, hnea, hmime]
                      · have hre := List.mem_map_of_mem (fun x : Reference =>
                          if x.asset_id = r.asset_id then { x with asset_id := ex.id } else x)
                          hmemset
                        have hmem2 : { r with asset_id := ex.id, user_metadata := some mdv.user_doc }
                            ∈ (delete_orphaned_seed_asset
                              (reassign_asset_references
                                { σ with refs := σ.refs.map fun x =>
                                    if x.id = rid
                                    then { x with
                                      user_metadata := some mdv.user_doc }
                                    else x }
                                r.asset_id ex.id rid) r.asset_id).refs := by
                          apply List.mem_filter.mpr
                          refine ⟨?_, by simpa using hnea⟩
                          exact List.mem_map.mpr ⟨_, hmemset, by simp⟩
                        have hN2 : (((delete_orphaned_seed_asset
                            (reassign_asset_references
                              { σ with refs := σ.refs.map fun x =>
                                  if x.id = rid
                                  then { x with
                                    user_metadata := some mdv.user_doc }
                                  else x }
                              r.asset_id ex.id rid) r.asset_id).refs.map
                              fun x => x.id)).Nodup := by
                          apply nodup_ids_filter
                          apply nodup_ids_map
                          · intro x
                            by_cases hx : x.asset_id = r.asset_id <;> simp [hx]
                          · exact hNset
                        have hmem3 : { r with asset_id := ex.id, user_metadata := some mdv.user_doc }
                            ∈ (update_asset_hash_and_mime
                              (delete_orphaned_seed_asset
                                (reassign_asset_references
                                  { σ with refs := σ.refs.map fun x =>
                                      if x.id = rid
                                      then { x with
                                        user_metadata := some mdv.user_doc }
                                      else x }
                                  r.asset_id ex.id rid) r.asset_id)
                              ex.id none (some mt)).refs := hmem2
                        exact bulk_level_find _ rid ENRICHMENT_HASHED hN2 _ hmem3 hid
                · refine ⟨bulk_update_enrichment_level
                    (update_asset_hash_and_mime
                      { σ with refs := σ.refs.map fun x =>
                          if x.id = rid
                          then { x with user_metadata := some mdv.user_doc }
                          else x }
                      r.asset_id (some ("blake3:" ++ d)) mdv.content_type)
                    [rid] ENRICHMENT_HASHED, ?_, ?_,
                    fun hz => by rw [hz]; exact Nat.zero_le _⟩
                  · have hnea2 : ex.id = r.asset_id := by rwa [ne_eq, not_not] at hnea
                    simp [enrich_asset, hstat, hmd, hH, hset, hga, hnea2]
                  · exact bulk_level_find _ rid ENRICHMENT_HASHED hNset _ hmemset hid

/-- C3 counterexample: a Reference at level METADATA(1), not subject to
any hash-merge (hashing disabled), whose metadata extraction now yields
None: the call succeeds with a successful stat and overwrites the stored
level with 0, strictly lowering it — refuting monotonicity as claimed. -/
theorem C3_counterexample :
    (findRef exStoreLevel1 3).map (fun q => q.enrichment_level) = some 1 ∧
    statOf exEnvNothing.fs "/m/b.bin" = StatResult.ok 100 5 ∧
    (enrich_asset exEnvNothing exStoreLevel1 "/m/b.bin" 3 1 true false).map
      (fun x => (findRef x.1 3).map fun q => q.enrichment_level) = some (some 0) ∧
    (enrich_asset exEnvNothing exStoreLevel1 "/m/b.bin" 3 1 true false).map
      (fun x => x.2) = some 0 := by
  decide

/-- C3 witness: the amended overwrite theorem applied to the concrete
store at level 1 with an extractor yielding None and hashing off. -/
theorem C3_witness :
    ∃ σ2, enrich_asset exEnvNothing exStoreLevel1 "/m/b.bin" 3 1 true false =
        some (σ2, computed_enrichment_level exEnvNothing "/m/b.bin" true false) ∧
      (findRef σ2 3).map (fun x => x.enrichment_level) =
        some (computed_enrichment_level exEnvNothing "/m/b.bin" true false) ∧
      (exRefLevel1.enrichment_level = ENRICHMENT_STUB →
        exRefLevel1.enrichment_level ≤
          computed_enrichment_level exEnvNothing "/m/b.bin" true false) :=
  (C3_enrichment_level_overwritten exEnvNothing exStoreLevel1 "/m/b.bin" 3
    exRefLevel1 (by decide) (by decide) (by decide) true false).2 100 5 (by decide)

/-- C9 (amended): the metadata-update service (and the preview service,
which shares the same lookup-and-authorize prelude) distinguishes an
unknown Reference id (NotFound) from an existing Reference private to a
different owner (PermissionDenied); `delete_asset_reference`, however,
returns `False` in both situations — for delete the two outcomes are not
distinguishable. -/
theorem C9_update_distinguishes_delete_does_not (σ : Store) (caller : String)
    (r : Reference) (hr : r ∈ σ.refs)
    (hNR : (σ.refs.map fun x => x.id).Nodup)
    (hown : r.owner_id ≠ "") (hnotc : r.owner_id ≠ caller)
    (j : Nat) (hj : ∀ q ∈ σ.refs, q.id ≠ j) :
    update_asset_metadata_outcome σ r.id caller = MutationOutcome.permissionDenied ∧
    update_asset_metadata_outcome σ j caller = MutationOutcome.notFound ∧
    delete_asset_reference_result σ r.id caller = false ∧
    delete_asset_reference_result σ j caller = false := by
  have hfind : σ.refs.find? (fun x => x.id == r.id) = some r := findRef_self σ hNR r hr
  have hnone : σ.refs.find? (fun x => x.id == j) = none :=
    List.find?_eq_none.mpr (fun q hq => by simpa using hj q hq)
  refine ⟨?_, ?_, ?_, ?_⟩
  · simp only [update_asset_metadata_outcome, hfind]
    rw [if_pos ⟨hown, hnotc⟩]
  · simp only [update_asset_metadata_outcome, hnone]
  · simp only [delete_asset_reference_result, delete_reference_by_id]
    rw [List.any_eq_false]
    intro q hq
    rw [Bool.and_eq_true]
    rintro ⟨hqid, hvis⟩
    have : q = r := List.inj_on_of_nodup_map hNR hq hr (by simpa using hqid)
    subst this
    unfold visible_to at hvis
    rw [Bool.or_eq_true] at hvis
    rcases hvis with hv | hv
    · exact hown (by simpa using hv)
    · exact hnotc (by simpa using hv)
  · simp only [delete_asset_reference_result, delete_reference_by_id]
    rw [List.any_eq_false]
    intro q hq
    rw [Bool.and_eq_true]
    rintro ⟨hqid, _⟩
    exact hj q hq (by simpa using hqid)

/-- C9 counterexample: deleting an existing Reference private to another
owner and deleting an unknown Reference id produce the same observable
outcome (`False` in both cases), refuting distinguishability for the
delete mutation API. -/
theorem C9_counterexample :
    (exStorePrivate.refs.map fun q => (q.id, q.owner_id)) = [(2, "alice")] ∧
    delete_asset_reference_result exStorePrivate 2 "bob" = false ∧
    delete_asset_reference_result exStorePrivate 99 "bob" = false ∧
    delete_asset_reference_result exStorePrivate 2 "bob" =
      delete_asset_reference_result exStorePrivate 99 "bob" := by
  decide

/-- C9 witness: the amended theorem applied to the private store with
caller `bob` and unknown id 99. -/
theorem C9_witness :
    update_asset_metadata_outcome exStorePrivate 2 "bob" =
      MutationOutcome.permissionDenied ∧
    update_asset_metadata_outcome exStorePrivate 99 "bob" = MutationOutcome.notFound ∧
    delete_asset_reference_result exStorePrivate 2 "bob" = false ∧
    delete_asset_reference_result exStorePrivate 99 "bob" = false :=
  C9_update_distinguishes_delete_does_not exStorePrivate "bob" exRefPrivate
    (by decide) (by decide) (by decide) (by decide) 99 (by decide)

/-- C10 (confirmed): the standalone mark-missing-outside-prefixes sweep
with an empty prefix list marks nothing, returns 0, and leaves the store
(in particular every `is_missing` flag) unchanged. -/
theorem C10_empty_prefix_sweep_is_noop (σ : Store) :
    mark_assets_missing_outside_prefixes σ [] = (σ, 0) := by
  unfold mark_assets_missing_outside_prefixes mark_references_missing_outside_prefixes
  rw [if_pos rfl]

/-! ## Helpers for the hash-merge session -/

/-- After `bulk_update_enrichment_level` on one id, the full row stored
under that id. -/
theorem bulk_level_find_row (σb : Store) (rid lvl : Nat)
    (hN : (σb.refs.map fun x => x.id).Nodup) (q : Reference)
    (hq : q ∈ σb.refs) (hqid : q.id = rid) :
    findRef (bulk_update_enrichment_level σb [rid] lvl) rid =
      some { q with enrichment_level := lvl } := by
  subst hqid
  unfold findRef bulk_update_enrichment_level
  have h := find?_map_of_key (fun x => x.id)
    (fun x => if x.id ∈ [q.id] then { x with enrichment_level := lvl } else x)
    (fun x => by simp only []; split <;> rfl) σb.refs hN q hq
  rw [h]
  simp

/-- `post_metadata_store` never touches the assets table. -/
theorem post_metadata_assets (env : EnrichEnv) (σ : Store) (file_path : String)
    (rid : Nat) (em : Bool) :
    (post_metadata_store env σ file_path rid em).assets = σ.assets := by
  unfold post_metadata_store
  cases (if em then env.extract_file_metadata file_path else none) <;> rfl

/-- `post_metadata_store` keeps the reference ids duplicate-free. -/
theorem post_metadata_nodup (env : EnrichEnv) (σ : Store) (file_path : String)
    (rid : Nat) (em : Bool) (hNR : (σ.refs.map fun x => x.id).Nodup) :
    ((post_metadata_store env σ file_path rid em).refs.map fun x => x.id).Nodup := by
  unfold post_metadata_store
  cases (if em then env.extract_file_metadata file_path else none) with
  | none => exact hNR
  | some mdv =>
      apply nodup_ids_map
      · intro x
        by_cases hx : x.id = rid <;> simp [hx]
      · exact hNR

/-- Every reference survives `post_metadata_store` with its id and
asset id intact. -/
theorem post_metadata_mem (env : EnrichEnv) (σ : Store) (file_path : String)
    (rid : Nat) (em : Bool) (r : Reference) (hr : r ∈ σ.refs) :
    ∃ q ∈ (post_metadata_store env σ file_path rid em).refs,
      q.id = r.id ∧ q.asset_id = r.asset_id := by
  unfold post_metadata_store
  cases (if em then env.extract_file_metadata file_path else none) with
  | none => exact ⟨r, hr, rfl, rfl⟩
  | some mdv =>
      refine ⟨(fun x : Reference =>
        if x.id = rid then { x with user_metadata := some mdv.user_doc } else x) r,
        List.mem_map_of_mem _ hr, ?_, ?_⟩ <;>
        (by_cases hx : r.id = rid <;> simp [hx])

/-- The equation of the hash-merge branch of `enrich_asset`: a successful
stat, a successful hash whose value some other asset already bears, and an
existing triggering reference run the merge chain and return HASHED. -/
theorem enrich_merge_eq (env : EnrichEnv) (σ : Store) (file_path : String)
    (rid aid : Nat) (em : Bool) (m s : Nat)
    (hstat : statOf env.fs file_path = StatResult.ok m s)
    (d : String) (hd : env.compute_blake3_hash file_path = some d)
    (E : Asset) (hga : get_asset_by_hash σ ("blake3:" ++ d) = some E)
    (hne : E.id ≠ aid)
    (hex : (σ.refs.any fun x => x.id == rid) = true) :
    enrich_asset env σ file_path rid aid em true =
      some (merge_chain (post_metadata_store env σ file_path rid em) aid E.id rid
        (observed_mime env file_path em), ENRICHMENT_HASHED) := by
  cases hmd : (if em then env.extract_file_metadata file_path else none) with
  | none =>
      simp [enrich_asset, hstat, hmd, hd, hga, hne, merge_chain,
        post_metadata_store, observed_mime]
  | some mdv =>
      have hset : set_reference_metadata σ rid (some mdv.user_doc) =
          some { σ with refs := σ.refs.map fun x =>
            if x.id = rid then { x with user_metadata := some mdv.user_doc } else x } := by
        unfold set_reference_metadata
        rw [if_pos hex]
        simp
      have hga' : get_asset_by_hash
          { σ with refs := σ.refs.map fun x =>
            if x.id = rid then { x with user_metadata := some mdv.user_doc } else x }
          ("blake3:" ++ d) = some E := hga
      simp [enrich_asset, hstat, hmd, hd, hset, hga', hne, merge_chain,
        post_metadata_store, observed_mime]

/-- What the merge chain does to the store: the triggering reference now
points at the survivor, no asset with the loser's id remains, the survivor
carries any observed mime type, and it is the only asset with the hash. -/
theorem merge_chain_spec (σa : Store) (aid rid : Nat) (E : Asset) (h : String)
    (obs : Option String) (hne : E.id ≠ aid)
    (hNRa : (σa.refs.map fun x => x.id).Nodup)
    (hNAa : (σa.assets.map fun x => x.id).Nodup)
    (r' : Reference) (hr' : r' ∈ σa.refs) (hid : r'.id = rid) (haid : r'.asset_id = aid)
    (hEmem : E ∈ σa.assets) (hEhash : E.hash = some h)
    (huniqH : ∀ b ∈ σa.assets, b.hash = some h → b = E) :
    ((findRef (merge_chain σa aid E.id rid obs) rid).map fun x => x.asset_id) =
      some E.id ∧
    (∀ b ∈ (merge_chain σa aid E.id rid obs).assets, b.id ≠ aid) ∧
    findAsset (merge_chain σa aid E.id rid obs) E.id =
      some { E with mime_type := if obs.isSome then obs else E.mime_type } ∧
    ((merge_chain σa aid E.id rid obs).assets.countP fun b => b.hash == some h) = 1 := by
  have hmemdel : { r' with asset_id := E.id } ∈
      (delete_orphaned_seed_asset (reassign_asset_references σa aid E.id rid) aid).refs := by
    apply List.mem_filter.mpr
    refine ⟨?_, by simpa using hne⟩
    exact List.mem_map.mpr ⟨r', hr', by simp [haid]⟩
  have hNdel : ((delete_orphaned_seed_asset
      (reassign_asset_references σa aid E.id rid) aid).refs.map fun x => x.id).Nodup := by
    apply nodup_ids_filter
    apply nodup_ids_map
    · intro x
      by_cases hx : x.asset_id = aid <;> simp [hx]
    · exact hNRa
  have hrefs : (if obs.isSome then
      update_asset_hash_and_mime
        (delete_orphaned_seed_asset (reassign_asset_references σa aid E.id rid) aid)
        E.id none obs
     else delete_orphaned_seed_asset (reassign_asset_references σa aid E.id rid) aid).refs =
      (delete_orphaned_seed_asset (reassign_asset_references σa aid E.id rid) aid).refs := by
    cases obs <;> rfl
  have hfind : findRef (merge_chain σa aid E.id rid obs) rid =
      some { r' with asset_id := E.id, enrichment_level := ENRICHMENT_HASHED } := by
    unfold merge_chain
    exact bulk_level_find_row _ rid ENRICHMENT_HASHED (by rw [hrefs]; exact hNdel)
      { r' with asset_id := E.id } (by rw [hrefs]; exact hmemdel) hid
  have hstep : (σa.assets.countP fun a => ((a.hash == some h) && decide (a.id ≠ aid))) = 1 :=
    countP_eq_one_of_unique _ σa.assets E hEmem (by simp [hEhash, hne])
      (fun y hy hpy => huniqH y hy (by
        simp only [Bool.and_eq_true, beq_iff_eq, decide_eq_true_eq] at hpy
        exact hpy.1))
      (List.Nodup.of_map _ hNAa)
  have hNAf : ((σa.assets.filter fun a => a.id ≠ aid).map fun x => x.id).Nodup :=
    ((List.filter_sublist σa.assets).map fun x => x.id).nodup hNAa
  refine ⟨by rw [hfind]; rfl, ?_, ?_, ?_⟩
  · rcases obs with _ | v
    · have hA : (merge_chain σa aid E.id rid none).assets =
          σa.assets.filter fun a => a.id ≠ aid := rfl
      intro b hb
      rw [hA] at hb
      exact (by simpa using (List.mem_filter.mp hb).2)
    · have hA : (merge_chain σa aid E.id rid (some v)).assets =
          (σa.assets.filter fun a => a.id ≠ aid).map fun a =>
            if a.id = E.id then { a with mime_type := some v } else a := rfl
      intro b hb
      rw [hA] at hb
      rcases List.mem_map.mp hb with ⟨a, ha, rfl⟩
      have haid' : ¬a.id = aid := by simpa using (List.mem_filter.mp ha).2
      by_cases hx : a.id = E.id <;> simp [hx, haid', hne]
  · rcases obs with _ | v
    · have hA : (merge_chain σa aid E.id rid none).assets =
          σa.assets.filter fun a => a.id ≠ aid := rfl
      unfold findAsset
      rw [hA]
      exact find?_eq_of_unique _ _ E
        (List.mem_filter.mpr ⟨hEmem, by simpa using hne⟩) (by simp)
        (fun y hy hpy => List.inj_on_of_nodup_map hNAa
          (List.mem_filter.mp hy).1 hEmem (by simpa using hpy))
    · have hA : (merge_chain σa aid E.id rid (some v)).assets =
          (σa.assets.filter fun a => a.id ≠ aid).map fun a =>
            if a.id = E.id then { a with mime_type := some v } else a := rfl
      unfold findAsset
      rw [hA]
      have hfm := find?_map_of_key (fun x => x.id)
        (fun a => if a.id = E.id then { a with mime_type := some v } else a)
        (fun x => by simp only []; split <;> rfl)
        (σa.assets.filter fun a => a.id ≠ aid) hNAf E
        (List.mem_filter.mpr ⟨hEmem, by simpa using hne⟩)
      simpa using hfm
  · rcases obs with _ | v
    · have hA : (merge_chain σa aid E.id rid none).assets =
          σa.assets.filter fun a => a.id ≠ aid := rfl
      rw [hA, List.countP_filter]
      exact hstep
    · have hA : (merge_chain σa aid E.id rid (some v)).assets =
          (σa.assets.filter fun a => a.id ≠ aid).map fun a =>
            if a.id = E.id then { a with mime_type := some v } else a := rfl
      rw [hA, List.countP_map, List.countP_filter]
      refine Eq.trans (List.countP_congr ?_) hstep
      intro a _
      by_cases hx : a.id = E.id <;> simp [hx]

/-- C2 (confirmed): an enrichment call with hashing enabled whose computed
hash already belongs to a different Asset than the Reference's current
one: the call returns HASHED, the Reference is re-pointed at the
pre-existing Asset bearing the hash, the freshly-stubbed losing Asset id
no longer exists in the store, any newly observed mime type is applied to
the surviving Asset, and exactly one Asset bears the hash. -/
theorem C2_hash_merge_survivor (env : EnrichEnv) (σ : Store) (file_path : String)
    (rid : Nat) (r : Reference) (hr : r ∈ σ.refs) (hid : r.id = rid)
    (hNR : (σ.refs.map fun x => x.id).Nodup)
    (hNA : (σ.assets.map fun x => x.id).Nodup)
    (em : Bool) (m s : Nat)
    (hstat : statOf env.fs file_path = StatResult.ok m s)
    (d : String) (hd : env.compute_blake3_hash file_path = some d)
    (E : Asset) (hga : get_asset_by_hash σ ("blake3:" ++ d) = some E)
    (hne : E.id ≠ r.asset_id)
    (huniqH : ∀ b ∈ σ.assets, b.hash = some ("blake3:" ++ d) → b = E) :
    ∃ σ2, enrich_asset env σ file_path rid r.asset_id em true =
        some (σ2, ENRICHMENT_HASHED) ∧
      ((findRef σ2 rid).map fun x => x.asset_id) = some E.id ∧
      (∀ b ∈ σ2.assets, b.id ≠ r.asset_id) ∧
      findAsset σ2 E.id = some { E with mime_type :=
        if (observed_mime env file_path em).isSome then observed_mime env file_path em
        else E.mime_type } ∧
      (σ2.assets.countP fun b => b.hash == some ("blake3:" ++ d)) = 1 := by
  have hex : (σ.refs.any fun x => x.id == rid) = true :=
    List.any_eq_true.mpr ⟨r, hr, by simp [hid]⟩
  have heq := enrich_merge_eq env σ file_path rid r.asset_id em m s hstat d hd E hga hne hex
  obtain ⟨r', hr', hrid', haid'⟩ := post_metadata_mem env σ file_path rid em r hr
  have hAa := post_metadata_assets env σ file_path rid em
  have hNRa := post_metadata_nodup env σ file_path rid em hNR
  have hEmem : E ∈ (post_metadata_store env σ file_path rid em).assets := by
    rw [hAa]
    exact List.mem_of_find?_eq_some hga
  have hEhash : E.hash = some ("blake3:" ++ d) := by
    have := List.find?_some hga
    simpa using this
  have spec := merge_chain_spec (post_metadata_store env σ file_path rid em)
    r.asset_id rid E ("blake3:" ++ d) (observed_mime env file_path em) hne
    hNRa (by rw [hAa]; exact hNA) r' hr' (hrid'.trans hid) (haid'.trans rfl)
    hEmem hEhash (fun b hb => huniqH b (by rwa [hAa] at hb))
  exact ⟨_, heq, spec.1, spec.2.1, spec.2.2.1, spec.2.2.2⟩

/-- C2 witness: the merge scenario — a pre-existing hashed asset (id 1), a
stub asset (id 2) whose single reference (id 3) points at a byte-identical
file, hashing enabled. -/
theorem C2_witness :
    ∃ σ2, enrich_asset exEnvMerge exStoreMerge "/m/b.bin" 3 2 true true =
        some (σ2, ENRICHMENT_HASHED) ∧
      ((findRef σ2 3).map fun x => x.asset_id) = some 1 ∧
      (∀ b ∈ σ2.assets, b.id ≠ 2) ∧
      findAsset σ2 1 = some { id := 1, hash := some "blake3:d", size_bytes := 5, mime_type := some "application/x-bin" } ∧
      (σ2.assets.countP fun b => b.hash == some "blake3:d") = 1 := by
  exact C2_hash_merge_survivor exEnvMerge exStoreMerge "/m/b.bin" 3
    { id := 3, asset_id := 2, file_path := some "/m/b.bin", mtime_ns := some 100,
      needs_verify := false, is_missing := false, enrichment_level := 0,
      owner_id := "", name := "b", preview_id := none, user_metadata := none }
    (by decide) (by decide) (by decide) (by decide) true 100 5 (by decide)
    "d" (by decide)
    { id := 1, hash := some "blake3:d", size_bytes := 5, mime_type := none }
    (by decide) (by decide) (by decide)

/-! ## Helpers for the ingest session -/

/-- A singleton ingest batch for an unclaimed path: the stub Asset and the
Reference row are appended and the call reports one insert, one win, no
losses. -/
theorem batch_single_insert (σ : Store) (s : SeedAssetSpec) (a r : Nat) (o : String)
    (hh : s.hash = none)
    (hB0 : (σ.refs.any fun q => q.file_path == some s.abs_path) = false) :
    batch_insert_seed_assets σ [s] [(a, r)] o =
      ({ σ with assets := σ.assets ++ [specAssetRow s a],
                refs := σ.refs ++ [specReferenceRow s a r o] },
       { inserted_refs := 1, won_paths := 1, lost_paths := 0 }) := by
  have hpt : ∀ q ∈ σ.refs, (q.file_path == some s.abs_path) = false := by
    simpa using List.any_eq_false.mp hB0
  have hB0p : ¬∃ x ∈ σ.refs, x.file_path = some s.abs_path := by
    rintro ⟨x, hx, hfp⟩
    have := hpt x hx
    rw [hfp] at this
    simp at this
  have hmap : ∀ x ∈ σ.refs,
      (if (match x.file_path with
          | some p => decide (p = s.abs_path)
          | none => false) = true ∧ x.is_missing = true
       then { x with is_missing := false } else x) = x := by
    intro x hx
    have h1 := hpt x hx
    cases hfp : x.file_path with
    | none => simp
    | some p =>
        have hne : ¬p = s.abs_path := by
          rw [hfp] at h1
          simpa using h1
        simp [hfp, hne]
  simp [batch_insert_seed_assets, bulk_insert_assets, get_existing_asset_ids,
    bulk_insert_references_ignore_conflicts, restore_references_by_paths,
    get_references_by_paths_and_asset_ids, get_reference_ids_by_ids,
    delete_assets_by_ids, dictLookup, specAssetRow, specReferenceRow,
    hh, hB0p, List.map_congr_left hmap]

/-- A singleton ingest batch for a path already claimed by a non-missing
Reference of another asset, under fresh ids: the store is returned
unchanged (the loser Asset is deleted again) and the call reports no
insert, no win, one loss. -/
theorem batch_single_conflict (σ : Store) (s : SeedAssetSpec) (a r : Nat) (o : String)
    (hh : s.hash = none)
    (hocc : (σ.refs.any fun q => q.file_path == some s.abs_path) = true)
    (hnomiss : ∀ q ∈ σ.refs, q.file_path = some s.abs_path → q.is_missing = false)
    (hAfresh : ∀ b ∈ σ.assets, b.id ≠ a)
    (hRfresh : ∀ q ∈ σ.refs, q.asset_id ≠ a) :
    batch_insert_seed_assets σ [s] [(a, r)] o =
      (σ, { inserted_refs := 0, won_paths := 0, lost_paths := 1 }) := by
  have hoccp : ∃ x ∈ σ.refs, x.file_path = some s.abs_path := by
    obtain ⟨x, hx, hfp⟩ := List.any_eq_true.mp hocc
    exact ⟨x, hx, by simpa using hfp⟩
  have hmap : ∀ x ∈ σ.refs,
      (if (match x.file_path with
          | some p => decide (p = s.abs_path)
          | none => false) = true ∧ x.is_missing = true
       then { x with is_missing := false } else x) = x := by
    intro x hx
    cases hfp : x.file_path with
    | none => simp
    | some p =>
        by_cases hne : p = s.abs_path
        · have := hnomiss x hx (by rw [hfp, hne])
          simp [hfp, hne, this]
        · simp [hfp, hne]
  have hWp : ¬∃ x ∈ σ.refs, x.file_path = some s.abs_path ∧ x.asset_id = a := by
    rintro ⟨x, hx, _, haid⟩
    exact hRfresh x hx haid
  have hFA : (σ.assets.filter fun b => !decide (b.id = a)) = σ.assets :=
    List.filter_eq_self.mpr (fun b hb => by simpa using hAfresh b hb)
  have hFR : (σ.refs.filter fun q => !decide (q.asset_id = a)) = σ.refs :=
    List.filter_eq_self.mpr (fun q hq => by simpa using hRfresh q hq)
  simp [batch_insert_seed_assets, bulk_insert_assets, get_existing_asset_ids,
    bulk_insert_references_ignore_conflicts, restore_references_by_paths,
    get_references_by_paths_and_asset_ids, get_reference_ids_by_ids,
    delete_assets_by_ids, dictLookup, specAssetRow, specReferenceRow,
    hh, hoccp, List.map_congr_left hmap, hWp, hFA, hFR]

/-- `restoreOne` never changes the path column. -/
theorem restoreOne_path (P : String) (x : Reference) :
    (restoreOne P x).file_path = x.file_path := by
  unfold restoreOne
  split <;> rfl

/-- `restoreOne` never changes the id column. -/
theorem restoreOne_id (P : String) (x : Reference) :
    (restoreOne P x).id = x.id := by
  unfold restoreOne
  split <;> rfl

/-- `restoreOne` never changes the asset id column. -/
theorem restoreOne_asset (P : String) (x : Reference) :
    (restoreOne P x).asset_id = x.asset_id := by
  unfold restoreOne
  split <;> rfl

/-- A singleton ingest batch for a path already claimed, under fresh ids,
with no restriction on the occupier's `is_missing` flag: the attempted
Asset is inserted and deleted again, the Reference insert is skipped, and
the only surviving effect is the path-restore sweep — a soft-deleted
Reference at that path comes back with `is_missing = false`.  The call
reports no insert, no win, one loss. -/
theorem batch_single_conflict_restore (σ : Store) (s : SeedAssetSpec) (a r : Nat)
    (o : String)
    (hh : s.hash = none)
    (hocc : (σ.refs.any fun q => q.file_path == some s.abs_path) = true)
    (hAfresh : ∀ b ∈ σ.assets, b.id ≠ a)
    (hRfresh : ∀ q ∈ σ.refs, q.asset_id ≠ a) :
    batch_insert_seed_assets σ [s] [(a, r)] o =
      ({ σ with refs := σ.refs.map (restoreOne s.abs_path) },
       { inserted_refs := 0, won_paths := 0, lost_paths := 1 }) := by
  have hoccp : ∃ x ∈ σ.refs, x.file_path = some s.abs_path := by
    obtain ⟨x, hx, hfp⟩ := List.any_eq_true.mp hocc
    exact ⟨x, hx, by simpa using hfp⟩
  have hWp : ∀ x ∈ σ.refs,
      (if (match x.file_path with
          | some p => decide (p = s.abs_path)
          | none => false) = true ∧ x.is_missing = true
        then { x with is_missing := false } else x).file_path = some s.abs_path →
      ¬(if (match x.file_path with
          | some p => decide (p = s.abs_path)
          | none => false) = true ∧ x.is_missing = true
        then { x with is_missing := false } else x).asset_id = a := by
    intro x hx _
    have hpr : (if (match x.file_path with
        | some p => decide (p = s.abs_path)
        | none => false) = true ∧ x.is_missing = true
      then { x with is_missing := false } else x).asset_id = x.asset_id := by
      split <;> rfl
    rw [hpr]
    exact hRfresh x hx
  have hFA : (σ.assets.filter fun b => !decide (b.id = a)) = σ.assets :=
    List.filter_eq_self.mpr (fun b hb => by simpa using hAfresh b hb)
  have hFR : ((σ.refs.map fun x =>
      if (match x.file_path with
          | some p => decide (p = s.abs_path)
          | none => false) = true ∧ x.is_missing = true
      then { x with is_missing := false } else x).filter
      fun q => !decide (q.asset_id = a)) = σ.refs.map fun x =>
      if (match x.file_path with
          | some p => decide (p = s.abs_path)
          | none => false) = true ∧ x.is_missing = true
      then { x with is_missing := false } else x := by
    apply List.filter_eq_self.mpr
    intro q hq
    rcases List.mem_map.mp hq with ⟨x, hx, rfl⟩
    have hpr : (if (match x.file_path with
        | some p => decide (p = s.abs_path)
        | none => false) = true ∧ x.is_missing = true
      then { x with is_missing := false } else x).asset_id = x.asset_id := by
      split <;> rfl
    rw [hpr]
    simpa using hRfresh x hx
  simp [batch_insert_seed_assets, bulk_insert_assets, get_existing_asset_ids,
    bulk_insert_references_ignore_conflicts, restore_references_by_paths,
    get_references_by_paths_and_asset_ids, get_reference_ids_by_ids,
    delete_assets_by_ids, dictLookup, specAssetRow, specReferenceRow, restoreOne,
    hh, hoccp, iff_true_intro hWp, hFA, hFR]

/-- C1 (confirmed): two ingest batches for the same path under fresh
distinct ids: the first call inserts the Asset/Reference pair and reports
one win; the second call reports `won_paths = 0, lost_paths = 1` and
leaves the store exactly as the first call left it — afterwards exactly
one Reference row exists for the path, no Asset with the loser's id
remains, and the first call's Reference/Asset pair is unchanged. -/
theorem C1_conflict_safe_ingest (σ0 : Store) (s1 s2 : SeedAssetSpec)
    (a1 r1 a2 r2 : Nat) (o : String)
    (hpath : s2.abs_path = s1.abs_path)
    (hh1 : s1.hash = none) (hh2 : s2.hash = none)
    (hP0 : ∀ q ∈ σ0.refs, q.file_path ≠ some s1.abs_path)
    (ha1A : ∀ b ∈ σ0.assets, b.id ≠ a1)
    (hr1R : ∀ q ∈ σ0.refs, q.id ≠ r1)
    (ha2A : ∀ b ∈ σ0.assets, b.id ≠ a2)
    (ha2R : ∀ q ∈ σ0.refs, q.asset_id ≠ a2)
    (h12 : a1 ≠ a2) :
    batch_insert_seed_assets σ0 [s1] [(a1, r1)] o =
      ({ σ0 with assets := σ0.assets ++ [specAssetRow s1 a1],
                 refs := σ0.refs ++ [specReferenceRow s1 a1 r1 o] },
       { inserted_refs := 1, won_paths := 1, lost_paths := 0 }) ∧
    batch_insert_seed_assets (batch_insert_seed_assets σ0 [s1] [(a1, r1)] o).1
        [s2] [(a2, r2)] o =
      ((batch_insert_seed_assets σ0 [s1] [(a1, r1)] o).1,
       { inserted_refs := 0, won_paths := 0, lost_paths := 1 }) ∧
    ((batch_insert_seed_assets (batch_insert_seed_assets σ0 [s1] [(a1, r1)] o).1
        [s2] [(a2, r2)] o).1.refs.countP
      fun q => q.file_path == some s1.abs_path) = 1 ∧
    (∀ b ∈ (batch_insert_seed_assets (batch_insert_seed_assets σ0 [s1] [(a1, r1)] o).1
        [s2] [(a2, r2)] o).1.assets, b.id ≠ a2) ∧
    findRef (batch_insert_seed_assets (batch_insert_seed_assets σ0 [s1] [(a1, r1)] o).1
        [s2] [(a2, r2)] o).1 r1 = some (specReferenceRow s1 a1 r1 o) ∧
    findAsset (batch_insert_seed_assets (batch_insert_seed_assets σ0 [s1] [(a1, r1)] o).1
        [s2] [(a2, r2)] o).1 a1 = some (specAssetRow s1 a1) := by
  have hB0 : (σ0.refs.any fun q => q.file_path == some s1.abs_path) = false := by
    rw [List.any_eq_false]
    intro q hq
    simpa using hP0 q hq
  have e1 := batch_single_insert σ0 s1 a1 r1 o hh1 hB0
  have hocc : ((σ0.refs ++ [specReferenceRow s1 a1 r1 o]).any
      fun q => q.file_path == some s2.abs_path) = true := by
    rw [List.any_eq_true]
    refine ⟨specReferenceRow s1 a1 r1 o,
      List.mem_append_right _ (List.mem_cons_self _ _), ?_⟩
    simp [specReferenceRow, hpath]
  have hnomiss : ∀ q ∈ σ0.refs ++ [specReferenceRow s1 a1 r1 o],
      q.file_path = some s2.abs_path → q.is_missing = false := by
    intro q hq hqp
    rcases List.mem_append.mp hq with hq0 | hq1
    · rw [hpath] at hqp
      exact absurd hqp (hP0 q hq0)
    · have : q = specReferenceRow s1 a1 r1 o := List.mem_singleton.mp hq1
      subst this
      rfl
  have hAfresh : ∀ b ∈ σ0.assets ++ [specAssetRow s1 a1], b.id ≠ a2 := by
    intro b hb
    rcases List.mem_append.mp hb with hb0 | hb1
    · exact ha2A b hb0
    · have : b = specAssetRow s1 a1 := List.mem_singleton.mp hb1
      subst this
      simpa [specAssetRow] using h12
  have hRfresh : ∀ q ∈ σ0.refs ++ [specReferenceRow s1 a1 r1 o], q.asset_id ≠ a2 := by
    intro q hq
    rcases List.mem_append.mp hq with hq0 | hq1
    · exact ha2R q hq0
    · have : q = specReferenceRow s1 a1 r1 o := List.mem_singleton.mp hq1
      subst this
      simpa [specReferenceRow] using h12
  have e2 := batch_single_conflict
    { σ0 with assets := σ0.assets ++ [specAssetRow s1 a1],
              refs := σ0.refs ++ [specReferenceRow s1 a1 r1 o] }
    s2 a2 r2 o hh2 hocc hnomiss hAfresh hRfresh
  have e1' : (batch_insert_seed_assets σ0 [s1] [(a1, r1)] o).1 =
      { σ0 with assets := σ0.assets ++ [specAssetRow s1 a1],
                refs := σ0.refs ++ [specReferenceRow s1 a1 r1 o] } := by
    rw [e1]
  have e2' : (batch_insert_seed_assets
      { σ0 with assets := σ0.assets ++ [specAssetRow s1 a1],
                refs := σ0.refs ++ [specReferenceRow s1 a1 r1 o] }
      [s2] [(a2, r2)] o).1 =
      { σ0 with assets := σ0.assets ++ [specAssetRow s1 a1],
                refs := σ0.refs ++ [specReferenceRow s1 a1 r1 o] } := by
    rw [e2]
  have h0 : (σ0.refs.countP fun q => q.file_path == some s1.abs_path) = 0 :=
    List.countP_eq_zero.mpr (fun q hq => by simpa using hP0 q hq)
  refine ⟨e1, ?_, ?_, ?_, ?_, ?_⟩
  · rw [e1']
    exact e2
  · rw [e1', e2']
    show ((σ0.refs ++ [specReferenceRow s1 a1 r1 o]).countP
      fun q => q.file_path == some s1.abs_path) = 1
    rw [List.countP_append, h0]
    simp [specReferenceRow]
  · rw [e1', e2']
    exact hAfresh
  · rw [e1', e2']
    show (σ0.refs ++ [specReferenceRow s1 a1 r1 o]).find? (fun q => q.id == r1) =
      some (specReferenceRow s1 a1 r1 o)
    apply find?_eq_of_unique _ _ (specReferenceRow s1 a1 r1 o)
      (List.mem_append_right _ (List.mem_cons_self _ _)) (by simp [specReferenceRow])
    intro y hy hpy
    rcases List.mem_append.mp hy with hy0 | hy1
    · exact absurd (by simpa using hpy) (hr1R y hy0)
    · exact List.mem_singleton.mp hy1
  · rw [e1', e2']
    show (σ0.assets ++ [specAssetRow s1 a1]).find? (fun b => b.id == a1) =
      some (specAssetRow s1 a1)
    apply find?_eq_of_unique _ _ (specAssetRow s1 a1)
      (List.mem_append_right _ (List.mem_cons_self _ _)) (by simp [specAssetRow])
    intro y hy hpy
    rcases List.mem_append.mp hy with hy0 | hy1
    · exact absurd (by simpa using hpy) (ha1A y hy0)
    · exact List.mem_singleton.mp hy1

/-- C1 witness: the same stub spec ingested twice into an empty store with
fresh distinct ids: the first call wins, the identical second call loses
without altering the first call's rows. -/
theorem C1_witness :
    batch_insert_seed_assets { assets := [], refs := [] } [exSpecStub] [(1, 2)] "" =
      ({ assets := [specAssetRow exSpecStub 1], refs := [specReferenceRow exSpecStub 1 2 ""] },
       { inserted_refs := 1, won_paths := 1, lost_paths := 0 }) ∧
    batch_insert_seed_assets
        (batch_insert_seed_assets { assets := [], refs := [] } [exSpecStub] [(1, 2)] "").1
        [exSpecStub] [(3, 4)] "" =
      ((batch_insert_seed_assets { assets := [], refs := [] } [exSpecStub] [(1, 2)] "").1,
       { inserted_refs := 0, won_paths := 0, lost_paths := 1 }) ∧
    ((batch_insert_seed_assets
        (batch_insert_seed_assets { assets := [], refs := [] } [exSpecStub] [(1, 2)] "").1
        [exSpecStub] [(3, 4)] "").1.refs.countP
      fun q => q.file_path == some exSpecStub.abs_path) = 1 ∧
    (∀ b ∈ (batch_insert_seed_assets
        (batch_insert_seed_assets { assets := [], refs := [] } [exSpecStub] [(1, 2)] "").1
        [exSpecStub] [(3, 4)] "").1.assets, b.id ≠ 3) ∧
    findRef (batch_insert_seed_assets
        (batch_insert_seed_assets { assets := [], refs := [] } [exSpecStub] [(1, 2)] "").1
        [exSpecStub] [(3, 4)] "").1 2 = some (specReferenceRow exSpecStub 1 2 "") ∧
    findAsset (batch_insert_seed_assets
        (batch_insert_seed_assets { assets := [], refs := [] } [exSpecStub] [(1, 2)] "").1
        [exSpecStub] [(3, 4)] "").1 1 = some (specAssetRow exSpecStub 1) := by
  exact C1_conflict_safe_ingest { assets := [], refs := [] } exSpecStub exSpecStub
    1 2 3 4 "" rfl (by decide) (by decide) (by decide) (by decide) (by decide)
    (by decide) (by decide) (by decide)

/-! ## Helpers for the idempotence session -/

/-- Two stores with the same columns are equal. -/
theorem store_ext (x y : Store) (h1 : x.assets = y.assets) (h2 : x.refs = y.refs) :
    x = y := by
  cases x
  cases y
  cases h1
  cases h2
  rfl

/-- A scanned reference has a non-null path. -/
theorem scanned_path (σ : Store) (pfx : List String) (im : Bool) (r : Reference)
    (hscan : scannedRef σ pfx im r = true) : ∃ p, r.file_path = some p := by
  unfold scannedRef rowFor at hscan
  cases hfp : r.file_path with
  | none => rw [hfp] at hscan; simp at hscan
  | some p => exact ⟨p, rfl⟩

/-- A scanned reference passes the missing filter. -/
theorem scanned_missing_cond (σ : Store) (pfx : List String) (im : Bool)
    (r : Reference) (hscan : scannedRef σ pfx im r = true) :
    (im || !r.is_missing) = true := by
  obtain ⟨p, hp⟩ := scanned_path σ pfx im r hscan
  by_cases hc : (im || !r.is_missing) = true
  · exact hc
  · exfalso
    have h2 : ((pfx.any fun b => underDir b p) && (im || !r.is_missing)) = false := by
      cases hx : (im || !r.is_missing)
      · simp
      · exact absurd hx hc
    simp [scannedRef, rowFor, hp, h2] at hscan

/-- A scanned reference joins its asset row. -/
theorem scanned_asset (σ : Store) (pfx : List String) (im : Bool)
    (r : Reference) (hscan : scannedRef σ pfx im r = true) :
    (assetFor σ r.asset_id).isSome = true := by
  obtain ⟨p, hp⟩ := scanned_path σ pfx im r hscan
  cases hc : ((pfx.any fun b => underDir b p) && (im || !r.is_missing)) with
  | false =>
      exfalso
      simp [scannedRef, rowFor, hp, hc] at hscan
  | true =>
      simp [scannedRef, rowFor, hp, hc] at hscan
      exact hscan

/-- The size the fast check compares against, given the joined asset. -/
theorem sizeDB_of (σ : Store) (q : Reference) (a : Asset)
    (ha : assetFor σ q.asset_id = some a) : refSizeDB σ q = a.size_bytes := by
  unfold refSizeDB
  rw [ha]

/-- The fast check depends only on the path, the stored mtime and the
joined size. -/
theorem fastok_congr (fs : FS) (σa σb : Store) (qa qb : Reference)
    (hfp : qa.file_path = qb.file_path) (hmt : qa.mtime_ns = qb.mtime_ns)
    (hsz : refSizeDB σa qa = refSizeDB σb qb) :
    refFastOk fs σa qa = refFastOk fs σb qb := by
  cases hb : qb.file_path with
  | none => simp [refFastOk, hfp, hb]
  | some p =>
      simp only [refFastOk, hfp, hb]
      rw [hmt, hsz]

/-- Asset ids remain duplicate-free across a pass. -/
theorem sync_nodup_asset_ids (fs : FS) (σ : Store) (pfx : List String) (im : Bool)
    (hNA : (σ.assets.map fun x => x.id).Nodup) :
    ((sync_references_with_filesystem fs σ pfx im).1.assets.map fun x => x.id).Nodup := by
  by_cases hpfx : pfx = []
  · subst hpfx
    unfold sync_references_with_filesystem
    rw [if_pos rfl]
    exact hNA
  · rw [sync_eq fs σ pfx im hpfx, applySync_assets]
    exact ((List.filter_sublist σ.assets).map fun x => x.id).nodup hNA

/-- An asset row found after a pass was the row found before the pass. -/
theorem sync_assetFor_rev (fs : FS) (σ : Store) (pfx : List String) (im : Bool)
    (hNA : (σ.assets.map fun x => x.id).Nodup) (i : Nat) (a : Asset)
    (ha1 : assetFor (sync_references_with_filesystem fs σ pfx im).1 i = some a) :
    assetFor σ i = some a := by
  by_cases hpfx : pfx = []
  · subst hpfx
    unfold sync_references_with_filesystem at ha1
    rw [if_pos rfl] at ha1
    exact ha1
  · rw [sync_eq fs σ pfx im hpfx] at ha1
    unfold assetFor at ha1
    rw [applySync_assets] at ha1
    have hmem : a ∈ σ.assets :=
      (List.mem_filter.mp (List.mem_of_find?_eq_some ha1)).1
    have hbeq := List.find?_some ha1
    unfold assetFor
    apply find?_eq_of_unique _ σ.assets a hmem hbeq
    intro y hy hpy
    apply List.inj_on_of_nodup_map hNA hy hmem
    have h1 : y.id = i := by simpa using hpy
    have h2 : a.id = i := by simpa using hbeq
    rw [h1, h2]

/-- A reference the second pass scans was scanned by the first pass. -/
theorem sync_scanned_back (fs : FS) (σ : Store) (pfx : List String) (im : Bool)
    (hNR : (σ.refs.map fun x => x.id).Nodup)
    (hNA : (σ.assets.map fun x => x.id).Nodup)
    (q : Reference) (hq : q ∈ σ.refs)
    (hscan2 : scannedRef (sync_references_with_filesystem fs σ pfx im).1 pfx im
      (flagUpd (computeSync fs (get_references_for_prefixes σ pfx im)) q) = true) :
    scannedRef σ pfx im q = true := by
  obtain ⟨p, hp'⟩ := scanned_path _ pfx im _ hscan2
  have hp : q.file_path = some p := hp'
  have hcond := scanned_prefix_cond _ pfx im _ p hp' hscan2
  obtain ⟨a, ha1⟩ := Option.isSome_iff_exists.mp (scanned_asset _ pfx im _ hscan2)
  have ha0 : assetFor σ q.asset_id = some a :=
    sync_assetFor_rev fs σ pfx im hNA q.asset_id a ha1
  have hmiss2 := scanned_missing_cond _ pfx im _ hscan2
  cases him : im with
  | true => exact scanned_of σ pfx true q p hp hcond rfl (by rw [ha0]; rfl)
  | false =>
      subst him
      simp only [Bool.false_or] at hmiss2
      by_cases hclear : q.id ∈
          (computeSync fs (get_references_for_prefixes σ pfx false)).to_clear_missing
      · exact ((mem_to_clear_missing_iff fs σ pfx false hNR q hq).mp hclear).1
      · by_cases hmark : q.id ∈
            (computeSync fs (get_references_for_prefixes σ pfx false)).to_mark_missing.filter
              fun i => i ∉ (computeSync fs (get_references_for_prefixes σ pfx false)).stale_ref_ids
        · exfalso
          have hval : (flagUpd (computeSync fs (get_references_for_prefixes σ pfx false))
              q).is_missing = true := by
            simp only [flagUpd]
            rw [if_neg hclear, if_pos hmark]
          rw [hval] at hmiss2
          simp at hmiss2
        · have hval : (flagUpd (computeSync fs (get_references_for_prefixes σ pfx false))
              q).is_missing = q.is_missing := by
            simp only [flagUpd]
            rw [if_neg hclear, if_neg hmark]
          rw [hval] at hmiss2
          exact scanned_of σ pfx false q p hp hcond
            (by rw [Bool.false_or]; exact hmiss2) (by rw [ha0]; rfl)

/-- A present reference scanned and kept by the first pass is scanned by
the second pass, provided its asset row survived. -/
theorem sync_scanned_fwd_present (fs : FS) (σ : Store) (pfx : List String) (im : Bool)
    (hNR : (σ.refs.map fun x => x.id).Nodup)
    (w : Reference) (hw : w ∈ σ.refs)
    (hscan1 : scannedRef σ pfx im w = true)
    (hex : refFileExists fs w = true)
    (a : Asset)
    (ha1 : assetFor (sync_references_with_filesystem fs σ pfx im).1 w.asset_id = some a) :
    scannedRef (sync_references_with_filesystem fs σ pfx im).1 pfx im
      (flagUpd (computeSync fs (get_references_for_prefixes σ pfx im)) w) = true := by
  obtain ⟨p, hp⟩ := scanned_path σ pfx im w hscan1
  have hcond := scanned_prefix_cond σ pfx im w p hp hscan1
  have him : (im || !(flagUpd (computeSync fs (get_references_for_prefixes σ pfx im))
      w).is_missing) = true := by
    cases him0 : im with
    | true => rfl
    | false =>
        subst him0
        have hm := scanned_missing_cond σ pfx false w hscan1
        simp only [Bool.false_or] at hm
        by_cases hclear : w.id ∈
            (computeSync fs (get_references_for_prefixes σ pfx false)).to_clear_missing
        · simp [flagUpd, hclear]
        · have hnomark : w.id ∉
              (computeSync fs (get_references_for_prefixes σ pfx false)).to_mark_missing.filter
                fun i => i ∉ (computeSync fs
                  (get_references_for_prefixes σ pfx false)).stale_ref_ids := by
            intro hmem
            obtain ⟨_, hexf⟩ := (mem_to_mark_iff fs σ pfx false hNR w hw).mp
              (List.mem_filter.mp hmem).1
            rw [hexf] at hex
            cases hex
          have hval : (flagUpd (computeSync fs (get_references_for_prefixes σ pfx false))
              w).is_missing = w.is_missing := by
            simp only [flagUpd]
            rw [if_neg hclear, if_neg hnomark]
          rw [Bool.false_or, hval]
          exact hm
  refine scanned_of _ pfx im _ p hp hcond him ?_
  show (assetFor (sync_references_with_filesystem fs σ pfx im).1 w.asset_id).isSome = true
  rw [ha1]
  rfl

/-- The second pass of a double run stub-deletes nothing. -/
theorem sync_stub2_empty (fs : FS) (σ : Store) (pfx : List String) (im : Bool)
    (hpfx : pfx ≠ [])
    (hNR : (σ.refs.map fun x => x.id).Nodup)
    (hNA : (σ.assets.map fun x => x.id).Nodup) (aid : Nat) :
    aid ∉ (computeSync fs (get_references_for_prefixes
      (sync_references_with_filesystem fs σ pfx im).1 pfx im)).stub_deleted := by
  intro hmem
  obtain ⟨_, hgs2⟩ := (mem_stubDeleted fs _ aid).mp hmem
  obtain ⟨⟨q', hq', hscan2, haid'⟩, hall2, a, ha1, hhash⟩ :=
    (groupStubDeleted_iff fs (sync_references_with_filesystem fs σ pfx im).1
      pfx im aid).mp hgs2
  obtain ⟨q, hq, hkeep, rfl⟩ := sync_refs_preimage fs σ pfx im hpfx q' hq'
  have hscan1 := sync_scanned_back fs σ pfx im hNR hNA q hq hscan2
  have haid : q.asset_id = aid := haid'
  have ha0 : assetFor σ aid = some a := by
    rw [← haid]
    exact sync_assetFor_rev fs σ pfx im hNA q.asset_id a (by rw [haid]; exact ha1)
  have hamem1 : a ∈ (sync_references_with_filesystem fs σ pfx im).1.assets :=
    List.mem_of_find?_eq_some ha1
  have haidA : a.id = aid := by simpa using List.find?_some ha1
  have hnostub1 : aid ∉
      (computeSync fs (get_references_for_prefixes σ pfx im)).stub_deleted := by
    rw [sync_eq fs σ pfx im hpfx, applySync_assets] at hamem1
    have h2 := (List.mem_filter.mp hamem1).2
    simpa [haidA] using h2
  have hrow1 : ∃ row ∈ get_references_for_prefixes σ pfx im, row.asset_id = aid := by
    rcases Option.isSome_iff_exists.mp hscan1 with ⟨row, hrow⟩
    obtain ⟨_, h2, _⟩ := rowFor_spec σ pfx im q row hrow
    exact ⟨row, List.mem_filterMap.mpr ⟨q, hq, hrow⟩, by rw [h2, haid]⟩
  have hgs1 : ¬ groupStubDeleted fs (get_references_for_prefixes σ pfx im) aid = true := by
    intro hgs
    exact hnostub1 ((mem_stubDeleted fs _ aid).mpr ⟨hrow1, hgs⟩)
  have hnotall : ¬ (∀ w ∈ σ.refs, scannedRef σ pfx im w = true → w.asset_id = aid →
      refFileExists fs w = false) := by
    intro hall
    exact hgs1 ((groupStubDeleted_iff fs σ pfx im aid).mpr
      ⟨⟨q, hq, hscan1, haid⟩, hall, a, ha0, hhash⟩)
  push_neg at hnotall
  obtain ⟨w, hw, hscanw, haidw, hexw0⟩ := hnotall
  have hexw : refFileExists fs w = true := by
    cases hx : refFileExists fs w
    · exact absurd hx hexw0
    · rfl
  have hkeepw := keep_of_present fs σ pfx im hNR w hw hscanw hexw
  have hw'mem : flagUpd (computeSync fs (get_references_for_prefixes σ pfx im)) w ∈
      (sync_references_with_filesystem fs σ pfx im).1.refs := by
    rw [sync_eq fs σ pfx im hpfx, applySync_refs]
    exact List.mem_map_of_mem _ (List.mem_filter.mpr ⟨hw, hkeepw⟩)
  have ha1w : assetFor (sync_references_with_filesystem fs σ pfx im).1 w.asset_id =
      some a := by
    rw [haidw]
    exact ha1
  have hscanw2 := sync_scanned_fwd_present fs σ pfx im hNR w hw hscanw hexw a ha1w
  have hcontra := hall2 _ hw'mem hscanw2 haidw
  have hfalse : refFileExists fs w = false := hcontra
  rw [hfalse] at hexw
  cases hexw

/-- The second pass of a double run has no stale references. -/
theorem sync_stale2_not (fs : FS) (σ : Store) (pfx : List String) (im : Bool)
    (hpfx : pfx ≠ [])
    (hNR : (σ.refs.map fun x => x.id).Nodup)
    (hNA : (σ.assets.map fun x => x.id).Nodup)
    (q' : Reference) (hq' : q' ∈ (sync_references_with_filesystem fs σ pfx im).1.refs) :
    q'.id ∉ (computeSync fs (get_references_for_prefixes
      (sync_references_with_filesystem fs σ pfx im).1 pfx im)).stale_ref_ids := by
  intro hmem
  have hNR1 := sync_nodup_ids fs σ pfx im hNR
  obtain ⟨hscan2, hex2, ⟨a, ha1, hhash⟩, w2', hw2', hscanw2, haidw2, hfow2⟩ :=
    (mem_stale_iff fs (sync_references_with_filesystem fs σ pfx im).1 pfx im
      hNR1 q' hq').mp hmem
  obtain ⟨q, hq, hkeep, rfl⟩ := sync_refs_preimage fs σ pfx im hpfx q' hq'
  obtain ⟨w, hw, hkw, rfl⟩ := sync_refs_preimage fs σ pfx im hpfx w2' hw2'
  have hscan1 := sync_scanned_back fs σ pfx im hNR hNA q hq hscan2
  have hscanw1 := sync_scanned_back fs σ pfx im hNR hNA w hw hscanw2
  have hex1 : refFileExists fs q = false := hex2
  have ha0 : assetFor σ q.asset_id = some a :=
    sync_assetFor_rev fs σ pfx im hNA q.asset_id a ha1
  have haidw : w.asset_id = q.asset_id := haidw2
  have ha1w : assetFor (sync_references_with_filesystem fs σ pfx im).1 w.asset_id =
      some a := by rw [haidw]; exact ha1
  have haw0 : assetFor σ w.asset_id = some a := by rw [haidw]; exact ha0
  have hfow1 : refFastOk fs σ w = true := by
    rw [← fastok_congr fs (sync_references_with_filesystem fs σ pfx im).1 σ
      (flagUpd (computeSync fs (get_references_for_prefixes σ pfx im)) w) w rfl rfl
      (by rw [sizeDB_of (sync_references_with_filesystem fs σ pfx im).1
          (flagUpd (computeSync fs (get_references_for_prefixes σ pfx im)) w) a ha1w,
        sizeDB_of σ w a haw0])]
    exact hfow2
  have hstale1 : q.id ∈
      (computeSync fs (get_references_for_prefixes σ pfx im)).stale_ref_ids :=
    (mem_stale_iff fs σ pfx im hNR q hq).mpr
      ⟨hscan1, hex1, ⟨a, ha0, hhash⟩, w, hw, hscanw1, haidw, hfow1⟩
  unfold keepRef at hkeep
  rw [Bool.and_eq_true] at hkeep
  have h2 := hkeep.2
  simp only [decide_eq_true_eq] at h2
  exact h2 hstale1

/-- Classification transfer from the second pass back to the first:
a reference the second pass scans was scanned by the first, its asset row
is the same in both stores, and its fast-check outcome is unchanged. -/
theorem sync_class_back (fs : FS) (σ : Store) (pfx : List String) (im : Bool)
    (hNR : (σ.refs.map fun x => x.id).Nodup)
    (hNA : (σ.assets.map fun x => x.id).Nodup)
    (q : Reference) (hq : q ∈ σ.refs)
    (hscan2 : scannedRef (sync_references_with_filesystem fs σ pfx im).1 pfx im
      (flagUpd (computeSync fs (get_references_for_prefixes σ pfx im)) q) = true) :
    scannedRef σ pfx im q = true ∧
    ∃ a, assetFor σ q.asset_id = some a ∧
      assetFor (sync_references_with_filesystem fs σ pfx im).1 q.asset_id = some a ∧
      refFastOk fs (sync_references_with_filesystem fs σ pfx im).1
        (flagUpd (computeSync fs (get_references_for_prefixes σ pfx im)) q) =
        refFastOk fs σ q := by
  have hscan1 := sync_scanned_back fs σ pfx im hNR hNA q hq hscan2
  obtain ⟨a, ha1⟩ := Option.isSome_iff_exists.mp (scanned_asset _ pfx im _ hscan2)
  have ha1q : assetFor (sync_references_with_filesystem fs σ pfx im).1 q.asset_id =
      some a := ha1
  have ha0 := sync_assetFor_rev fs σ pfx im hNA q.asset_id a ha1q
  refine ⟨hscan1, a, ha0, ha1q, ?_⟩
  exact fastok_congr fs (sync_references_with_filesystem fs σ pfx im).1 σ
    (flagUpd (computeSync fs (get_references_for_prefixes σ pfx im)) q) q rfl rfl
    (by rw [sizeDB_of (sync_references_with_filesystem fs σ pfx im).1
        (flagUpd (computeSync fs (get_references_for_prefixes σ pfx im)) q) a ha1q,
      sizeDB_of σ q a ha0])

/-- On a surviving reference, the flag updates of the second pass write
the values the first pass already wrote. -/
theorem sync_flagUpd2_id (fs : FS) (σ : Store) (pfx : List String) (im : Bool)
    (hpfx : pfx ≠ [])
    (hNR : (σ.refs.map fun x => x.id).Nodup)
    (hNA : (σ.assets.map fun x => x.id).Nodup)
    (q' : Reference) (hq' : q' ∈ (sync_references_with_filesystem fs σ pfx im).1.refs) :
    flagUpd (computeSync fs (get_references_for_prefixes
      (sync_references_with_filesystem fs σ pfx im).1 pfx im)) q' = q' := by
  have hNR1 := sync_nodup_ids fs σ pfx im hNR
  obtain ⟨q, hq, hkeep, rfl⟩ := sync_refs_preimage fs σ pfx im hpfx q' hq'
  have hkstale : q.id ∉
      (computeSync fs (get_references_for_prefixes σ pfx im)).stale_ref_ids := by
    unfold keepRef at hkeep
    rw [Bool.and_eq_true] at hkeep
    have h2 := hkeep.2
    simpa using h2
  have hM : (if (flagUpd (computeSync fs (get_references_for_prefixes σ pfx im)) q).id ∈
        (computeSync fs (get_references_for_prefixes
          (sync_references_with_filesystem fs σ pfx im).1 pfx im)).to_clear_missing
      then false
      else if (flagUpd (computeSync fs (get_references_for_prefixes σ pfx im)) q).id ∈
        (computeSync fs (get_references_for_prefixes
          (sync_references_with_filesystem fs σ pfx im).1 pfx im)).to_mark_missing.filter
          (fun i => i ∉ (computeSync fs (get_references_for_prefixes
            (sync_references_with_filesystem fs σ pfx im).1 pfx im)).stale_ref_ids)
      then true
      else (flagUpd (computeSync fs (get_references_for_prefixes σ pfx im)) q).is_missing) =
      (flagUpd (computeSync fs (get_references_for_prefixes σ pfx im)) q).is_missing := by
    by_cases hc2 : (flagUpd (computeSync fs (get_references_for_prefixes σ pfx im)) q).id ∈
        (computeSync fs (get_references_for_prefixes
          (sync_references_with_filesystem fs σ pfx im).1 pfx im)).to_clear_missing
    · rw [if_pos hc2]
      obtain ⟨hscan2, hex2, hfo2⟩ :=
        (mem_to_clear_missing_iff fs (sync_references_with_filesystem fs σ pfx im).1
          pfx im hNR1 _ hq').mp hc2
      obtain ⟨hscan1, a, ha0, ha1, hfoeq⟩ := sync_class_back fs σ pfx im hNR hNA q hq hscan2
      have hex1 : refFileExists fs q = true := hex2
      have hfo1 : refFastOk fs σ q = true := by rw [← hfoeq]; exact hfo2
      have hc1 : q.id ∈
          (computeSync fs (get_references_for_prefixes σ pfx im)).to_clear_missing :=
        (mem_to_clear_missing_iff fs σ pfx im hNR q hq).mpr ⟨hscan1, hex1, hfo1⟩
      have hval : (flagUpd (computeSync fs (get_references_for_prefixes σ pfx im))
          q).is_missing = false := by
        simp only [flagUpd]
        rw [if_pos hc1]
      rw [hval]
    · rw [if_neg hc2]
      by_cases hm2 : (flagUpd (computeSync fs (get_references_for_prefixes σ pfx im)) q).id ∈
          (computeSync fs (get_references_for_prefixes
            (sync_references_with_filesystem fs σ pfx im).1 pfx im)).to_mark_missing.filter
            fun i => i ∉ (computeSync fs (get_references_for_prefixes
              (sync_references_with_filesystem fs σ pfx im).1 pfx im)).stale_ref_ids
      · rw [if_pos hm2]
        obtain ⟨hscan2, hex2⟩ :=
          (mem_to_mark_iff fs (sync_references_with_filesystem fs σ pfx im).1
            pfx im hNR1 _ hq').mp (List.mem_filter.mp hm2).1
        obtain ⟨hscan1, a, ha0, ha1, hfoeq⟩ := sync_class_back fs σ pfx im hNR hNA q hq hscan2
        have hex1 : refFileExists fs q = false := hex2
        have hm1 : q.id ∈
            (computeSync fs (get_references_for_prefixes σ pfx im)).to_mark_missing :=
          (mem_to_mark_iff fs σ pfx im hNR q hq).mpr ⟨hscan1, hex1⟩
        have hnc1 : q.id ∉
            (computeSync fs (get_references_for_prefixes σ pfx im)).to_clear_missing := by
          intro hc
          obtain ⟨_, hex', _⟩ := (mem_to_clear_missing_iff fs σ pfx im hNR q hq).mp hc
          rw [hex'] at hex1
          cases hex1
        have hmf1 : q.id ∈
            (computeSync fs (get_references_for_prefixes σ pfx im)).to_mark_missing.filter
              fun i => i ∉
                (computeSync fs (get_references_for_prefixes σ pfx im)).stale_ref_ids :=
          List.mem_filter.mpr ⟨hm1, by simpa using hkstale⟩
        have hval : (flagUpd (computeSync fs (get_references_for_prefixes σ pfx im))
            q).is_missing = true := by
          simp only [flagUpd]
          rw [if_neg hnc1, if_pos hmf1]
        rw [hval]
      · rw [if_neg hm2]
  have hV : (if (flagUpd (computeSync fs (get_references_for_prefixes σ pfx im)) q).id ∈
        (computeSync fs (get_references_for_prefixes
          (sync_references_with_filesystem fs σ pfx im).1 pfx im)).to_clear_verify
      then false
      else if (flagUpd (computeSync fs (get_references_for_prefixes σ pfx im)) q).id ∈
        (computeSync fs (get_references_for_prefixes
          (sync_references_with_filesystem fs σ pfx im).1 pfx im)).to_set_verify
      then true
      else (flagUpd (computeSync fs (get_references_for_prefixes σ pfx im)) q).needs_verify) =
      (flagUpd (computeSync fs (get_references_for_prefixes σ pfx im)) q).needs_verify := by
    by_cases hcv2 : (flagUpd (computeSync fs (get_references_for_prefixes σ pfx im)) q).id ∈
        (computeSync fs (get_references_for_prefixes
          (sync_references_with_filesystem fs σ pfx im).1 pfx im)).to_clear_verify
    · rw [if_pos hcv2]
      obtain ⟨hscan2, hex2, hfo2, _⟩ :=
        (mem_to_clear_verify_iff fs (sync_references_with_filesystem fs σ pfx im).1
          pfx im hNR1 _ hq').mp hcv2
      obtain ⟨hscan1, a, ha0, ha1, hfoeq⟩ := sync_class_back fs σ pfx im hNR hNA q hq hscan2
      have hex1 : refFileExists fs q = true := hex2
      have hfo1 : refFastOk fs σ q = true := by rw [← hfoeq]; exact hfo2
      have hval : (flagUpd (computeSync fs (get_references_for_prefixes σ pfx im))
          q).needs_verify = false := by
        by_cases hq1 : q.needs_verify = true
        · have hcv1 : q.id ∈
              (computeSync fs (get_references_for_prefixes σ pfx im)).to_clear_verify :=
            (mem_to_clear_verify_iff fs σ pfx im hNR q hq).mpr ⟨hscan1, hex1, hfo1, hq1⟩
          simp only [flagUpd]
          rw [if_pos hcv1]
        · have hq0 : q.needs_verify = false := by
            cases hx : q.needs_verify
            · rfl
            · exact absurd hx hq1
          have hncv1 : q.id ∉
              (computeSync fs (get_references_for_prefixes σ pfx im)).to_clear_verify := by
            intro hc
            obtain ⟨_, _, _, hnv⟩ := (mem_to_clear_verify_iff fs σ pfx im hNR q hq).mp hc
            exact hq1 hnv
          have hnsv1 : q.id ∉
              (computeSync fs (get_references_for_prefixes σ pfx im)).to_set_verify := by
            intro hs
            obtain ⟨_, _, hfo', _⟩ := (mem_to_set_verify_iff fs σ pfx im hNR q hq).mp hs
            rw [hfo1] at hfo'
            cases hfo'
          simp only [flagUpd]
          rw [if_neg hncv1, if_neg hnsv1]
          exact hq0
      rw [hval]
    · rw [if_neg hcv2]
      by_cases hsv2 : (flagUpd (computeSync fs (get_references_for_prefixes σ pfx im)) q).id ∈
          (computeSync fs (get_references_for_prefixes
            (sync_references_with_filesystem fs σ pfx im).1 pfx im)).to_set_verify
      · exfalso
        obtain ⟨hscan2, hex2, hfo2, hnv2⟩ :=
          (mem_to_set_verify_iff fs (sync_references_with_filesystem fs σ pfx im).1
            pfx im hNR1 _ hq').mp hsv2
        obtain ⟨hscan1, a, ha0, ha1, hfoeq⟩ := sync_class_back fs σ pfx im hNR hNA q hq hscan2
        have hex1 : refFileExists fs q = true := hex2
        have hfo1 : refFastOk fs σ q = false := by rw [← hfoeq]; exact hfo2
        by_cases hq1 : q.needs_verify = true
        · have hncv1 : q.id ∉
              (computeSync fs (get_references_for_prefixes σ pfx im)).to_clear_verify := by
            intro hc
            obtain ⟨_, _, hfo', _⟩ := (mem_to_clear_verify_iff fs σ pfx im hNR q hq).mp hc
            rw [hfo1] at hfo'
            cases hfo'
          have hnsv1 : q.id ∉
              (computeSync fs (get_references_for_prefixes σ pfx im)).to_set_verify := by
            intro hs
            obtain ⟨_, _, _, hnv'⟩ := (mem_to_set_verify_iff fs σ pfx im hNR q hq).mp hs
            rw [hq1] at hnv'
            cases hnv'
          have hval : (flagUpd (computeSync fs (get_references_for_prefixes σ pfx im))
              q).needs_verify = true := by
            simp only [flagUpd]
            rw [if_neg hncv1, if_neg hnsv1]
            exact hq1
          rw [hval] at hnv2
          cases hnv2
        · have hq0 : q.needs_verify = false := by
            cases hx : q.needs_verify
            · rfl
            · exact absurd hx hq1
          have hsv1 : q.id ∈
              (computeSync fs (get_references_for_prefixes σ pfx im)).to_set_verify :=
            (mem_to_set_verify_iff fs σ pfx im hNR q hq).mpr ⟨hscan1, hex1, hfo1, hq0⟩
          have hncv1 : q.id ∉
              (computeSync fs (get_references_for_prefixes σ pfx im)).to_clear_verify := by
            intro hc
            obtain ⟨_, _, hfo', _⟩ := (mem_to_clear_verify_iff fs σ pfx im hNR q hq).mp hc
            rw [hfo1] at hfo'
            cases hfo'
          have hval : (flagUpd (computeSync fs (get_references_for_prefixes σ pfx im))
              q).needs_verify = true := by
            simp only [flagUpd]
            rw [if_neg hncv1, if_pos hsv1]
          rw [hval] at hnv2
          cases hnv2
      · rw [if_neg hsv2]
  have hout : flagUpd (computeSync fs (get_references_for_prefixes
      (sync_references_with_filesystem fs σ pfx im).1 pfx im))
      (flagUpd (computeSync fs (get_references_for_prefixes σ pfx im)) q) =
      { flagUpd (computeSync fs (get_references_for_prefixes σ pfx im)) q with
        is_missing :=
          if (flagUpd (computeSync fs (get_references_for_prefixes σ pfx im)) q).id ∈
            (computeSync fs (get_references_for_prefixes
              (sync_references_with_filesystem fs σ pfx im).1 pfx im)).to_clear_missing
          then false
          else if (flagUpd (computeSync fs (get_references_for_prefixes σ pfx im)) q).id ∈
            (computeSync fs (get_references_for_prefixes
              (sync_references_with_filesystem fs σ pfx im).1 pfx im)).to_mark_missing.filter
              (fun i => i ∉ (computeSync fs (get_references_for_prefixes
                (sync_references_with_filesystem fs σ pfx im).1 pfx im)).stale_ref_ids)
          then true
          else (flagUpd (computeSync fs (get_references_for_prefixes σ pfx im)) q).is_missing
        needs_verify :=
          if (flagUpd (computeSync fs (get_references_for_prefixes σ pfx im)) q).id ∈
            (computeSync fs (get_references_for_prefixes
              (sync_references_with_filesystem fs σ pfx im).1 pfx im)).to_clear_verify
          then false
          else if (flagUpd (computeSync fs (get_references_for_prefixes σ pfx im)) q).id ∈
            (computeSync fs (get_references_for_prefixes
              (sync_references_with_filesystem fs σ pfx im).1 pfx im)).to_set_verify
          then true
          else (flagUpd (computeSync fs
            (get_references_for_prefixes σ pfx im)) q).needs_verify } := rfl
  rw [hout, hM, hV]

/-- C7 (confirmed): running the Reconciler twice over the same root with
the same filesystem leaves the second pass a no-op — the store after the
second pass equals the store after the first (no flag changes, no further
deletions). -/
theorem C7_reconciler_idempotent (fs : FS) (σ : Store) (pfx : List String) (im : Bool)
    (hNR : (σ.refs.map fun x => x.id).Nodup)
    (hNA : (σ.assets.map fun x => x.id).Nodup) :
    (sync_references_with_filesystem fs
      (sync_references_with_filesystem fs σ pfx im).1 pfx im).1 =
      (sync_references_with_filesystem fs σ pfx im).1 := by
  by_cases hpfx : pfx = []
  · subst hpfx
    have h0 : ∀ τ : Store, (sync_references_with_filesystem fs τ [] im).1 = τ := by
      intro τ
      unfold sync_references_with_filesystem
      rw [if_pos rfl]
    rw [h0, h0]
  · have hstub2 := sync_stub2_empty fs σ pfx im hpfx hNR hNA
    rw [sync_eq fs (sync_references_with_filesystem fs σ pfx im).1 pfx im hpfx]
    apply store_ext
    · rw [applySync_assets]
      apply List.filter_eq_self.mpr
      intro b _
      simpa using hstub2 b.id
    · rw [applySync_refs]
      have hkeep2 : ∀ q' ∈ (sync_references_with_filesystem fs σ pfx im).1.refs,
          keepRef (computeSync fs (get_references_for_prefixes
            (sync_references_with_filesystem fs σ pfx im).1 pfx im)) q' = true := by
        intro q' hq'
        unfold keepRef
        rw [Bool.and_eq_true]
        constructor
        · simpa using hstub2 q'.asset_id
        · simpa using sync_stale2_not fs σ pfx im hpfx hNR hNA q' hq'
      rw [List.filter_eq_self.mpr hkeep2]
      have hid2 : ∀ q' ∈ (sync_references_with_filesystem fs σ pfx im).1.refs,
          flagUpd (computeSync fs (get_references_for_prefixes
            (sync_references_with_filesystem fs σ pfx im).1 pfx im)) q' = q' :=
        fun q' hq' => sync_flagUpd2_id fs σ pfx im hpfx hNR hNA q' hq'
      exact (List.map_congr_left hid2).trans (List.map_id' _)

/-- C7 witness: double reconciliation of the changed-mtime store. -/
theorem C7_witness :
    (sync_references_with_filesystem exFsChanged
      (sync_references_with_filesystem exFsChanged exStoreHashed ["/m"] true).1
      ["/m"] true).1 =
      (sync_references_with_filesystem exFsChanged exStoreHashed ["/m"] true).1 :=
  C7_reconciler_idempotent exFsChanged exStoreHashed ["/m"] true (by decide) (by decide)

/-- C6 counterexample: a hashed Asset with two References; one file is
removed while the sibling Reference still passes the fast check — the
pass hard-deletes the missing Reference's row outright (scanner.py lines
201-204 and 222), so it is not soft-deleted with metadata retained,
refuting the claimed unconditional `is_missing := true` outcome. -/
theorem C6_counterexample :
    exRefChanged.is_missing = false ∧
    exRefChanged.asset_id = exRefSibling.asset_id ∧
    (exStoreTwoRefs.assets.all fun b => b.hash == some "blake3:h") = true ∧
    scannedRef exStoreTwoRefs ["/m"] true exRefChanged = true ∧
    refFileExists exFsSiblingOk exRefChanged = false ∧
    refFastOk exFsSiblingOk exStoreTwoRefs exRefSibling = true ∧
    findRef (sync_references_with_filesystem exFsSiblingOk exStoreTwoRefs ["/m"] true).1
      exRefChanged.id = none := by
  decide

/-- C6 (amended): a non-missing Reference of a hashed Asset, sole owner of
its path, whose file is removed.  If no scanned Reference of the Asset
passes the fast check, reconciling soft-deletes it (`is_missing := true`,
`user_metadata` and every other column untouched), and a file recreated at
the path with the stored `(mtime, size)` restores it — by reconciling
(`is_missing := false`, `needs_verify := false`) or by re-ingesting the
path with a fresh id (`is_missing := false`, the ingest reporting
`won_paths = 0, lost_paths = 1`) — the path keeping exactly one Reference
row throughout.  But if some scanned Reference of the same Asset does pass
the fast check, the missing Reference is instead hard-deleted by the pass:
its row (metadata included) is gone. -/
theorem C6_soft_delete_restore_amended (fs1 fs2 : FS) (σ : Store)
    (pfx : List String) (r : Reference) (P : String) (a : Asset) (h : String)
    (m : Nat)
    (hNR : (σ.refs.map fun x => x.id).Nodup)
    (hNA : (σ.assets.map fun x => x.id).Nodup)
    (hr : r ∈ σ.refs) (hp : r.file_path = some P) (hm : r.is_missing = false)
    (ha : assetFor σ r.asset_id = some a) (hh : a.hash = some h)
    (huniqP : ∀ q ∈ σ.refs, q.file_path = some P → q = r)
    (hcond : (pfx.any fun b => underDir b P) = true)
    (hgone : statOf fs1 P = StatResult.notFound)
    (hmt : r.mtime_ns = some m)
    (hback : statOf fs2 P = StatResult.ok m a.size_bytes) :
    ((∀ q ∈ σ.refs, scannedRef σ pfx true q = true → q.asset_id = r.asset_id →
        refFastOk fs1 σ q = false) →
      findRef (sync_references_with_filesystem fs1 σ pfx true).1 r.id =
        some { r with is_missing := true } ∧
      ((sync_references_with_filesystem fs1 σ pfx true).1.refs.countP
        fun q => q.file_path == some P) = 1 ∧
      findRef (sync_references_with_filesystem fs2
          (sync_references_with_filesystem fs1 σ pfx true).1 pfx true).1 r.id =
        some { r with needs_verify := false, is_missing := false } ∧
      ((sync_references_with_filesystem fs2
          (sync_references_with_filesystem fs1 σ pfx true).1 pfx true).1.refs.countP
        fun q => q.file_path == some P) = 1) ∧
    ((∃ w ∈ σ.refs, scannedRef σ pfx true w = true ∧ w.asset_id = r.asset_id ∧
        refFastOk fs1 σ w = true) →
      findRef (sync_references_with_filesystem fs1 σ pfx true).1 r.id = none) ∧
    ((∀ q ∈ σ.refs, scannedRef σ pfx true q = true → q.asset_id = r.asset_id →
        refFastOk fs1 σ q = false) →
      ∀ (s : SeedAssetSpec) (a2 r2 : Nat) (o : String),
        s.abs_path = P → s.hash = none →
        (∀ b ∈ σ.assets, b.id ≠ a2) → (∀ q ∈ σ.refs, q.asset_id ≠ a2) →
        findRef (batch_insert_seed_assets
            (sync_references_with_filesystem fs1 σ pfx true).1 [s] [(a2, r2)] o).1
            r.id = some { r with is_missing := false } ∧
        (batch_insert_seed_assets
            (sync_references_with_filesystem fs1 σ pfx true).1 [s] [(a2, r2)] o).2 =
          { inserted_refs := 0, won_paths := 0, lost_paths := 1 } ∧
        ((batch_insert_seed_assets
            (sync_references_with_filesystem fs1 σ pfx true).1 [s] [(a2, r2)] o).1.refs.countP
          fun q => q.file_path == some P) = 1) := by
  have hpfx : pfx ≠ [] := by
    intro hnil
    subst hnil
    simp at hcond
  have hscan1 : scannedRef σ pfx true r = true :=
    scanned_of σ pfx true r P hp hcond rfl (by rw [ha]; rfl)
  have hex1 : refFileExists fs1 r = false := by
    simp [refFileExists, hp, fileExistsAt, hgone]
  have hcount0 : (σ.refs.countP fun q => q.file_path == some P) = 1 :=
    countP_eq_one_of_unique _ σ.refs r hr (by simp [hp])
      (fun y hy hpy => huniqP y hy (by simpa using hpy)) (List.Nodup.of_map _ hNR)
  have hNR1 := sync_nodup_ids fs1 σ pfx true hNR
  have core : (∀ q ∈ σ.refs, scannedRef σ pfx true q = true → q.asset_id = r.asset_id →
      refFastOk fs1 σ q = false) →
      findRef (sync_references_with_filesystem fs1 σ pfx true).1 r.id =
        some { r with is_missing := true } ∧
      ((sync_references_with_filesystem fs1 σ pfx true).1.refs.countP
        fun q => q.file_path == some P) = 1 := by
    intro hnofast
    have h1 := sync_absent_marked fs1 σ pfx true hNR r hr hscan1 hex1 a ha h hh hnofast
    have hkeep1 : ∀ q ∈ σ.refs, q.file_path = some P →
        keepRef (computeSync fs1 (get_references_for_prefixes σ pfx true)) q = true := by
      intro q hq hqP
      have hqr : q = r := huniqP q hq hqP
      subst hqr
      exact keep_of_absent_hashed fs1 σ pfx true hNR q hq a ha h hh hnofast
    exact ⟨h1, by rw [sync_countP_path fs1 σ pfx true hpfx P hkeep1, hcount0]⟩
  refine ⟨?_, ?_, ?_⟩
  · intro hnofast
    obtain ⟨h1, hcount1⟩ := core hnofast
    have h1' : (sync_references_with_filesystem fs1 σ pfx true).1.refs.find?
        (fun x => x.id == r.id) = some { r with is_missing := true } := h1
    have hr1mem := List.mem_of_find?_eq_some h1'
    have ha1 : assetFor (sync_references_with_filesystem fs1 σ pfx true).1 r.asset_id =
        some a := sync_asset_hashed_preserved fs1 σ pfx true hNA r.asset_id a ha h hh
    have hscan2 : scannedRef (sync_references_with_filesystem fs1 σ pfx true).1 pfx true
        { r with is_missing := true } = true :=
      scanned_of (sync_references_with_filesystem fs1 σ pfx true).1 pfx true
        { r with is_missing := true } P hp hcond rfl (by simp [ha1])
    have hex2 : refFileExists fs2 ({ r with is_missing := true } : Reference) = true := by
      simp [refFileExists, hp, fileExistsAt, hback]
    have hfast2 : refFastOk fs2 (sync_references_with_filesystem fs1 σ pfx true).1
        ({ r with is_missing := true } : Reference) = true := by
      simp [refFastOk, hp, fastOkAt, hback, refSizeDB, ha1, hmt, verify_file_unchanged]
    have h2 := sync_present_ref fs2 (sync_references_with_filesystem fs1 σ pfx true).1
      pfx true hNR1 _ hr1mem hscan2 hex2
    have h2' : findRef (sync_references_with_filesystem fs2
        (sync_references_with_filesystem fs1 σ pfx true).1 pfx true).1 r.id =
        some { r with needs_verify := false, is_missing := false } := by
      simp only [hfast2, if_pos] at h2
      exact h2
    have hkeep2 : ∀ q ∈ (sync_references_with_filesystem fs1 σ pfx true).1.refs,
        q.file_path = some P →
        keepRef (computeSync fs2 (get_references_for_prefixes
          (sync_references_with_filesystem fs1 σ pfx true).1 pfx true)) q = true := by
      intro q hq hqP
      obtain ⟨q0, hq0, _, rfl⟩ := sync_refs_preimage fs1 σ pfx true hpfx q hq
      have hq0r : q0 = r := huniqP q0 hq0 hqP
      subst hq0r
      apply keep_of_present fs2 (sync_references_with_filesystem fs1 σ pfx true).1 pfx true
        hNR1 _ hq
      · exact scanned_of (sync_references_with_filesystem fs1 σ pfx true).1 pfx true
          _ P hqP hcond rfl (by simp [flagUpd, ha1])
      · simp [refFileExists, flagUpd, hp, fileExistsAt, hback]
    have hcount2 : ((sync_references_with_filesystem fs2
        (sync_references_with_filesystem fs1 σ pfx true).1 pfx true).1.refs.countP
        fun q => q.file_path == some P) = 1 := by
      rw [sync_countP_path fs2 (sync_references_with_filesystem fs1 σ pfx true).1 pfx true
        hpfx P hkeep2, hcount1]
    exact ⟨h1, hcount1, h2', hcount2⟩
  · rintro ⟨w, hw, hscanw, haidw, hfow⟩
    have hstale : r.id ∈
        (computeSync fs1 (get_references_for_prefixes σ pfx true)).stale_ref_ids :=
      (mem_stale_iff fs1 σ pfx true hNR r hr).mpr
        ⟨hscan1, hex1, ⟨a, ha, by simp [hh]⟩, w, hw, hscanw, haidw, hfow⟩
    have hkeepf : keepRef (computeSync fs1 (get_references_for_prefixes σ pfx true)) r =
        false := by
      unfold keepRef
      have hx : (decide (r.id ∉ (computeSync fs1
          (get_references_for_prefixes σ pfx true)).stale_ref_ids)) = false := by
        simp [hstale]
      rw [hx, Bool.and_false]
    rw [sync_eq fs1 σ pfx true hpfx]
    unfold findRef
    rw [applySync_refs]
    exact find?_map_filter_of_key_none (fun x => x.id)
      (flagUpd (computeSync fs1 (get_references_for_prefixes σ pfx true)))
      (keepRef (computeSync fs1 (get_references_for_prefixes σ pfx true)))
      (fun x => (rfl :
        (flagUpd (computeSync fs1 (get_references_for_prefixes σ pfx true)) x).id = x.id))
      σ.refs hNR r hr hkeepf
  · intro hnofast s a2 r2 o hsp hsh ha2A ha2R
    obtain ⟨h1, hcount1⟩ := core hnofast
    have h1' : (sync_references_with_filesystem fs1 σ pfx true).1.refs.find?
        (fun x => x.id == r.id) = some { r with is_missing := true } := h1
    have hr1mem := List.mem_of_find?_eq_some h1'
    have hocc1 : ((sync_references_with_filesystem fs1 σ pfx true).1.refs.any
        fun q => q.file_path == some s.abs_path) = true := by
      rw [List.any_eq_true]
      exact ⟨{ r with is_missing := true }, hr1mem, by simp [hp, hsp]⟩
    have hA2 : ∀ b ∈ (sync_references_with_filesystem fs1 σ pfx true).1.assets,
        b.id ≠ a2 := by
      intro b hb
      rw [sync_eq fs1 σ pfx true hpfx, applySync_assets] at hb
      exact ha2A b (List.mem_filter.mp hb).1
    have hR2 : ∀ q ∈ (sync_references_with_filesystem fs1 σ pfx true).1.refs,
        q.asset_id ≠ a2 := by
      intro q hq
      obtain ⟨q0, hq0, _, rfl⟩ := sync_refs_preimage fs1 σ pfx true hpfx q hq
      exact ha2R q0 hq0
    have e3 := batch_single_conflict_restore
      (sync_references_with_filesystem fs1 σ pfx true).1 s a2 r2 o hsh hocc1 hA2 hR2
    have e3' : (batch_insert_seed_assets
        (sync_references_with_filesystem fs1 σ pfx true).1 [s] [(a2, r2)] o).1 =
        { (sync_references_with_filesystem fs1 σ pfx true).1 with
          refs := (sync_references_with_filesystem fs1 σ pfx true).1.refs.map
            (restoreOne s.abs_path) } := by
      rw [e3]
    refine ⟨?_, ?_, ?_⟩
    · rw [e3']
      unfold findRef
      show ((sync_references_with_filesystem fs1 σ pfx true).1.refs.map
          (restoreOne s.abs_path)).find? (fun x => x.id == r.id) =
        some { r with is_missing := false }
      have hfind := find?_map_of_key (fun x => x.id) (restoreOne s.abs_path)
        (fun x => restoreOne_id s.abs_path x)
        (sync_references_with_filesystem fs1 σ pfx true).1.refs hNR1
        { r with is_missing := true } hr1mem
      have hval : restoreOne s.abs_path { r with is_missing := true } =
          { r with is_missing := false } := by
        simp [restoreOne, hp, hsp]
      rw [hval] at hfind
      exact hfind
    · rw [e3]
    · rw [e3']
      show (((sync_references_with_filesystem fs1 σ pfx true).1.refs.map
          (restoreOne s.abs_path)).countP fun q => q.file_path == some P) = 1
      rw [List.countP_map]
      refine Eq.trans (List.countP_congr ?_) hcount1
      intro q hq
      rw [Function.comp_apply, restoreOne_path]

/-- C6 witness: the amended theorem applied to the single-reference hashed
store — its group has no fast-ok member, so the soft-delete branch, both
restore paths and the count conclusions are all exercised. -/
theorem C6_witness :
    ((∀ q ∈ exStoreHashed.refs, scannedRef exStoreHashed ["/m"] true q = true →
        q.asset_id = exRefChanged.asset_id → refFastOk exFsGone exStoreHashed q = false) →
      findRef (sync_references_with_filesystem exFsGone exStoreHashed ["/m"] true).1
          exRefChanged.id = some { exRefChanged with is_missing := true } ∧
      ((sync_references_with_filesystem exFsGone exStoreHashed ["/m"] true).1.refs.countP
        fun q => q.file_path == some "/m/a.bin") = 1 ∧
      findRef (sync_references_with_filesystem exFsIntact
          (sync_references_with_filesystem exFsGone exStoreHashed ["/m"] true).1
          ["/m"] true).1 exRefChanged.id =
        some { exRefChanged with needs_verify := false, is_missing := false } ∧
      ((sync_references_with_filesystem exFsIntact
          (sync_references_with_filesystem exFsGone exStoreHashed ["/m"] true).1
          ["/m"] true).1.refs.countP
        fun q => q.file_path == some "/m/a.bin") = 1) ∧
    ((∃ w ∈ exStoreHashed.refs, scannedRef exStoreHashed ["/m"] true w = true ∧
        w.asset_id = exRefChanged.asset_id ∧
        refFastOk exFsGone exStoreHashed w = true) →
      findRef (sync_references_with_filesystem exFsGone exStoreHashed ["/m"] true).1
        exRefChanged.id = none) ∧
    ((∀ q ∈ exStoreHashed.refs, scannedRef exStoreHashed ["/m"] true q = true →
        q.asset_id = exRefChanged.asset_id → refFastOk exFsGone exStoreHashed q = false) →
      ∀ (s : SeedAssetSpec) (a2 r2 : Nat) (o : String),
        s.abs_path = "/m/a.bin" → s.hash = none →
        (∀ b ∈ exStoreHashed.assets, b.id ≠ a2) →
        (∀ q ∈ exStoreHashed.refs, q.asset_id ≠ a2) →
        findRef (batch_insert_seed_assets
            (sync_references_with_filesystem exFsGone exStoreHashed ["/m"] true).1
            [s] [(a2, r2)] o).1 exRefChanged.id =
          some { exRefChanged with is_missing := false } ∧
        (batch_insert_seed_assets
            (sync_references_with_filesystem exFsGone exStoreHashed ["/m"] true).1
            [s] [(a2, r2)] o).2 =
          { inserted_refs := 0, won_paths := 0, lost_paths := 1 } ∧
        ((batch_insert_seed_assets
            (sync_references_with_filesystem exFsGone exStoreHashed ["/m"] true).1
            [s] [(a2, r2)] o).1.refs.countP
          fun q => q.file_path == some "/m/a.bin") = 1) := by
  exact C6_soft_delete_restore_amended exFsGone exFsIntact exStoreHashed ["/m"]
    exRefChanged "/m/a.bin"
    { id := 1, hash := some "blake3:h", size_bytes := 1024, mime_type := none }
    "blake3:h" 100
    (by decide) (by decide) (by decide) (by decide) (by decide) (by decide)
    (by decide) (by decide) (by decide) (by decide) (by decide) (by decide)

end ComfyAssets
